import Mathlib

/-!
# Verification of the conversation parser and HTML generator

A shallow embedding of `internal/parser` (`types.go`, `parser.go`, `generator.go`).

Modelling conventions.

* A value decoded by `encoding/json` into `interface{}` is a `JSON` tree: `nil`, `bool`,
  `float64`, `string`, `[]interface{}` and `map[string]interface{}`.  A Go type assertion
  `v.(string)` is the partial projection `JSON.asString`, and so on.
* Text decoded from JSON is valid UTF-8 (`encoding/json` replaces invalid bytes by U+FFFD),
  so decoded text is a Lean `String`.  Rendered output is a byte sequence (`Bytes`), since the
  byte slice `preview[:60]` of `generateTOC` may end inside a multi-byte character.
* `time.Time` is the signed number of nanoseconds since the zero instant
  (January 1, year 1, 00:00:00 UTC); `IsZero` is equality with `0`.
* Library functions whose result depends on the environment or on number formatting
  (`time.Format` in the local zone, `json.MarshalIndent`, `json.Unmarshal`) are parameters.
-/

namespace Parser

/-! ## Data model (`types.go`) -/

/-- A value produced by `json.Unmarshal` into `interface{}`.  A `float64` is carried as its
uninterpreted bit pattern; an object is the association list of its keys. -/
inductive JSON where
  | null : JSON
  | bool (b : Bool) : JSON
  | number (bits : Nat) : JSON
  | str (s : String) : JSON
  | arr (items : List JSON) : JSON
  | obj (fields : List (String × JSON)) : JSON

namespace JSON

/-- The type assertion `v.(string)`. -/
def asString : JSON → Option String
  | str s => some s
  | _ => none

/-- The type assertion `v.([]interface{})`. -/
def asArray : JSON → Option (List JSON)
  | arr items => some items
  | _ => none

/-- The type assertion `v.(map[string]interface{})`. -/
def asObject : JSON → Option (List (String × JSON))
  | obj fields => some fields
  | _ => none

end JSON

/-- The map index `m[key]` with the comma-ok form: the value bound to `key`, if any. -/
def getKey (m : List (String × JSON)) (key : String) : Option JSON :=
  m.lookup key

/-- The idiom `s, _ := m[key].(string)`: the string bound to `key`, or `""` when the key is
missing or bound to a value that is not a string. -/
def getString (m : List (String × JSON)) (key : String) : String :=
  ((getKey m key).bind JSON.asString).getD ""

/-- The idiom `s, ok := m[key].(string)`. -/
def getString? (m : List (String × JSON)) (key : String) : Option String :=
  (getKey m key).bind JSON.asString

/-- A `time.Time`: nanoseconds since the zero instant. -/
abbrev Time := Int

/-- The method `Time.IsZero`. -/
def Time.IsZero (t : Time) : Bool := t == 0

/-- The struct `Message`. -/
structure Message where
  Role : String
  Content : JSON
  ID : String
  Type_ : String
  Model : String

/-- The struct `LogEntry`. -/
structure LogEntry where
  Type_ : String
  UUID : String
  SessionID : String
  Timestamp : Time
  Message : Message
  IsVisibleInTranscriptOnly : Bool
  IsCompactSummary : Bool

/-- The struct `Conversation`. -/
structure Conversation where
  SessionID : String
  StartTime : Time
  EndTime : Time
  Entries : List LogEntry

/-! ## Grouping of assistant records (`parser.go`) -/

/-- The loop state of `groupAssistantMessages`: the slice `entries` and the map
`assistantMsgMap`.  The map stores `&newEntry`, a pointer to the loop-local copy, while
`append(entries, newEntry)` stores a second copy by value; the two are therefore separate
records, and the map is modelled as owning its own `LogEntry`. -/
structure GroupState where
  entries : List LogEntry
  assistantMsgMap : List (String × LogEntry)

/-- Assignment `existing.Message.Content = c` through the pointer held by the map. -/
def setMapContent (m : List (String × LogEntry)) (messageID : String) (c : JSON) :
    List (String × LogEntry) :=
  m.map fun kv =>
    if kv.1 == messageID then (kv.1, { kv.2 with Message := { kv.2.Message with Content := c } })
    else kv

/-- One iteration of the loop of `groupAssistantMessages`. -/
def groupStep (st : GroupState) (entry : LogEntry) : GroupState :=
  if entry.Type_ == "user" then
    { st with entries := st.entries ++ [entry] }
  else if entry.Type_ == "assistant" then
    let messageID := entry.Message.ID
    match st.assistantMsgMap.lookup messageID with
    | some existing =>
      match existing.Message.Content.asArray with
      | some existingArr =>
        match entry.Message.Content.asArray with
        | some entryArr =>
          { st with assistantMsgMap :=
              setMapContent st.assistantMsgMap messageID (JSON.arr (existingArr ++ entryArr)) }
        | none => st
      | none => st
    | none =>
      let newEntry := entry
      { entries := st.entries ++ [newEntry],
        assistantMsgMap := (messageID, newEntry) :: st.assistantMsgMap }
  else st

/-- The function `groupAssistantMessages`. -/
def groupAssistantMessages (rawEntries : List LogEntry) : List LogEntry :=
  (rawEntries.foldl groupStep { entries := [], assistantMsgMap := [] }).entries

/-! ## ParseJSONL (`parser.go`) -/

/-- A byte sequence: a Go `string` or `[]byte` whose bytes need not be valid UTF-8. -/
abbrev Bytes := List UInt8

/-- The bytes of a decoded text (its UTF-8 encoding). -/
def utf8 (s : String) : Bytes := s.data.flatMap String.utf8EncodeChar

/-- The outcome of opening the file and running the `bufio.Scanner` over it: the tokens
yielded by the successive calls of `Scan`, and the value of `scanner.Err()` afterwards. -/
structure Scanner where
  lines : List Bytes
  err : Option String

/-- The local variables of `ParseJSONL` carried around its scanning loop. -/
structure ParseState where
  rawEntries : List LogEntry
  sessionID : String
  startTime : Time
  endTime : Time

/-- One iteration of the scanning loop of `ParseJSONL`; `unmarshal` stands for
`json.Unmarshal(line, &entry)` on a fresh `LogEntry`, `none` being a decoding error. -/
def parseStep (unmarshal : Bytes → Option LogEntry) (st : ParseState) (line : Bytes) :
    ParseState :=
  if line.length == 0 then st
  else
    match unmarshal line with
    | none => st
    | some entry =>
      if entry.Type_ == "file-history-snapshot" then st
      else
        let sessionID :=
          if st.sessionID == "" && entry.SessionID != "" then entry.SessionID else st.sessionID
        let startTime :=
          if st.startTime.IsZero && !entry.Timestamp.IsZero then entry.Timestamp
          else st.startTime
        let endTime := if !entry.Timestamp.IsZero then entry.Timestamp else st.endTime
        let rawEntries :=
          if entry.Type_ == "user" || entry.Type_ == "assistant" then st.rawEntries ++ [entry]
          else st.rawEntries
        { rawEntries := rawEntries, sessionID := sessionID, startTime := startTime,
          endTime := endTime }

/-- The function `ParseJSONL`; `file` is the outcome of `os.Open` followed by scanning. -/
def ParseJSONL (unmarshal : Bytes → Option LogEntry) (file : Except String Scanner) :
    Except String Conversation :=
  match file with
  | .error err => .error ("failed to open file: " ++ err)
  | .ok scanner =>
    let st := scanner.lines.foldl (parseStep unmarshal)
      { rawEntries := [], sessionID := "", startTime := 0, endTime := 0 }
    match scanner.err with
    | some err => .error ("failed to scan file: " ++ err)
    | none =>
      let entries := groupAssistantMessages st.rawEntries
      .ok { SessionID := st.sessionID, StartTime := st.startTime, EndTime := st.endTime,
            Entries := entries }

/-! ## HTML generation (`generator.go`) -/

/-- What the generator takes from outside the package: two library calls and the two
embedded asset files, which are not part of the sources. -/
structure Env where
  /-- The call `t.In(time.Local).Format("2006/01/02 15:04:05")`. -/
  localFormat : Time → String
  /-- The call `json.MarshalIndent(v, "", "  ")`, its error ignored, converted to a string. -/
  marshalIndent : JSON → Bytes
  /-- The embedded file `assets/styles.css`. -/
  cssContent : Bytes
  /-- The embedded file `assets/script.js`. -/
  jsContent : Bytes

/-- The function `formatTimestamp`. -/
def formatTimestamp (env : Env) (t : Time) : Bytes := utf8 (env.localFormat t)

/-- Replacement of one byte by `html.EscapeString`. -/
def escapeByte (b : UInt8) : Bytes :=
  if b = 38 then utf8 "&amp;"
  else if b = 39 then utf8 "&#39;"
  else if b = 60 then utf8 "&lt;"
  else if b = 62 then utf8 "&gt;"
  else if b = 34 then utf8 "&#34;"
  else [b]

/-- The library function `html.EscapeString`: it replaces the five bytes `&`, `'`, `<`, `>`
and `"` and copies every other byte. -/
def EscapeString (s : Bytes) : Bytes := s.flatMap escapeByte

/-- The predicate `unicode.IsSpace`. -/
def isSpace (c : Char) : Bool :=
  let n := c.toNat
  (9 ≤ n && n ≤ 13) || n == 0x20 || n == 0x85 || n == 0xA0 || n == 0x1680 ||
    (0x2000 ≤ n && n ≤ 0x200A) || n == 0x2028 || n == 0x2029 || n == 0x202F ||
    n == 0x205F || n == 0x3000

/-- The library function `strings.TrimSpace`. -/
def TrimSpace (s : String) : String :=
  String.mk ((s.data.dropWhile isSpace).reverse.dropWhile isSpace).reverse

/-- The decimal rendering of `%d` for a non-negative `int`. -/
def fmtInt (n : Nat) : String := toString n

/-- One iteration of the loop of `extractMessageText` over the content array. -/
def extractStep (parts : List String) (item : JSON) : List String :=
  match item.asObject with
  | some contentMap =>
    let contentType := getString contentMap "type"
    if contentType == "text" then
      match getString? contentMap "text" with
      | some text => parts ++ [text]
      | none => parts
    else if contentType != "tool_result" then
      match getString? contentMap "content" with
      | some content => if content != "" then parts ++ [content] else parts
      | none => parts
    else parts
  | none => parts

/-- The function `extractMessageText`. -/
def extractMessageText (entry : LogEntry) : String :=
  match entry.Message.Content.asString with
  | some str => str
  | none =>
    let parts : List String :=
      match entry.Message.Content.asArray with
      | some contentArray => contentArray.foldl extractStep []
      | none => []
    String.intercalate "\n" parts

/-- The function `collectUserMessageIDs`, as a loop carrying `userMsgIndex`. -/
def collectUserMessageIDsLoop : List LogEntry → Nat → List String
  | [], _ => []
  | entry :: rest, userMsgIndex =>
    if entry.Type_ != "user" then collectUserMessageIDsLoop rest userMsgIndex
    else if entry.IsVisibleInTranscriptOnly && entry.IsCompactSummary then
      collectUserMessageIDsLoop rest userMsgIndex
    else if TrimSpace (extractMessageText entry) != "" then
      ("user-msg-" ++ fmtInt userMsgIndex) :: collectUserMessageIDsLoop rest (userMsgIndex + 1)
    else collectUserMessageIDsLoop rest userMsgIndex

/-- The function `collectUserMessageIDs`. -/
def collectUserMessageIDs (entries : List LogEntry) : List String :=
  collectUserMessageIDsLoop entries 0

/-- The divider written first by `generateUserMessageHTML`. -/
def dividerHTML (messageNumber : Nat) : Bytes :=
  utf8 "<div class=\"message-divider\">#" ++ utf8 (fmtInt messageNumber) ++ utf8 "</div>"

/-- The function `generateUserMessageHTML`. -/
def generateUserMessageHTML (env : Env) (entry : LogEntry) (messageID : String)
    (messageNumber : Nat) (hasPrev hasNext : Bool) : Bytes :=
  let messageText := extractMessageText entry
  if TrimSpace messageText == "" then []
  else
    dividerHTML messageNumber
    ++ utf8 "<div class=\"message-group user\">"
    ++ utf8 "<div class=\"timestamp-label\">" ++ formatTimestamp env entry.Timestamp
      ++ utf8 "</div>"
    ++ utf8 "<div id=\"" ++ utf8 messageID ++ utf8 "\" class=\"message user-message\">"
    ++ utf8 "<div class=\"message-content\">" ++ EscapeString (utf8 messageText)
      ++ utf8 "</div>"
    ++ utf8 "<div class=\"message-navigation\">"
    ++ (if hasPrev then
          utf8 "<button class=\"nav-btn\" onclick=\"jumpToMessage(this, 'prev')\">‚¨ÜÔ∏è</button>"
        else [])
    ++ (if hasNext then
          utf8 "<button class=\"nav-btn\" onclick=\"jumpToMessage(this, 'next')\">‚¨áÔ∏è</button>"
        else [])
    ++ utf8 "</div>"
    ++ utf8 "</div>"
    ++ utf8 "</div>"

/-- The struct `ContentItem`. -/
structure ContentItem where
  Type_ : String
  Text : String
  Thinking : String
  Content : String
  ID : String
  Name : String
  Input : JSON
  ToolUseID : String

/-- The struct `ToolUse`. -/
structure ToolUse where
  Tool : ContentItem
  Result : String

/-- The three slices filled while `generateAssistantMessageHTML` reads the content. -/
structure AssistantParts where
  thinkingParts : List String
  textParts : List String
  toolUses : List ToolUse

/-- One iteration of the first loop of `generateAssistantMessageHTML`. -/
def parseAssistantStep (acc : AssistantParts) (item : JSON) : AssistantParts :=
  match item.asObject with
  | some contentMap =>
    let contentType := getString contentMap "type"
    if contentType == "thinking" then
      match getString? contentMap "thinking" with
      | some t => { acc with thinkingParts := acc.thinkingParts ++ [t] }
      | none => acc
    else if contentType == "text" then
      match getString? contentMap "text" with
      | some text => { acc with textParts := acc.textParts ++ [text] }
      | none => acc
    else if contentType == "tool_use" then
      let toolUse : ContentItem :=
        { Type_ := "tool_use", Text := "", Thinking := "", Content := "",
          ID := getString contentMap "id", Name := getString contentMap "name",
          Input := (getKey contentMap "input").getD JSON.null, ToolUseID := "" }
      { acc with toolUses := acc.toolUses ++ [{ Tool := toolUse, Result := "" }] }
    else acc
  | none => acc

/-- The first loop of `generateAssistantMessageHTML`. -/
def parseAssistantContent (entry : LogEntry) : AssistantParts :=
  match entry.Message.Content.asArray with
  | some contentArray =>
    contentArray.foldl parseAssistantStep { thinkingParts := [], textParts := [], toolUses := [] }
  | none => { thinkingParts := [], textParts := [], toolUses := [] }

/-- The inner loop `for i := range toolUses` with its `break`: the first invocation whose id
is `toolUseID` gets `resultContent`. -/
def attachResult (toolUseID resultContent : String) : List ToolUse → List ToolUse
  | [] => []
  | tu :: rest =>
    if tu.Tool.ID == toolUseID then { tu with Result := resultContent } :: rest
    else tu :: attachResult toolUseID resultContent rest

/-- One iteration of the loop over the items of the next entry. -/
def correlateStep (toolUses : List ToolUse) (item : JSON) : List ToolUse :=
  match item.asObject with
  | some resultMap =>
    match getString? resultMap "type" with
    | some resultType =>
      if resultType == "tool_result" then
        attachResult (getString resultMap "tool_use_id") (getString resultMap "content") toolUses
      else toolUses
    | none => toolUses
  | none => toolUses

/-- The block "Find tool results in next entry" of `generateAssistantMessageHTML`. -/
def correlateToolResults (toolUses : List ToolUse) (nextEntry : Option LogEntry) :
    List ToolUse :=
  match nextEntry with
  | some next =>
    if next.Type_ == "user" then
      match next.Message.Content.asArray with
      | some nextContentArray => nextContentArray.foldl correlateStep toolUses
      | none => toolUses
    else toolUses
  | none => toolUses

/-- The "Result:" section written by `generateToolUseHTML` when the result is not empty. -/
def resultSectionHTML (result : String) : Bytes :=
  utf8 "<div class=\"tool-section\"><div class=\"tool-section-title\">Result:</div>"
  ++ utf8 "<pre class=\"tool-result\">" ++ EscapeString (utf8 result) ++ utf8 "</pre></div>"

/-- The function `generateToolUseHTML`. -/
def generateToolUseHTML (env : Env) (toolUse : ToolUse) : Bytes :=
  let inputJSON := env.marshalIndent toolUse.Tool.Input
  utf8 "<span class=\"tool-item\" onclick=\"toggleToolDetails(event)\">"
  ++ EscapeString (utf8 toolUse.Tool.Name)
  ++ utf8 " ‚ñº<div class=\"tool-details\" style=\"display: none;\">"
  ++ utf8 "<div class=\"tool-section\"><div class=\"tool-section-title\">Input Parameters:</div>"
  ++ utf8 "<pre class=\"tool-input\">" ++ EscapeString inputJSON ++ utf8 "</pre></div>"
  ++ (if toolUse.Result != "" then resultSectionHTML toolUse.Result else [])
  ++ utf8 "</div></span>"

/-- The correlated invocations of an assistant entry: the slice `toolUses` after the two
loops of `generateAssistantMessageHTML`. -/
def correlatedToolUses (entry : LogEntry) (nextEntry : Option LogEntry) : List ToolUse :=
  correlateToolResults (parseAssistantContent entry).toolUses nextEntry

/-- The function `generateAssistantMessageHTML`. -/
def generateAssistantMessageHTML (env : Env) (entry : LogEntry) (nextEntry : Option LogEntry) :
    Bytes :=
  let parts := parseAssistantContent entry
  let thinkingParts := parts.thinkingParts
  let textParts := parts.textParts
  let toolUses := correlateToolResults parts.toolUses nextEntry
  let messageText := String.intercalate "\n" textParts
  let thinking := String.intercalate "\n\n---\n\n" thinkingParts
  let hasThinking := decide (thinkingParts.length > 0)
  let hasTools := decide (toolUses.length > 0)
  (if hasThinking then
      utf8 "<div class=\"message-group assistant\">"
      ++ utf8 "<div class=\"timestamp-label\">" ++ formatTimestamp env entry.Timestamp
        ++ utf8 "</div>"
      ++ utf8 "<div class=\"thinking-section\">"
      ++ utf8 "<button class=\"meta-btn\" onclick=\"toggleThinking(this)\">\uF8FFüß† ...</button>"
      ++ utf8 "<div class=\"thinking-content\" style=\"display: none;\">"
      ++ utf8 "<pre>" ++ EscapeString (utf8 thinking) ++ utf8 "</pre>"
      ++ utf8 "</div></div></div>"
    else [])
  ++ (if messageText != "" then
      utf8 "<div class=\"message-group assistant\">"
      ++ utf8 "<div class=\"timestamp-label\">" ++ formatTimestamp env entry.Timestamp
        ++ utf8 "</div>"
      ++ utf8 "<div class=\"message assistant-message\">"
      ++ utf8 "<div class=\"message-content\">" ++ EscapeString (utf8 messageText)
        ++ utf8 "</div>"
      ++ utf8 "</div></div>"
    else [])
  ++ (if hasTools then
      utf8 "<div class=\"message-group assistant\">"
      ++ utf8 "<div class=\"timestamp-label\">" ++ formatTimestamp env entry.Timestamp
        ++ utf8 "</div>"
      ++ utf8 "<div class=\"tools-section\">‚öíÔ∏è "
      ++ (utf8 ", ").intercalate (toolUses.map (generateToolUseHTML env))
      ++ utf8 "</div></div>"
    else [])

/-- The function `generateSessionContinuationHTML`. -/
def generateSessionContinuationHTML (env : Env) (entry : LogEntry) : Bytes :=
  let messageText := extractMessageText entry
  utf8 "\n<div id=\"session-continuation\" class=\"message session-continuation-message\">\n  <div class=\"session-continuation-header\">\n    <span class=\"session-continuation-icon\">‚ö†Ô∏è</span>\n    <span class=\"session-continuation-title\">Session Continued</span>\n    <span class=\"timestamp\">"
  ++ formatTimestamp env entry.Timestamp
  ++ utf8 "</span>\n  </div>\n  <div class=\"session-continuation-notice\">\n    This session was continued from a previous conversation that ran out of context.\n  </div>\n  <div class=\"session-continuation-toggle\">\n    <button class=\"toggle-btn\" onclick=\"toggleSessionSummary(this)\">\uF8FFüìã View conversation summary</button>\n  </div>\n  <div class=\"session-continuation-content\" style=\"display: none;\">\n    <pre>"
  ++ EscapeString (utf8 messageText)
  ++ utf8 "</pre>\n  </div>\n</div>"

/-- What one iteration of the loop of `generateMessages` passes to `html.WriteString`,
labelled by the branch that wrote it and, for a human turn, by the arguments given to
`generateUserMessageHTML`. -/
inductive Fragment where
  | sessionContinuation (html : Bytes) : Fragment
  | userMessage (messageID : String) (messageNumber : Nat) (hasPrev hasNext : Bool)
      (html : Bytes) : Fragment
  | assistantMessage (html : Bytes) : Fragment

/-- The bytes of a fragment. -/
def Fragment.html : Fragment → Bytes
  | .sessionContinuation html => html
  | .userMessage _ _ _ _ html => html
  | .assistantMessage html => html

/-- The loop of `generateMessages`: for each entry in order, the fragment written for it, or
`none` when the iteration writes nothing.  The second argument is `userMsgIndex`. -/
def generateMessagesLoop (env : Env) (userMessageIDs : List String) :
    List LogEntry → Nat → List (Option Fragment)
  | [], _ => []
  | entry :: rest, userMsgIndex =>
    let nextEntry : Option LogEntry := rest.head?
    if entry.Type_ == "user" then
      let isSessionContinuation := entry.IsVisibleInTranscriptOnly && entry.IsCompactSummary
      if isSessionContinuation then
        some (.sessionContinuation (generateSessionContinuationHTML env entry))
          :: generateMessagesLoop env userMessageIDs rest userMsgIndex
      else
        let messageID := "user-msg-" ++ fmtInt userMsgIndex
        let messageNumber := userMsgIndex + 1
        let hasPrev := decide (userMsgIndex > 0)
        let hasNext := decide ((userMsgIndex : Int) < (userMessageIDs.length : Int) - 1)
        let msgHTML := generateUserMessageHTML env entry messageID messageNumber hasPrev hasNext
        if msgHTML != [] then
          some (.userMessage messageID messageNumber hasPrev hasNext msgHTML)
            :: generateMessagesLoop env userMessageIDs rest (userMsgIndex + 1)
        else none :: generateMessagesLoop env userMessageIDs rest userMsgIndex
    else if entry.Type_ == "assistant" then
      some (.assistantMessage (generateAssistantMessageHTML env entry nextEntry))
        :: generateMessagesLoop env userMessageIDs rest userMsgIndex
    else none :: generateMessagesLoop env userMessageIDs rest userMsgIndex

/-- The writes of `generateMessages`, one slot per entry of the conversation. -/
def messageWrites (env : Env) (conv : Conversation) : List (Option Fragment) :=
  generateMessagesLoop env (collectUserMessageIDs conv.Entries) conv.Entries 0

/-- The fragments written by `generateMessages`, in order. -/
def messageFragments (env : Env) (conv : Conversation) : List Fragment :=
  (messageWrites env conv).filterMap id

/-- The function `generateMessages`: the content of the string builder. -/
def generateMessages (env : Env) (conv : Conversation) : Bytes :=
  (messageFragments env conv).flatMap Fragment.html

/-- The arguments of the `Sprintf` call that builds one item of `tocItems`. -/
structure TocItem where
  messageID : String
  number : Nat
  preview : Bytes
  timestamp : Bytes

/-- The `Sprintf` template of one TOC item applied to its arguments. -/
def TocItem.html (t : TocItem) : Bytes :=
  utf8 "\n<div class=\"toc-item\" onclick=\"scrollToMessage('" ++ utf8 t.messageID
  ++ utf8 "')\">\n  <div class=\"toc-number\">#" ++ utf8 (fmtInt t.number)
  ++ utf8 "</div>\n  <div class=\"toc-content\">\n    <div class=\"toc-preview\">" ++ t.preview
  ++ utf8 "</div>\n    <div class=\"toc-timestamp\">" ++ t.timestamp
  ++ utf8 "</div>\n  </div>\n</div>"

/-- The element `strings.Split(messageText, "\n")[0]`: the text before the first newline. -/
def firstLine (messageText : String) : String :=
  String.mk (messageText.data.takeWhile fun c => c != '\n')

/-- The preview of `generateTOC`: `len` and the slice `preview[:60]` count bytes. -/
def tocPreview (messageText : String) : Bytes :=
  let preview := utf8 (firstLine messageText)
  if preview.length > 60 then preview.take 60 ++ utf8 "..." else preview

/-- The loop of `generateTOC`; the second argument is `userMsgIndex`. -/
def generateTOCLoop (env : Env) : List LogEntry → Nat → List TocItem
  | [], _ => []
  | entry :: rest, userMsgIndex =>
    if entry.Type_ != "user" then generateTOCLoop env rest userMsgIndex
    else if entry.IsVisibleInTranscriptOnly && entry.IsCompactSummary then
      generateTOCLoop env rest userMsgIndex
    else
      let messageText := extractMessageText entry
      if TrimSpace messageText == "" then generateTOCLoop env rest userMsgIndex
      else
        let messageID := "user-msg-" ++ fmtInt userMsgIndex
        { messageID := messageID, number := userMsgIndex + 1,
          preview := EscapeString (tocPreview messageText),
          timestamp := formatTimestamp env entry.Timestamp }
          :: generateTOCLoop env rest (userMsgIndex + 1)

/-- The slice `tocItems` of `generateTOC` before it is joined. -/
def tocItems (env : Env) (conv : Conversation) : List TocItem :=
  generateTOCLoop env conv.Entries 0

/-- The function `generateTOC`. -/
def generateTOC (env : Env) (conv : Conversation) : Bytes :=
  utf8 "\n<div class=\"sidebar\" id=\"sidebar\">\n  <div class=\"toc\">\n    "
  ++ (tocItems env conv).flatMap TocItem.html
  ++ utf8 "\n  </div>\n</div>\n<button class=\"scroll-top-btn\" id=\"scrollTopBtn\" onclick=\"scrollToTop()\">‚Üë Top</button>\n"

/-- Reference recursion for the grouping loop: `seen` lists the message ids already in the
map. -/
def keepFirst (seen : List String) : List LogEntry → List LogEntry
  | [] => []
  | e :: rest =>
    if e.Type_ == "user" then e :: keepFirst seen rest
    else if e.Type_ == "assistant" then
      if e.Message.ID ∈ seen then keepFirst seen rest
      else e :: keepFirst (e.Message.ID :: seen) rest
    else keepFirst seen rest

/-- The test "record `e` at position `i` of `raw` is kept": it is a human record, or an
assistant record such that no earlier assistant record of `raw` has its message id. -/
def keptAt (raw : List LogEntry) (i : Nat) (e : LogEntry) : Bool :=
  e.Type_ == "user" ||
    (e.Type_ == "assistant" &&
      (raw.take i).all fun e' => !(e'.Type_ == "assistant" && e'.Message.ID == e.Message.ID))

/-- The records of `raw` kept by `keptAt`, in stream order. -/
def keptRecords (raw : List LogEntry) : List LogEntry :=
  (raw.enum.filter fun p => keptAt raw p.1 p.2).map Prod.snd

/-- The three records of the merge example: human "Hi", assistant `m1` with a text item
"Hello", assistant `m1` with a `tool_use` item. -/
def mergeExample : List LogEntry :=
  [ { Type_ := "user", UUID := "", SessionID := "", Timestamp := 0,
      Message := { Role := "user", Content := JSON.str "Hi", ID := "", Type_ := "", Model := "" },
      IsVisibleInTranscriptOnly := false, IsCompactSummary := false },
    { Type_ := "assistant", UUID := "", SessionID := "", Timestamp := 0,
      Message := { Role := "assistant",
                   Content := JSON.arr [JSON.obj [("type", JSON.str "text"),
                                                  ("text", JSON.str "Hello")]],
                   ID := "m1", Type_ := "", Model := "" },
      IsVisibleInTranscriptOnly := false, IsCompactSummary := false },
    { Type_ := "assistant", UUID := "", SessionID := "", Timestamp := 0,
      Message := { Role := "assistant",
                   Content := JSON.arr [JSON.obj [("type", JSON.str "tool_use"),
                                                  ("id", JSON.str "t1"),
                                                  ("name", JSON.str "Bash")]],
                   ID := "m1", Type_ := "", Model := "" },
      IsVisibleInTranscriptOnly := false, IsCompactSummary := false } ]


/-- The anchor id and divider number of a numbered human turn; `none` for a fragment that is
not one. -/
def Fragment.divider? : Fragment → Option (String × Nat)
  | .userMessage messageID messageNumber _ _ _ => some (messageID, messageNumber)
  | _ => none

/-- The numbered human turns written by `generateMessages`, in order: anchor id and divider
number. -/
def numberedTurns (env : Env) (conv : Conversation) : List (String × Nat) :=
  (messageFragments env conv).filterMap Fragment.divider?

/-- The anchor and number of a TOC item. -/
def TocItem.anchor (t : TocItem) : String × Nat := (t.messageID, t.number)

/-- The function `GenerateHTML`; its error result is always `nil`. -/
def GenerateHTML (env : Env) (conv : Conversation) : Bytes :=
  let messagesHTML := generateMessages env conv
  let tocHTML := generateTOC env conv
  utf8 "<!DOCTYPE html>\n<html lang=\"ja\">\n<head>\n  <meta charset=\"UTF-8\">\n  <meta name=\"viewport\" content=\"width=device-width, initial-scale=1.0\">\n  <title>Claude Code Conversation</title>\n  <style>"
  ++ env.cssContent
  ++ utf8 "</style>\n</head>\n<body>\n  "
  ++ tocHTML
  ++ utf8 "\n  <div class=\"container\">\n    <div class=\"header\">\n      <h1>Claude Code Conversation</h1>\n      <div class=\"session-info\">\n        <div>Session ID: "
  ++ EscapeString (utf8 conv.SessionID)
  ++ utf8 "</div>\n        <div>Start: "
  ++ formatTimestamp env conv.StartTime
  ++ utf8 "</div>\n        <div>End: "
  ++ formatTimestamp env conv.EndTime
  ++ utf8 "</div>\n      </div>\n    </div>\n    <div class=\"messages\">\n      "
  ++ messagesHTML
  ++ utf8 "\n    </div>\n  </div>\n  <script>"
  ++ env.jsContent
  ++ utf8 "</script>\n</body>\n</html>"

/-! ## Reference definitions used in the statements -/

/-- The pair `(tool_use_id, content)` read from an item of the next entry when the item is
an object whose `type` is the string `tool_result`; the two fields are read as strings, a
missing or non-string field giving `""`. -/
def toolResult? (item : JSON) : Option (String × String) :=
  match item.asObject with
  | some resultMap =>
    if getString? resultMap "type" = some "tool_result" then
      some (getString resultMap "tool_use_id", getString resultMap "content")
    else none
  | none => none

/-- The `tool_result` items, in order, that `generateAssistantMessageHTML` scans: those of
the next entry when it exists, is a human turn and has array content; none otherwise. -/
def nextToolResults (nextEntry : Option LogEntry) : List (String × String) :=
  match nextEntry with
  | some next =>
    if next.Type_ == "user" then
      match next.Message.Content.asArray with
      | some nextContentArray => nextContentArray.filterMap toolResult?
      | none => []
    else []
  | none => []

/-- The text of the last result of `results` whose `tool_use_id` is `id`. -/
def lastResultFor (id : String) : List (String × String) → Option String
  | [] => none
  | (k, r) :: rest =>
    match lastResultFor id rest with
    | some r' => some r'
    | none => if k == id then some r else none

/-- The outcome of the correlation stated position by position: an invocation whose id
already occurs among the earlier invocations (`seen`) is left as it is; the first invocation
with a given id receives the text of the last result carrying that id, if there is one. -/
def assignFirst (results : List (String × String)) : List String → List ToolUse → List ToolUse
  | _, [] => []
  | seen, tu :: rest =>
    (if tu.Tool.ID ∈ seen then tu
     else
      match lastResultFor tu.Tool.ID results with
      | some r => { tu with Result := r }
      | none => tu)
      :: assignFirst results (tu.Tool.ID :: seen) rest

/-- An assistant entry with two `tool_use` items that share the id `t`. -/
def dupEntry : LogEntry :=
  { Type_ := "assistant", UUID := "", SessionID := "", Timestamp := 0,
    Message := { Role := "assistant",
                 Content := JSON.arr [
                   JSON.obj [("type", JSON.str "tool_use"), ("id", JSON.str "t"),
                             ("name", JSON.str "A")],
                   JSON.obj [("type", JSON.str "tool_use"), ("id", JSON.str "t"),
                             ("name", JSON.str "B")]],
                 ID := "m1", Type_ := "", Model := "" },
    IsVisibleInTranscriptOnly := false, IsCompactSummary := false }

/-- A human entry with two `tool_result` items for the id `t`, with texts `r1` and `r2`. -/
def dupNext : LogEntry :=
  { Type_ := "user", UUID := "", SessionID := "", Timestamp := 0,
    Message := { Role := "user",
                 Content := JSON.arr [
                   JSON.obj [("type", JSON.str "tool_result"), ("tool_use_id", JSON.str "t"),
                             ("content", JSON.str "r1")],
                   JSON.obj [("type", JSON.str "tool_result"), ("tool_use_id", JSON.str "t"),
                             ("content", JSON.str "r2")]],
                 ID := "", Type_ := "", Model := "" },
    IsVisibleInTranscriptOnly := false, IsCompactSummary := false }

/-- The opening part of the element written by `generateToolUseHTML`: name and input. -/
def toolItemOpenHTML (env : Env) (toolUse : ToolUse) : Bytes :=
  utf8 "<span class=\"tool-item\" onclick=\"toggleToolDetails(event)\">"
  ++ EscapeString (utf8 toolUse.Tool.Name)
  ++ utf8 " ‚ñº<div class=\"tool-details\" style=\"display: none;\">"
  ++ utf8 "<div class=\"tool-section\"><div class=\"tool-section-title\">Input Parameters:</div>"
  ++ utf8 "<pre class=\"tool-input\">" ++ EscapeString (env.marshalIndent toolUse.Tool.Input)
  ++ utf8 "</pre></div>"

/-- The entry `e` with the `tool_result` items removed from its content array. -/
def dropToolResults (e : LogEntry) : LogEntry :=
  match e.Message.Content.asArray with
  | some items =>
    { e with Message :=
        { e.Message with Content := JSON.arr (items.filter fun it => (toolResult? it).isNone) } }
  | none => e

/-- An environment for the examples: every timestamp is rendered as `ts` and every tool
input as `null`; the assets are empty. -/
def exampleEnv : Env :=
  { localFormat := fun _ => "ts", marshalIndent := fun _ => utf8 "null",
    cssContent := [], jsContent := [] }

/-- The conversation made of `dupEntry` followed by `dupNext`. -/
def dupConversation : Conversation :=
  { SessionID := "s", StartTime := 0, EndTime := 0, Entries := [dupEntry, dupNext] }

/-- The test "the entry is a numbered human turn": a human record that is not a session
continuation and whose display text is not blank. -/
def isNumberedTurn (e : LogEntry) : Bool :=
  e.Type_ == "user" && !(e.IsVisibleInTranscriptOnly && e.IsCompactSummary)
    && TrimSpace (extractMessageText e) != ""

/-- The test "the fragment is a numbered human turn". -/
def Fragment.isUserMessage : Fragment → Bool
  | .userMessage _ _ _ _ _ => true
  | _ => false

/-- The human-turn fragments among a list of writes. -/
def userWrites (writes : List (Option Fragment)) : List Fragment :=
  (writes.filterMap id).filter Fragment.isUserMessage

/-- The human-turn fragments written by `generateMessages`, in order. -/
def userFragments (env : Env) (conv : Conversation) : List Fragment :=
  userWrites (messageWrites env conv)

/-- A human record whose only content is a `tool_result` item: its display text is empty. -/
def blankTurn : LogEntry :=
  { Type_ := "user", UUID := "", SessionID := "", Timestamp := 0,
    Message := { Role := "user",
                 Content := JSON.arr [
                   JSON.obj [("type", JSON.str "tool_result"), ("tool_use_id", JSON.str "t"),
                             ("content", JSON.str "r1")]],
                 ID := "", Type_ := "", Model := "" },
    IsVisibleInTranscriptOnly := false, IsCompactSummary := false }

/-- A human record with the plain text `text`. -/
def plainTurn (text : String) : LogEntry :=
  { Type_ := "user", UUID := "", SessionID := "", Timestamp := 0,
    Message := { Role := "user", Content := JSON.str text, ID := "", Type_ := "", Model := "" },
    IsVisibleInTranscriptOnly := false, IsCompactSummary := false }

/-- A session-continuation record carrying the summary `text`. -/
def continuationTurn (text : String) : LogEntry :=
  { Type_ := "user", UUID := "", SessionID := "", Timestamp := 0,
    Message := { Role := "user", Content := JSON.str text, ID := "", Type_ := "", Model := "" },
    IsVisibleInTranscriptOnly := true, IsCompactSummary := true }

/-- A conversation whose second entry is the blank human record `blankTurn`. -/
def blankConversation : Conversation :=
  { SessionID := "s", StartTime := 0, EndTime := 0,
    Entries := [plainTurn "a", blankTurn, plainTurn "b"] }

/-- A conversation whose second entry is a session continuation with a non-empty summary. -/
def continuationConversation : Conversation :=
  { SessionID := "s", StartTime := 0, EndTime := 0,
    Entries := [plainTurn "a", continuationTurn "summary", plainTurn "b"] }

/-- The record that a scanned line contributes to the bookkeeping of `ParseJSONL`: the line
is not empty, decodes, and is not a `file-history-snapshot` record. -/
def decodedRecord? (unmarshal : Bytes → Option LogEntry) (line : Bytes) : Option LogEntry :=
  if line.length == 0 then none
  else
    match unmarshal line with
    | none => none
    | some entry => if entry.Type_ == "file-history-snapshot" then none else some entry

/-- The decoded records that are not `file-history-snapshot` records, in stream order. -/
def decodedRecords (unmarshal : Bytes → Option LogEntry) (lines : List Bytes) : List LogEntry :=
  lines.filterMap (decodedRecord? unmarshal)

/-- The non-zero timestamps of a list of records, in order. -/
def nonZeroTimestamps (records : List LogEntry) : List Time :=
  (records.map fun e => e.Timestamp).filter fun t => !t.IsZero

/-- A decoder for the examples: a line of one byte `b` decodes to a human record with text
`x` and timestamp `b`; any other line fails to decode. -/
def exampleUnmarshal : Bytes → Option LogEntry
  | [b] => some { plainTurn "x" with Timestamp := (b.toNat : Int) }
  | _ => none

/-- The tails of the five entities written by `html.EscapeString`, after their `&`. -/
def entityTails : List Bytes :=
  [utf8 "amp;", utf8 "#39;", utf8 "lt;", utf8 "gt;", utf8 "#34;"]

/-- Every `&` of `out` is followed by the tail of an entity of `html.EscapeString`. -/
def AmpersandsStartEntities (out : Bytes) : Prop :=
  ∀ pre post, out = pre ++ 38 :: post → ∃ ent ∈ entityTails, ent <+: post

/-- The byte is one of `<`, `>`, `"` and `'`. -/
def isMarkupByte (b : UInt8) : Bool := b == 60 || b == 62 || b == 34 || b == 39

/-- The strings that one item of a content array adds to the display text, as the code
computes them: the `text` field of an item whose type is `text`, when it is a string; the
`content` field of an item whose type is neither `text` nor `tool_result`, when it is a
string other than `""`; nothing for an item that is not an object. -/
def itemParts (item : JSON) : List String :=
  match item.asObject with
  | some contentMap =>
    if getString contentMap "type" == "text" then (getString? contentMap "text").toList
    else if getString contentMap "type" != "tool_result" then
      ((getString? contentMap "content").filter fun content => content != "").toList
    else []
  | none => []

/-- The strings that one item adds to the display text as the specification words it: the
`text` field of a `text` item, and the plain string `content` field of every item that is not
a `tool_result` item. -/
def statedItemParts (item : JSON) : List String :=
  match item.asObject with
  | some contentMap =>
    (if getString contentMap "type" == "text" then (getString? contentMap "text").toList
     else [])
    ++ (if getString contentMap "type" != "tool_result" then
          (getString? contentMap "content").toList
        else [])
  | none => []

/-- The display text as the specification words it. -/
def statedMessageText (entry : LogEntry) : String :=
  match entry.Message.Content with
  | JSON.str str => str
  | JSON.arr contentArray => String.intercalate "\n" (contentArray.flatMap statedItemParts)
  | _ => ""

/-- A human record with a `text` item that also carries a `content` string, followed by an
item of another type whose `content` is the empty string. -/
def mixedItemsTurn : LogEntry :=
  { Type_ := "user", UUID := "", SessionID := "", Timestamp := 0,
    Message := { Role := "user",
                 Content := JSON.arr [
                   JSON.obj [("type", JSON.str "text"), ("text", JSON.str "a"),
                             ("content", JSON.str "b")],
                   JSON.obj [("type", JSON.str "image"), ("content", JSON.str "")]],
                 ID := "", Type_ := "", Model := "" },
    IsVisibleInTranscriptOnly := false, IsCompactSummary := false }

/-- A line of 21 characters and 61 bytes: the letter `a` followed by twenty three-byte
characters. -/
def wideLine : String := "aああああああああああああああああああああ"

/-- The bookkeeping that one iteration of the scanning loop does for a record that is not
skipped: session id, start time, end time, and retention of `user` and `assistant` records. -/
def recordStep (st : ParseState) (entry : LogEntry) : ParseState :=
  { rawEntries :=
      if entry.Type_ == "user" || entry.Type_ == "assistant" then st.rawEntries ++ [entry]
      else st.rawEntries,
    sessionID :=
      if st.sessionID == "" && entry.SessionID != "" then entry.SessionID else st.sessionID,
    startTime :=
      if st.startTime.IsZero && !entry.Timestamp.IsZero then entry.Timestamp else st.startTime,
    endTime := if !entry.Timestamp.IsZero then entry.Timestamp else st.endTime }

/-- The records that reach `groupAssistantMessages`: the decoded records of type `user` or
`assistant`, in stream order. -/
def retainedRecords (unmarshal : Bytes → Option LogEntry) (lines : List Bytes) :
    List LogEntry :=
  (decodedRecords unmarshal lines).filter fun e => e.Type_ == "user" || e.Type_ == "assistant"

/-- The first session id other than `""` among a list of records, or `""`. -/
def firstSessionID (records : List LogEntry) : String :=
  ((records.map fun e => e.SessionID).find? fun s => s != "").getD ""

/-- A decoder for the session-id example: the line `[1]` decodes to a `system` record with
session id `s1`, the line `[2]` to a human record with session id `s2`; any other line fails
to decode. -/
def sessionUnmarshal : Bytes → Option LogEntry
  | [1] => some { plainTurn "x" with Type_ := "system", SessionID := "s1" }
  | [2] => some { plainTurn "y" with SessionID := "s2" }
  | _ => none

/-- The `prev` navigation button written by `generateUserMessageHTML`. -/
def prevButtonHTML : Bytes :=
  utf8 "<button class=\"nav-btn\" onclick=\"jumpToMessage(this, 'prev')\">‚¨ÜÔ∏è</button>"

/-- The `next` navigation button written by `generateUserMessageHTML`. -/
def nextButtonHTML : Bytes :=
  utf8 "<button class=\"nav-btn\" onclick=\"jumpToMessage(this, 'next')\">‚¨áÔ∏è</button>"

/-- The fragment that `generateMessages` writes for the `k`-th numbered human turn `e` when
the conversation has `n` collected ids. -/
def numberedFragment (env : Env) (n : Nat) (k : Nat) (e : LogEntry) : Fragment :=
  .userMessage ("user-msg-" ++ fmtInt k) (k + 1) (decide (k > 0)) (decide (k < n - 1))
    (generateUserMessageHTML env e ("user-msg-" ++ fmtInt k) (k + 1) (decide (k > 0))
      (decide (k < n - 1)))

/-- The reasoning block written by `generateAssistantMessageHTML` for the joined text
`thinking`. -/
def thinkingBlockHTML (env : Env) (ts : Time) (thinking : String) : Bytes :=
  utf8 "<div class=\"message-group assistant\">"
  ++ utf8 "<div class=\"timestamp-label\">" ++ formatTimestamp env ts ++ utf8 "</div>"
  ++ utf8 "<div class=\"thinking-section\">"
  ++ utf8 "<button class=\"meta-btn\" onclick=\"toggleThinking(this)\">\uF8FFüß† ...</button>"
  ++ utf8 "<div class=\"thinking-content\" style=\"display: none;\">"
  ++ utf8 "<pre>" ++ EscapeString (utf8 thinking) ++ utf8 "</pre>"
  ++ utf8 "</div></div></div>"

/-- The text block (`assistant-message`) written by `generateAssistantMessageHTML` for the
joined text `messageText`. -/
def textBlockHTML (env : Env) (ts : Time) (messageText : String) : Bytes :=
  utf8 "<div class=\"message-group assistant\">"
  ++ utf8 "<div class=\"timestamp-label\">" ++ formatTimestamp env ts ++ utf8 "</div>"
  ++ utf8 "<div class=\"message assistant-message\">"
  ++ utf8 "<div class=\"message-content\">" ++ EscapeString (utf8 messageText) ++ utf8 "</div>"
  ++ utf8 "</div></div>"

/-- The tools block written by `generateAssistantMessageHTML` for the invocations
`toolUses`: their items joined by `, `. -/
def toolsBlockHTML (env : Env) (ts : Time) (toolUses : List ToolUse) : Bytes :=
  utf8 "<div class=\"message-group assistant\">"
  ++ utf8 "<div class=\"timestamp-label\">" ++ formatTimestamp env ts ++ utf8 "</div>"
  ++ utf8 "<div class=\"tools-section\">‚öíÔ∏è "
  ++ (utf8 ", ").intercalate (toolUses.map (generateToolUseHTML env))
  ++ utf8 "</div></div>"

/-- The items of the content of an entry when the content is an array; none otherwise. -/
def contentItems (e : LogEntry) : List JSON :=
  (e.Message.Content.asArray).getD []

/-- The reasoning text of an item: the `thinking` field, when it is a string, of an object
whose type is `thinking`. -/
def thinkingText? (item : JSON) : Option String :=
  match item.asObject with
  | some contentMap =>
    if getString contentMap "type" == "thinking" then getString? contentMap "thinking" else none
  | none => none

/-- The text of an item: the `text` field, when it is a string, of an object whose type is
`text`. -/
def textItemText? (item : JSON) : Option String :=
  match item.asObject with
  | some contentMap =>
    if getString contentMap "type" == "text" then getString? contentMap "text" else none
  | none => none

/-- The invocation read from an item: an object whose type is `tool_use`, with its `id`,
`name` and `input`. -/
def toolUseItem? (item : JSON) : Option ContentItem :=
  match item.asObject with
  | some contentMap =>
    if getString contentMap "type" == "tool_use" then
      some { Type_ := "tool_use", Text := "", Thinking := "", Content := "",
             ID := getString contentMap "id", Name := getString contentMap "name",
             Input := (getKey contentMap "input").getD JSON.null, ToolUseID := "" }
    else none
  | none => none

/-- An assistant record whose only item is a `text` item holding one space. -/
def blankTextAssistant : LogEntry :=
  { Type_ := "assistant", UUID := "", SessionID := "", Timestamp := 0,
    Message := { Role := "assistant",
                 Content := JSON.arr [JSON.obj [("type", JSON.str "text"),
                                                ("text", JSON.str " ")]],
                 ID := "m1", Type_ := "", Model := "" },
    IsVisibleInTranscriptOnly := false, IsCompactSummary := false }

/-- An assistant record whose content is the plain string `hello`. -/
def plainAssistant : LogEntry :=
  { Type_ := "assistant", UUID := "", SessionID := "", Timestamp := 0,
    Message := { Role := "assistant", Content := JSON.str "hello", ID := "m2", Type_ := "",
                 Model := "" },
    IsVisibleInTranscriptOnly := false, IsCompactSummary := false }

/-- The test "the item is a `tool_use` item": an object whose type is `tool_use`. -/
def isToolUse (item : JSON) : Bool :=
  match item.asObject with
  | some contentMap => getString contentMap "type" == "tool_use"
  | none => false

/-- The test "the item is a `tool_use` item without a `content` field that is a string other
than `""`". -/
def isBareToolUse (item : JSON) : Bool :=
  match item.asObject with
  | some contentMap =>
    getString contentMap "type" == "tool_use"
      && ((getString? contentMap "content").filter fun content => content != "").isNone
  | none => false

/-- The entry `e` with the array `items` as its content. -/
def withItems (e : LogEntry) (items : List JSON) : LogEntry :=
  { e with Message := { e.Message with Content := JSON.arr items } }

/-- The items of a message holding one `tool_use` item that carries the `content` string
`x`. -/
def toolUseWithContentItems : List JSON :=
  [JSON.obj [("type", JSON.str "tool_use"), ("id", JSON.str "t"), ("name", JSON.str "A"),
             ("content", JSON.str "x")]]

/-- An assistant record with array content that repeats the message id `m2` of
`plainAssistant`. -/
def repeatOfPlain : LogEntry :=
  { blankTextAssistant with Message := { blankTextAssistant.Message with ID := "m2" } }

/-- An assistant entry with one `tool_use` item, of id `t` and name `A`. -/
def singleToolEntry : LogEntry :=
  { Type_ := "assistant", UUID := "", SessionID := "", Timestamp := 0,
    Message := { Role := "assistant",
                 Content := JSON.arr [
                   JSON.obj [("type", JSON.str "tool_use"), ("id", JSON.str "t"),
                             ("name", JSON.str "A")]],
                 ID := "m1", Type_ := "", Model := "" },
    IsVisibleInTranscriptOnly := false, IsCompactSummary := false }

/-- The fields of a `tool_result` item for the id `t` whose `content` is a list of content
blocks rather than a string. -/
def blockResultFields : List (String × JSON) :=
  [("type", JSON.str "tool_result"), ("tool_use_id", JSON.str "t"),
   ("content", JSON.arr [JSON.obj [("type", JSON.str "text"), ("text", JSON.str "out")]])]

/-- A human entry whose only item is the `tool_result` item `blockResultFields`. -/
def blockResultNext : LogEntry :=
  { Type_ := "user", UUID := "", SessionID := "", Timestamp := 0,
    Message := { Role := "user", Content := JSON.arr [JSON.obj blockResultFields],
                 ID := "", Type_ := "", Model := "" },
    IsVisibleInTranscriptOnly := false, IsCompactSummary := false }

/-- The invocation of `singleToolEntry` after correlation with `blockResultNext`. -/
def singleToolUse : ToolUse :=
  { Tool := { Type_ := "tool_use", Text := "", Thinking := "", Content := "", ID := "t",
              Name := "A", Input := JSON.null, ToolUseID := "" },
    Result := "" }

/-- The token limit given to the scanner by `scanner.Buffer(buf, 10*1024*1024)`. -/
def maxTokenSize : Nat := 10 * 1024 * 1024

/-- The lines of a file as the split function `bufio.ScanLines` delimits them: each newline
(byte 10) ends a line, and the bytes after the last newline form a last line when there are
any. -/
def splitLines : Bytes → List Bytes
  | [] => []
  | b :: rest =>
    if b = 10 then [] :: splitLines rest
    else
      match splitLines rest with
      | [] => [[b]]
      | line :: more => (b :: line) :: more

/-- The helper `dropCR` of `bufio.ScanLines`: a trailing carriage return (byte 13) is
removed from the token. -/
def dropCR (data : Bytes) : Bytes :=
  if data.getLast? = some 13 then data.dropLast else data

/-- The scan of the lines by a `bufio.Scanner` whose token limit is `maxTok`: a line that
does not fit the buffer (of `maxTok` bytes or more) stops the scan with `ErrTooLong`; the
lines before it are yielded as tokens. -/
def scanTokens (maxTok : Nat) : List Bytes → Scanner
  | [] => { lines := [], err := none }
  | line :: rest =>
    if maxTok ≤ line.length then { lines := [], err := some "bufio.Scanner: token too long" }
    else
      { lines := dropCR line :: (scanTokens maxTok rest).lines,
        err := (scanTokens maxTok rest).err }

/-- The outcome of scanning a file of the given content that is read without an I/O error,
with the buffer set by `ParseJSONL`. -/
def scanFile (content : Bytes) : Scanner :=
  scanTokens maxTokenSize (splitLines content)

/-! # Theorems -/

/-! ## Grouping -/

theorem lookup_setMapContent_isSome (m : List (String × LogEntry)) (messageID : String)
    (c : JSON) (k : String) :
    ((setMapContent m messageID c).lookup k).isSome = (m.lookup k).isSome := by
  induction m with
  | nil => rfl
  | cons kv rest ih =>
    obtain ⟨a, b⟩ := kv
    unfold setMapContent at ih ⊢
    rw [List.map_cons]
    cases ha : (a == messageID) <;> cases hk : (k == a) <;>
      simp only [ha, Bool.false_eq_true, if_false, if_true, List.lookup_cons, hk, Option.isSome_some] <;>
      exact ih

theorem groupStep_user (st : GroupState) (e : LogEntry) (hu : (e.Type_ == "user") = true) :
    groupStep st e = GroupState.mk (st.entries ++ [e]) st.assistantMsgMap := by
  unfold groupStep
  simp only [hu, if_true]

theorem groupStep_other (st : GroupState) (e : LogEntry) (hu : (e.Type_ == "user") = false)
    (ha : (e.Type_ == "assistant") = false) : groupStep st e = st := by
  unfold groupStep
  simp only [hu, ha, Bool.false_eq_true, if_false]

theorem groupStep_new (st : GroupState) (e : LogEntry) (hu : (e.Type_ == "user") = false)
    (ha : (e.Type_ == "assistant") = true)
    (hl : st.assistantMsgMap.lookup e.Message.ID = none) :
    groupStep st e
      = GroupState.mk (st.entries ++ [e]) ((e.Message.ID, e) :: st.assistantMsgMap) := by
  unfold groupStep
  simp only [hu, ha, hl, Bool.false_eq_true, if_false, if_true]

theorem groupStep_repeat (st : GroupState) (e existing : LogEntry)
    (hu : (e.Type_ == "user") = false) (ha : (e.Type_ == "assistant") = true)
    (hl : st.assistantMsgMap.lookup e.Message.ID = some existing) :
    (groupStep st e).entries = st.entries ∧
      ∀ k, ((groupStep st e).assistantMsgMap.lookup k).isSome
        = (st.assistantMsgMap.lookup k).isSome := by
  unfold groupStep
  simp only [hu, ha, hl, Bool.false_eq_true, if_false, if_true]
  cases existing.Message.Content.asArray with
  | none => exact ⟨rfl, fun _ => rfl⟩
  | some existingArr =>
    cases e.Message.Content.asArray with
    | none => exact ⟨rfl, fun _ => rfl⟩
    | some entryArr => exact ⟨rfl, fun k => lookup_setMapContent_isSome _ _ _ k⟩

theorem foldl_groupStep_entries (l : List LogEntry) :
    ∀ (st : GroupState) (seen : List String),
      (∀ k, (st.assistantMsgMap.lookup k).isSome = decide (k ∈ seen)) →
      (l.foldl groupStep st).entries = st.entries ++ keepFirst seen l := by
  induction l with
  | nil => intro st seen _; simp [keepFirst]
  | cons e rest ih =>
    intro st seen h
    rw [List.foldl_cons]
    cases hu : (e.Type_ == "user")
    · cases ha : (e.Type_ == "assistant")
      · rw [groupStep_other st e hu ha, ih st seen h]
        simp only [keepFirst, hu, ha, Bool.false_eq_true, if_false]
      · cases hl : st.assistantMsgMap.lookup e.Message.ID with
        | some existing =>
          have hmem : e.Message.ID ∈ seen := by
            have := h e.Message.ID
            rw [hl] at this
            simpa using this.symm
          obtain ⟨hent, hkeys⟩ := groupStep_repeat st e existing hu ha hl
          rw [ih (groupStep st e) seen (fun k => (hkeys k).trans (h k)), hent]
          simp only [keepFirst, hu, ha, hmem, Bool.false_eq_true, if_false, if_true]
        | none =>
          have hmem : e.Message.ID ∉ seen := by
            have := h e.Message.ID
            rw [hl] at this
            simpa using this.symm
          rw [groupStep_new st e hu ha hl, ih _ (e.Message.ID :: seen)]
          · simp only [keepFirst, hu, ha, hmem, Bool.false_eq_true, if_false, if_true,
              List.append_assoc, List.singleton_append]
          · intro k
            simp only [List.lookup_cons, List.mem_cons]
            cases hk : k == e.Message.ID
            · have hne : k ≠ e.Message.ID := by simpa using hk
              simp [h k, hne]
            · have heq : k = e.Message.ID := by simpa using hk
              simp [heq]
    · rw [groupStep_user st e hu,
        ih (GroupState.mk (st.entries ++ [e]) st.assistantMsgMap) seen h]
      simp only [keepFirst, hu, if_true, List.append_assoc, List.singleton_append]

theorem groupAssistantMessages_eq_keepFirst (raw : List LogEntry) :
    groupAssistantMessages raw = keepFirst [] raw := by
  unfold groupAssistantMessages
  rw [foldl_groupStep_entries raw _ [] (by intro k; simp)]
  simp

theorem all_not_assistant_iff (pre : List LogEntry) (seen : List String) (k : String)
    (h : ∀ k, k ∈ seen ↔ ∃ e' ∈ pre, (e'.Type_ == "assistant") = true ∧ e'.Message.ID = k) :
    (pre.all fun e' => !(e'.Type_ == "assistant" && e'.Message.ID == k)) = true ↔ k ∉ seen := by
  rw [h k, List.all_eq_true]
  constructor
  · rintro hall ⟨e', hmem, hty, hid⟩
    have := hall e' hmem
    simp [hty, hid] at this
  · intro hne e' hmem
    cases hty : (e'.Type_ == "assistant")
    · simp
    · cases hid : (e'.Message.ID == k)
      · simp
      · exact absurd ⟨e', hmem, hty, by simpa using hid⟩ hne

theorem keepFirst_eq_filter (l : List LogEntry) :
    ∀ (pre : List LogEntry) (seen : List String),
      (∀ k, k ∈ seen ↔ ∃ e' ∈ pre, (e'.Type_ == "assistant") = true ∧ e'.Message.ID = k) →
      keepFirst seen l
        = ((l.enumFrom pre.length).filter fun p => keptAt (pre ++ l) p.1 p.2).map Prod.snd := by
  induction l with
  | nil => intro pre seen _; simp [keepFirst]
  | cons e rest ih =>
    intro pre seen h
    have hlen : (pre ++ [e]).length = pre.length + 1 := by simp
    have happ : pre ++ [e] ++ rest = pre ++ e :: rest := by simp
    have hall := all_not_assistant_iff pre seen e.Message.ID h
    have htake : (pre ++ e :: rest).take pre.length = pre := by simp
    rw [List.enumFrom_cons, List.filter_cons]
    cases hu : (e.Type_ == "user")
    · cases ha : (e.Type_ == "assistant")
      · have hk : keptAt (pre ++ e :: rest) pre.length e = false := by
          simp only [keptAt, hu, ha, Bool.false_and, Bool.or_self]
        have h' : ∀ k, k ∈ seen ↔
            ∃ e' ∈ pre ++ [e], (e'.Type_ == "assistant") = true ∧ e'.Message.ID = k := by
          intro k
          rw [h k]
          constructor
          · rintro ⟨e', hm, hp⟩
            exact ⟨e', List.mem_append_left _ hm, hp⟩
          · rintro ⟨e', hm, hp⟩
            rcases List.mem_append.mp hm with hm | hm
            · exact ⟨e', hm, hp⟩
            · rw [List.mem_singleton] at hm
              rw [hm, ha] at hp
              exact absurd hp.1 (by simp)
        simp only [hk, Bool.false_eq_true, if_false, keepFirst, hu, ha]
        rw [ih (pre ++ [e]) seen h', hlen, happ]
      · by_cases hmem : e.Message.ID ∈ seen
        · have hk : keptAt (pre ++ e :: rest) pre.length e = false := by
            simp only [keptAt, hu, ha, htake, Bool.false_or, Bool.true_and]
            cases hc : (pre.all fun e' => !(e'.Type_ == "assistant" && e'.Message.ID == e.Message.ID))
            · rfl
            · exact absurd hmem (hall.mp hc)
          have h' : ∀ k, k ∈ seen ↔
              ∃ e' ∈ pre ++ [e], (e'.Type_ == "assistant") = true ∧ e'.Message.ID = k := by
            intro k
            constructor
            · intro hk'
              obtain ⟨e', hm, hp⟩ := (h k).mp hk'
              exact ⟨e', List.mem_append_left _ hm, hp⟩
            · rintro ⟨e', hm, hp⟩
              rcases List.mem_append.mp hm with hm | hm
              · exact (h k).mpr ⟨e', hm, hp⟩
              · rw [List.mem_singleton] at hm
                rw [hm] at hp
                rw [← hp.2]
                exact hmem
          simp only [hk, Bool.false_eq_true, if_false, if_true, keepFirst, hu, ha, hmem]
          rw [ih (pre ++ [e]) seen h', hlen, happ]
        · have hk : keptAt (pre ++ e :: rest) pre.length e = true := by
            simp only [keptAt, hu, ha, htake, Bool.false_or, Bool.true_and]
            exact hall.mpr hmem
          have h' : ∀ k, k ∈ e.Message.ID :: seen ↔
              ∃ e' ∈ pre ++ [e], (e'.Type_ == "assistant") = true ∧ e'.Message.ID = k := by
            intro k
            rw [List.mem_cons]
            constructor
            · rintro (hk' | hk')
              · exact ⟨e, by simp, ha, hk'.symm⟩
              · obtain ⟨e', hm, hp⟩ := (h k).mp hk'
                exact ⟨e', List.mem_append_left _ hm, hp⟩
            · rintro ⟨e', hm, hp⟩
              rcases List.mem_append.mp hm with hm | hm
              · exact Or.inr ((h k).mpr ⟨e', hm, hp⟩)
              · rw [List.mem_singleton] at hm
                rw [hm] at hp
                exact Or.inl hp.2.symm
          simp only [hk, Bool.false_eq_true, if_false, if_true, keepFirst, hu, ha, hmem,
            List.map_cons]
          rw [ih (pre ++ [e]) (e.Message.ID :: seen) h', hlen, happ]
    · have hk : keptAt (pre ++ e :: rest) pre.length e = true := by
        simp only [keptAt, hu, Bool.true_or]
      have h' : ∀ k, k ∈ seen ↔
          ∃ e' ∈ pre ++ [e], (e'.Type_ == "assistant") = true ∧ e'.Message.ID = k := by
        intro k
        rw [h k]
        constructor
        · rintro ⟨e', hm, hp⟩
          exact ⟨e', List.mem_append_left _ hm, hp⟩
        · rintro ⟨e', hm, hp⟩
          rcases List.mem_append.mp hm with hm | hm
          · exact ⟨e', hm, hp⟩
          · rw [List.mem_singleton] at hm
            rw [hm] at hp
            have hty : e.Type_ = "assistant" := by simpa using hp.1
            rw [hty] at hu
            exact absurd hu (by decide)
      simp only [hk, if_true, keepFirst, hu, List.map_cons]
      rw [ih (pre ++ [e]) seen h', hlen, happ]

theorem keepFirst_sublist (l : List LogEntry) : ∀ seen, List.Sublist (keepFirst seen l) l := by
  induction l with
  | nil => intro seen; simp [keepFirst]
  | cons e rest ih =>
    intro seen
    unfold keepFirst
    split
    · exact (ih seen).cons₂ e
    · split
      · split
        · exact (ih seen).cons e
        · exact (ih _).cons₂ e
      · exact (ih seen).cons e

theorem keepFirst_filter_user (l : List LogEntry) : ∀ seen,
    (keepFirst seen l).filter (fun e => e.Type_ == "user") = l.filter (fun e => e.Type_ == "user") := by
  induction l with
  | nil => intro seen; simp [keepFirst]
  | cons e rest ih =>
    intro seen
    unfold keepFirst
    cases hu : (e.Type_ == "user")
    · simp only [Bool.false_eq_true, if_false, List.filter_cons, hu]
      split
      · split
        · exact ih seen
        · simp only [List.filter_cons, hu, Bool.false_eq_true, if_false]
          exact ih _
      · exact ih seen
    · simp only [if_true, List.filter_cons, hu]
      rw [ih seen]

theorem keepFirst_ids (l : List LogEntry) : ∀ seen,
    (((keepFirst seen l).filter (fun e => e.Type_ == "assistant")).map
        (fun e => e.Message.ID)).Nodup ∧
      ∀ e ∈ (keepFirst seen l).filter (fun e => e.Type_ == "assistant"),
        e.Message.ID ∉ seen := by
  induction l with
  | nil => intro seen; simp [keepFirst]
  | cons e rest ih =>
    intro seen
    unfold keepFirst
    cases hu : (e.Type_ == "user")
    · cases ha : (e.Type_ == "assistant")
      · simp only [Bool.false_eq_true, if_false]
        exact ih seen
      · simp only [Bool.false_eq_true, if_false, if_true]
        split
        · exact ih seen
        · rename_i hmem
          obtain ⟨hnd, hout⟩ := ih (e.Message.ID :: seen)
          simp only [List.filter_cons, ha, if_true, List.map_cons, List.nodup_cons]
          refine ⟨⟨?_, hnd⟩, ?_⟩
          · intro hin
            obtain ⟨e', he', hid⟩ := List.mem_map.mp hin
            exact hout e' he' (by rw [hid]; exact List.mem_cons_self _ _)
          · intro e' he'
            rcases List.mem_cons.mp he' with rfl | he'
            · exact hmem
            · exact fun hs => hout e' he' (List.mem_cons_of_mem _ hs)
    · have ha : (e.Type_ == "assistant") = false := by
        have hty : e.Type_ = "user" := by simpa using hu
        rw [hty]; decide
      simp only [if_true, List.filter_cons, ha, Bool.false_eq_true, if_false]
      exact ih seen

/-- C8: the output of `groupAssistantMessages` is the input restricted to the human records
and, for each assistant message id, its first occurrence; order is kept, the human records
are exactly those of the input, and no two assistant entries share a message id. -/
theorem groupAssistantMessages_keeps_first_occurrences (raw : List LogEntry) :
    groupAssistantMessages raw = keptRecords raw
    ∧ List.Sublist (groupAssistantMessages raw) raw
    ∧ (groupAssistantMessages raw).filter (fun e => e.Type_ == "user")
        = raw.filter (fun e => e.Type_ == "user")
    ∧ (((groupAssistantMessages raw).filter (fun e => e.Type_ == "assistant")).map
        (fun e => e.Message.ID)).Nodup := by
  rw [groupAssistantMessages_eq_keepFirst]
  refine ⟨?_, keepFirst_sublist raw [], keepFirst_filter_user raw [], (keepFirst_ids raw []).1⟩
  have := keepFirst_eq_filter raw [] [] (by intro k; simp)
  simpa [keptRecords, List.enum] using this

/-- C1 (code defect): on the merge example the single `m1` entry returned by
`groupAssistantMessages` carries only the first record's item `[text "Hello"]`; the
`tool_use` item of the second record is lost, and the entry yields no tool invocation. -/
theorem groupAssistantMessages_mergeExample_keeps_first_content :
    (groupAssistantMessages mergeExample).map
        (fun e => (e.Message.ID, e.Message.Content, (parseAssistantContent e).toolUses.length))
      = [ ("", JSON.str "Hi", 0),
          ("m1", JSON.arr [JSON.obj [("type", JSON.str "text"), ("text", JSON.str "Hello")]],
            0) ] := by
  rfl

/-! ## Numbering of human turns -/

theorem dividerHTML_ne_nil (n : Nat) : dividerHTML n ≠ [] := by
  unfold dividerHTML
  have h : utf8 "<div class=\"message-divider\">#" ≠ [] := by decide
  intro hnil
  simp only [List.append_eq_nil] at hnil
  exact h hnil.1.1

theorem generateUserMessageHTML_eq_nil_iff (env : Env) (entry : LogEntry) (messageID : String)
    (messageNumber : Nat) (hasPrev hasNext : Bool) :
    generateUserMessageHTML env entry messageID messageNumber hasPrev hasNext = []
      ↔ TrimSpace (extractMessageText entry) = "" := by
  unfold generateUserMessageHTML
  by_cases h : TrimSpace (extractMessageText entry) = ""
  · simp [h]
  · have hb : (TrimSpace (extractMessageText entry) == "") = false := by simpa using h
    simp only [hb, Bool.false_eq_true, if_false, h, iff_false]
    intro hnil
    simp only [List.append_assoc, List.append_eq_nil] at hnil
    exact dividerHTML_ne_nil _ hnil.1

theorem loop_dividers_eq_toc (env : Env) (ids : List String) (l : List LogEntry) :
    ∀ idx, ((generateMessagesLoop env ids l idx).filterMap id).filterMap Fragment.divider?
      = (generateTOCLoop env l idx).map TocItem.anchor := by
  induction l with
  | nil => intro idx; simp [generateMessagesLoop, generateTOCLoop]
  | cons e rest ih =>
    intro idx
    by_cases hu : e.Type_ = "user"
    · cases hc : (e.IsVisibleInTranscriptOnly && e.IsCompactSummary)
      · by_cases ht : TrimSpace (extractMessageText e) = ""
        · simp [generateMessagesLoop, generateTOCLoop, hu, hc, ht, ih,
            generateUserMessageHTML_eq_nil_iff]
        · simp [generateMessagesLoop, generateTOCLoop, hu, hc, ht, ih,
            generateUserMessageHTML_eq_nil_iff, Fragment.divider?, TocItem.anchor]
      · simp [generateMessagesLoop, generateTOCLoop, hu, hc, ih, Fragment.divider?]
    · by_cases ha : e.Type_ = "assistant" <;>
        simp [generateMessagesLoop, generateTOCLoop, hu, ha, ih, Fragment.divider?]

theorem tocLoop_anchor_eq_range (env : Env) (l : List LogEntry) :
    ∀ idx, (generateTOCLoop env l idx).map TocItem.anchor
      = (List.range (generateTOCLoop env l idx).length).map
          (fun k => ("user-msg-" ++ fmtInt (idx + k), idx + k + 1)) := by
  induction l with
  | nil => intro idx; simp [generateTOCLoop]
  | cons e rest ih =>
    intro idx
    unfold generateTOCLoop
    split
    · exact ih idx
    · split
      · exact ih idx
      · simp only []
        split
        · exact ih idx
        · rw [List.map_cons, List.length_cons, List.range_succ_eq_map, List.map_cons,
            List.map_map, ih (idx + 1)]
          simp only [TocItem.anchor, Nat.add_zero, List.cons.injEq, true_and]
          apply List.map_congr_left
          intro k _
          simp only [Function.comp, Nat.succ_eq_add_one]
          rw [show idx + 1 + k = idx + (k + 1) by omega]

/-! ## Tool correlation -/

theorem correlateStep_eq (toolUses : List ToolUse) (item : JSON) :
    correlateStep toolUses item
      = match toolResult? item with
        | some r => attachResult r.1 r.2 toolUses
        | none => toolUses := by
  unfold correlateStep toolResult?
  cases item.asObject with
  | none => rfl
  | some resultMap =>
    cases hty : getString? resultMap "type" with
    | none => simp [hty]
    | some resultType =>
      by_cases h : resultType = "tool_result"
      · simp [hty, h]
      · simp [hty, h]

theorem foldl_correlateStep (items : List JSON) :
    ∀ toolUses, items.foldl correlateStep toolUses
      = (items.filterMap toolResult?).foldl (fun acc r => attachResult r.1 r.2 acc) toolUses := by
  induction items with
  | nil => intro _; rfl
  | cons item rest ih =>
    intro toolUses
    rw [List.foldl_cons, ih, correlateStep_eq, List.filterMap_cons]
    cases toolResult? item with
    | none => rfl
    | some r => rfl

theorem correlateToolResults_eq_foldl (toolUses : List ToolUse) (nextEntry : Option LogEntry) :
    correlateToolResults toolUses nextEntry
      = (nextToolResults nextEntry).foldl (fun acc r => attachResult r.1 r.2 acc) toolUses := by
  unfold correlateToolResults nextToolResults
  cases nextEntry with
  | none => rfl
  | some next =>
    simp only []
    cases (next.Type_ == "user") with
    | false => rfl
    | true =>
      simp only [if_true]
      cases next.Message.Content.asArray with
      | none => rfl
      | some arr => exact foldl_correlateStep arr toolUses

theorem lastResultFor_append (id k r : String) (results : List (String × String)) :
    lastResultFor id (results ++ [(k, r)])
      = if k == id then some r else lastResultFor id results := by
  induction results with
  | nil => simp [lastResultFor]
  | cons p rest ih =>
    obtain ⟨k', r'⟩ := p
    rw [List.cons_append]
    simp only [lastResultFor]
    rw [ih]
    cases (k == id) <;> simp

theorem assignFirst_nil_results (tus : List ToolUse) :
    ∀ seen, assignFirst [] seen tus = tus := by
  induction tus with
  | nil => intro _; rfl
  | cons tu rest ih => intro seen; simp [assignFirst, lastResultFor, ih]

theorem assignFirst_append_seen (results : List (String × String)) (id r : String)
    (tus : List ToolUse) :
    ∀ seen, id ∈ seen → assignFirst (results ++ [(id, r)]) seen tus = assignFirst results seen tus := by
  induction tus with
  | nil => intro _ _; rfl
  | cons tu rest ih =>
    intro seen hmem
    simp only [assignFirst]
    rw [ih (tu.Tool.ID :: seen) (List.mem_cons_of_mem _ hmem)]
    by_cases hin : tu.Tool.ID ∈ seen
    · simp [hin]
    · have hne : id ≠ tu.Tool.ID := fun h => hin (h ▸ hmem)
      have hb : (id == tu.Tool.ID) = false := by simpa using hne
      simp [hin, lastResultFor_append, hb]

theorem attachResult_assignFirst (results : List (String × String)) (id r : String)
    (tus : List ToolUse) :
    ∀ seen, id ∉ seen →
      attachResult id r (assignFirst results seen tus)
        = assignFirst (results ++ [(id, r)]) seen tus := by
  induction tus with
  | nil => intro _ _; rfl
  | cons tu rest ih =>
    intro seen hmem
    simp only [assignFirst]
    by_cases heq : tu.Tool.ID = id
    · have hin : tu.Tool.ID ∉ seen := heq ▸ hmem
      rw [assignFirst_append_seen results id r rest (tu.Tool.ID :: seen) (by simp [heq])]
      simp only [hin, if_false, lastResultFor_append, heq, beq_self_eq_true, if_true]
      cases lastResultFor id results <;> simp [attachResult, heq, hmem]
    · have hb : (id == tu.Tool.ID) = false := by
        simpa using fun h : id = tu.Tool.ID => heq h.symm
      have hnot : id ∉ tu.Tool.ID :: seen := by
        simp only [List.mem_cons, not_or]
        exact ⟨fun h => heq h.symm, hmem⟩
      rw [← ih (tu.Tool.ID :: seen) hnot]
      by_cases hin : tu.Tool.ID ∈ seen
      · simp [hin, attachResult, heq]
      · simp only [hin, if_false, lastResultFor_append, hb, Bool.false_eq_true]
        cases lastResultFor tu.Tool.ID results <;> simp [attachResult, heq]

theorem foldl_attachResult_eq_assignFirst (results : List (String × String))
    (tus : List ToolUse) :
    results.foldl (fun acc r => attachResult r.1 r.2 acc) tus = assignFirst results [] tus := by
  induction results using List.reverseRecOn with
  | nil => simp [assignFirst_nil_results]
  | append_singleton rs p ih =>
    obtain ⟨id, r⟩ := p
    rw [List.foldl_append, List.foldl_cons, List.foldl_nil, ih]
    exact attachResult_assignFirst rs id r tus [] (by simp)

theorem correlatedToolUses_dup_results :
    (correlatedToolUses dupEntry (some dupNext)).map (fun tu => (tu.Tool.Name, tu.Result))
      = [("A", "r2"), ("B", "")] := by
  rfl

/-- C3 (counterexample): with two invocations `A`, `B` sharing the id `t` and two results
`r1`, `r2` for `t` in the next entry, the pairing is not one-to-one: `A` ends with `r2` and
`B` with no result, instead of `A` with `r1` and `B` with `r2`. -/
theorem correlation_not_one_to_one :
    (correlatedToolUses dupEntry (some dupNext)).map (fun tu => (tu.Tool.Name, tu.Result))
        = [("A", "r2"), ("B", "")]
    ∧ (correlatedToolUses dupEntry (some dupNext)).map (fun tu => (tu.Tool.Name, tu.Result))
        ≠ [("A", "r1"), ("B", "r2")] := by
  refine ⟨correlatedToolUses_dup_results, ?_⟩
  rw [correlatedToolUses_dup_results]
  decide

/-- C3 (amended): the `tool_result` items of the next entry are processed in order, each
text being written to the first invocation whose id equals the item's `tool_use_id`, matched
before or not; hence the first invocation with a given id ends with the text of the last
result for that id and every other invocation is left unchanged. -/
theorem correlateToolResults_first_invocation_wins (toolUses : List ToolUse)
    (nextEntry : Option LogEntry) :
    correlateToolResults toolUses nextEntry
        = (nextToolResults nextEntry).foldl (fun acc r => attachResult r.1 r.2 acc) toolUses
    ∧ correlateToolResults toolUses nextEntry
        = assignFirst (nextToolResults nextEntry) [] toolUses := by
  refine ⟨correlateToolResults_eq_foldl toolUses nextEntry, ?_⟩
  rw [correlateToolResults_eq_foldl, foldl_attachResult_eq_assignFirst]

theorem lastResultFor_mem (id r : String) (results : List (String × String)) :
    lastResultFor id results = some r → (id, r) ∈ results := by
  induction results with
  | nil => intro h; simp [lastResultFor] at h
  | cons p rest ih =>
    obtain ⟨k, r'⟩ := p
    intro h
    simp only [lastResultFor] at h
    cases hl : lastResultFor id rest with
    | some r'' =>
      rw [hl] at h
      simp only [Option.some.injEq] at h
      exact List.mem_cons_of_mem _ (ih (by rw [hl, h]))
    | none =>
      rw [hl] at h
      by_cases hk : k = id
      · simp [hk] at h
        simp [hk, h]
      · simp [hk] at h

theorem lastResultFor_eq_none (id : String) (results : List (String × String))
    (h : ∀ p ∈ results, p.1 ≠ id) : lastResultFor id results = none := by
  cases hl : lastResultFor id results with
  | none => rfl
  | some r => exact absurd rfl (h _ (lastResultFor_mem id r results hl))

theorem mem_assignFirst (results : List (String × String)) (tus : List ToolUse) :
    ∀ (seen : List String) (tu' : ToolUse), tu' ∈ assignFirst results seen tus →
      ∃ tu ∈ tus, tu'.Tool = tu.Tool ∧
        (tu'.Result = tu.Result ∨ lastResultFor tu.Tool.ID results = some tu'.Result) := by
  induction tus with
  | nil => intro _ _ h; simp [assignFirst] at h
  | cons tu rest ih =>
    intro seen tu' h
    simp only [assignFirst, List.mem_cons] at h
    rcases h with h | h
    · refine ⟨tu, List.mem_cons_self _ _, ?_⟩
      by_cases hin : tu.Tool.ID ∈ seen
      · simp only [hin, if_true] at h
        simp [h]
      · simp only [hin, if_false] at h
        cases hl : lastResultFor tu.Tool.ID results with
        | none => rw [hl] at h; simp [h]
        | some r => rw [hl] at h; simp [h]
    · obtain ⟨tu0, hmem, hp⟩ := ih _ tu' h
      exact ⟨tu0, List.mem_cons_of_mem _ hmem, hp⟩

theorem foldl_parseAssistantStep_results (items : List JSON) :
    ∀ acc : AssistantParts, (∀ tu ∈ acc.toolUses, tu.Result = "") →
      ∀ tu ∈ (items.foldl parseAssistantStep acc).toolUses, tu.Result = "" := by
  induction items with
  | nil => intro acc h; exact h
  | cons item rest ih =>
    intro acc h
    rw [List.foldl_cons]
    apply ih
    unfold parseAssistantStep
    split
    · simp only []
      split
      · split <;> exact h
      · split
        · split <;> exact h
        · split
          · intro tu htu
            rcases List.mem_append.mp htu with htu | htu
            · exact h tu htu
            · rw [List.mem_singleton] at htu
              rw [htu]
          · exact h
    · exact h

theorem parseAssistantContent_results_empty (e : LogEntry) :
    ∀ tu ∈ (parseAssistantContent e).toolUses, tu.Result = "" := by
  unfold parseAssistantContent
  split
  · exact foldl_parseAssistantStep_results _ _ (by simp)
  · simp

theorem mem_nextToolResults (nextEntry : Option LogEntry) (id r : String)
    (h : (id, r) ∈ nextToolResults nextEntry) :
    ∃ next, nextEntry = some next ∧ next.Type_ = "user" ∧
      ∃ arr, next.Message.Content = JSON.arr arr ∧
        ∃ item ∈ arr, ∃ m, item = JSON.obj m ∧ getString? m "type" = some "tool_result" ∧
          getString m "tool_use_id" = id ∧ getString m "content" = r := by
  unfold nextToolResults at h
  cases nextEntry with
  | none => simp at h
  | some next =>
    simp only [] at h
    by_cases hu : next.Type_ = "user"
    · cases hc : next.Message.Content with
      | arr arr =>
        simp only [hu, beq_self_eq_true, if_true, hc, JSON.asArray, List.mem_filterMap] at h
        obtain ⟨item, hmem, hitem⟩ := h
        refine ⟨next, rfl, hu, arr, hc, item, hmem, ?_⟩
        unfold toolResult? at hitem
        cases item with
        | obj m =>
          simp only [JSON.asObject] at hitem
          by_cases hty : getString? m "type" = some "tool_result"
          · simp only [hty, if_true, Option.some.injEq, Prod.mk.injEq] at hitem
            exact ⟨m, rfl, hty, hitem.1, hitem.2⟩
          · simp [hty] at hitem
        | null => simp [JSON.asObject] at hitem
        | bool b => simp [JSON.asObject] at hitem
        | number n => simp [JSON.asObject] at hitem
        | str s => simp [JSON.asObject] at hitem
        | arr a => simp [JSON.asObject] at hitem
      | null => simp [hu, hc, JSON.asArray] at h
      | bool b => simp [hu, hc, JSON.asArray] at h
      | number n => simp [hu, hc, JSON.asArray] at h
      | str s => simp [hu, hc, JSON.asArray] at h
      | obj m => simp [hu, hc, JSON.asArray] at h
    · simp [hu] at h

theorem generateToolUseHTML_eq (env : Env) (tu : ToolUse) :
    generateToolUseHTML env tu
      = toolItemOpenHTML env tu
        ++ (if tu.Result != "" then resultSectionHTML tu.Result else [])
        ++ utf8 "</div></span>" := by
  simp [generateToolUseHTML, toolItemOpenHTML]

theorem generateMessagesLoop_cons (env : Env) (ids : List String) (e : LogEntry)
    (rest : List LogEntry) (idx : Nat) :
    ∃ x idx', generateMessagesLoop env ids (e :: rest) idx
      = x :: generateMessagesLoop env ids rest idx' := by
  simp only [generateMessagesLoop]
  split
  · split
    · exact ⟨_, _, rfl⟩
    · split
      · exact ⟨_, _, rfl⟩
      · exact ⟨_, _, rfl⟩
  · split
    · exact ⟨_, _, rfl⟩
    · exact ⟨_, _, rfl⟩

theorem generateMessagesLoop_assistant_at (env : Env) (ids : List String) (l : List LogEntry) :
    ∀ (idx i : Nat) (e : LogEntry), l[i]? = some e → e.Type_ = "assistant" →
      (generateMessagesLoop env ids l idx)[i]?
        = some (some (.assistantMessage (generateAssistantMessageHTML env e l[i + 1]?))) := by
  induction l with
  | nil => intro idx i e h; simp at h
  | cons x rest ih =>
    intro idx i e h ha
    cases i with
    | zero =>
      simp only [List.getElem?_cons_zero, Option.some.injEq] at h
      subst h
      have hu : (x.Type_ == "user") = false := by rw [ha]; decide
      have ha' : (x.Type_ == "assistant") = true := by rw [ha]; decide
      simp only [generateMessagesLoop, hu, ha', Bool.false_eq_true, if_false, if_true,
        List.getElem?_cons_zero, Nat.zero_add, List.getElem?_cons_succ]
      cases rest <;> simp
    | succ j =>
      obtain ⟨y, idx', hy⟩ := generateMessagesLoop_cons env ids x rest idx
      rw [hy]
      simp only [List.getElem?_cons_succ] at h ⊢
      exact ih idx' j e h ha

theorem parseAssistantStep_toolResult (acc : AssistantParts) (item : JSON)
    (h : (toolResult? item).isNone = false) : parseAssistantStep acc item = acc := by
  unfold toolResult? at h
  unfold parseAssistantStep
  cases hitem : item.asObject with
  | none => rfl
  | some m =>
    rw [hitem] at h
    simp only [] at h ⊢
    by_cases hty : getString? m "type" = some "tool_result"
    · have hs : getString m "type" = "tool_result" := by
        unfold getString? at hty
        unfold getString
        rw [hty]
        rfl
      rw [hs]
      rfl
    · simp [hty] at h

theorem foldl_parseAssistantStep_filter (items : List JSON) :
    ∀ acc, (items.filter fun it => (toolResult? it).isNone).foldl parseAssistantStep acc
      = items.foldl parseAssistantStep acc := by
  induction items with
  | nil => intro _; rfl
  | cons item rest ih =>
    intro acc
    rw [List.filter_cons, List.foldl_cons]
    cases h : (toolResult? item).isNone
    · simp only [Bool.false_eq_true, if_false]
      rw [parseAssistantStep_toolResult acc item h, ih]
    · simp only [if_true, List.foldl_cons, ih]

theorem parseAssistantContent_dropToolResults (e : LogEntry) :
    parseAssistantContent (dropToolResults e) = parseAssistantContent e := by
  unfold dropToolResults
  cases hc : e.Message.Content.asArray with
  | none => rfl
  | some items =>
    simp only [parseAssistantContent, hc]
    exact foldl_parseAssistantStep_filter items _

theorem dropToolResults_Timestamp (e : LogEntry) :
    (dropToolResults e).Timestamp = e.Timestamp := by
  unfold dropToolResults
  cases e.Message.Content.asArray <;> rfl

theorem generateAssistantMessageHTML_dropToolResults (env : Env) (e : LogEntry)
    (nextEntry : Option LogEntry) :
    generateAssistantMessageHTML env (dropToolResults e) nextEntry
      = generateAssistantMessageHTML env e nextEntry := by
  unfold generateAssistantMessageHTML
  rw [parseAssistantContent_dropToolResults, dropToolResults_Timestamp]

/-- C4: the fragment written for an assistant entry at position `i` is a function of that
entry and of entry `i+1` alone, and ignores `tool_result` items placed in the entry itself;
an invocation is rendered with a Result section only when its result text is not empty,
which requires entry `i+1` to exist, to be a human turn with array content and to hold a
`tool_result` item with the invocation's id and that text; an invocation whose id matches no
`tool_result` item of entry `i+1` has no Result section. -/
theorem tool_results_come_from_next_entry (env : Env) (conv : Conversation) (i : Nat)
    (e : LogEntry) (hi : conv.Entries[i]? = some e) (ha : e.Type_ = "assistant") :
    (messageWrites env conv)[i]?
        = some (some (.assistantMessage
            (generateAssistantMessageHTML env e conv.Entries[i + 1]?)))
    ∧ (∀ conv' : Conversation, conv'.Entries[i]? = some e →
        conv'.Entries[i + 1]? = conv.Entries[i + 1]? →
        (messageWrites env conv')[i]? = (messageWrites env conv)[i]?)
    ∧ generateAssistantMessageHTML env (dropToolResults e) conv.Entries[i + 1]?
        = generateAssistantMessageHTML env e conv.Entries[i + 1]?
    ∧ ∀ tu ∈ correlatedToolUses e conv.Entries[i + 1]?,
        generateToolUseHTML env tu
            = toolItemOpenHTML env tu
              ++ (if tu.Result != "" then resultSectionHTML tu.Result else [])
              ++ utf8 "</div></span>"
        ∧ (tu.Result ≠ "" →
            ∃ next, conv.Entries[i + 1]? = some next ∧ next.Type_ = "user" ∧
              ∃ arr, next.Message.Content = JSON.arr arr ∧
                ∃ item ∈ arr, ∃ m, item = JSON.obj m ∧
                  getString? m "type" = some "tool_result" ∧
                  getString m "tool_use_id" = tu.Tool.ID ∧
                  getString m "content" = tu.Result)
        ∧ ((∀ r ∈ nextToolResults conv.Entries[i + 1]?, r.1 ≠ tu.Tool.ID) →
            tu.Result = "") := by
  have hfrag : ∀ c : Conversation, c.Entries[i]? = some e →
      (messageWrites env c)[i]?
        = some (some (.assistantMessage
            (generateAssistantMessageHTML env e c.Entries[i + 1]?))) := by
    intro c hc
    exact generateMessagesLoop_assistant_at env _ c.Entries 0 i e hc ha
  refine ⟨hfrag conv hi, ?_, generateAssistantMessageHTML_dropToolResults env e _, ?_⟩
  · intro conv' hi' hnext
    rw [hfrag conv' hi', hfrag conv hi, hnext]
  · intro tu htu
    unfold correlatedToolUses at htu
    rw [correlateToolResults_eq_foldl, foldl_attachResult_eq_assignFirst] at htu
    obtain ⟨tu0, hmem0, htool, hres⟩ := mem_assignFirst _ _ _ _ htu
    have h0 : tu0.Result = "" := parseAssistantContent_results_empty e tu0 hmem0
    refine ⟨generateToolUseHTML_eq env tu, ?_, ?_⟩
    · intro hne
      rcases hres with hres | hres
      · exact absurd (hres.trans h0) hne
      · rw [← htool] at hres
        exact mem_nextToolResults _ _ _ (lastResultFor_mem _ _ _ hres)
    · intro hno
      rcases hres with hres | hres
      · exact hres.trans h0
      · rw [← htool] at hres
        exact absurd rfl (hno _ (lastResultFor_mem _ _ _ hres))

/-- C4 (witness): the theorem applied to `dupEntry` followed by `dupNext`. -/
theorem tool_results_come_from_next_entry_witness :
    dupConversation.Entries[0]? = some dupEntry ∧ dupEntry.Type_ = "assistant" ∧
      (messageWrites exampleEnv dupConversation)[0]?
        = some (some (.assistantMessage
            (generateAssistantMessageHTML exampleEnv dupEntry (some dupNext)))) :=
  ⟨rfl, rfl, (tool_results_come_from_next_entry exampleEnv dupConversation 0 dupEntry rfl rfl).1⟩

/-! ## Entries that are not numbered -/

theorem userWrites_cons_none (ws : List (Option Fragment)) :
    userWrites (none :: ws) = userWrites ws := by
  simp [userWrites]

theorem userWrites_cons_assistant (html : Bytes) (ws : List (Option Fragment)) :
    userWrites (some (.assistantMessage html) :: ws) = userWrites ws := by
  simp [userWrites, Fragment.isUserMessage]

theorem userWrites_cons_continuation (html : Bytes) (ws : List (Option Fragment)) :
    userWrites (some (.sessionContinuation html) :: ws) = userWrites ws := by
  simp [userWrites, Fragment.isUserMessage]

theorem userWrites_cons_user (a : String) (n : Nat) (p q : Bool) (html : Bytes)
    (ws : List (Option Fragment)) :
    userWrites (some (.userMessage a n p q html) :: ws)
      = .userMessage a n p q html :: userWrites ws := by
  simp [userWrites, Fragment.isUserMessage]

theorem generateMessagesLoop_unnumbered (env : Env) (ids : List String) (e : LogEntry)
    (rest : List LogEntry) (idx : Nat) (h : isNumberedTurn e = false) :
    userWrites (generateMessagesLoop env ids (e :: rest) idx)
      = userWrites (generateMessagesLoop env ids rest idx) := by
  by_cases hu : e.Type_ = "user"
  · cases hc : (e.IsVisibleInTranscriptOnly && e.IsCompactSummary)
    · have ht : TrimSpace (extractMessageText e) = "" := by
        simpa [isNumberedTurn, hu, hc] using h
      simp [generateMessagesLoop, hu, hc, ht, generateUserMessageHTML_eq_nil_iff,
        userWrites_cons_none]
    · simp [generateMessagesLoop, hu, hc, userWrites_cons_continuation]
  · by_cases ha : e.Type_ = "assistant"
    · simp [generateMessagesLoop, hu, ha, userWrites_cons_assistant]
    · simp [generateMessagesLoop, hu, ha, userWrites_cons_none]

theorem generateMessagesLoop_skip (env : Env) (ids : List String) (e : LogEntry)
    (post : List LogEntry) (h : isNumberedTurn e = false) (pre : List LogEntry) :
    ∀ idx, userWrites (generateMessagesLoop env ids (pre ++ e :: post) idx)
      = userWrites (generateMessagesLoop env ids (pre ++ post) idx) := by
  induction pre with
  | nil => intro idx; exact generateMessagesLoop_unnumbered env ids e post idx h
  | cons x pre ih =>
    intro idx
    by_cases hu : x.Type_ = "user"
    · cases hc : (x.IsVisibleInTranscriptOnly && x.IsCompactSummary)
      · by_cases ht : TrimSpace (extractMessageText x) = ""
        · simp [generateMessagesLoop, hu, hc, ht, generateUserMessageHTML_eq_nil_iff,
            userWrites_cons_none, ih]
        · simp [generateMessagesLoop, hu, hc, ht, generateUserMessageHTML_eq_nil_iff,
            userWrites_cons_user, ih]
      · simp [generateMessagesLoop, hu, hc, userWrites_cons_continuation, ih]
    · by_cases ha : x.Type_ = "assistant"
      · simp [generateMessagesLoop, hu, ha, userWrites_cons_assistant, ih]
      · simp [generateMessagesLoop, hu, ha, userWrites_cons_none, ih]

theorem generateTOCLoop_skip (env : Env) (e : LogEntry) (post : List LogEntry)
    (h : isNumberedTurn e = false) (pre : List LogEntry) :
    ∀ idx, generateTOCLoop env (pre ++ e :: post) idx = generateTOCLoop env (pre ++ post) idx := by
  induction pre with
  | nil =>
    intro idx
    by_cases hu : e.Type_ = "user"
    · cases hc : (e.IsVisibleInTranscriptOnly && e.IsCompactSummary)
      · have ht : TrimSpace (extractMessageText e) = "" := by
          simpa [isNumberedTurn, hu, hc] using h
        simp [generateTOCLoop, hu, hc, ht]
      · simp [generateTOCLoop, hu, hc]
    · simp [generateTOCLoop, hu]
  | cons x pre ih =>
    intro idx
    rw [List.cons_append, List.cons_append]
    simp only [generateTOCLoop, ih]

theorem collectUserMessageIDsLoop_skip (e : LogEntry) (post : List LogEntry)
    (h : isNumberedTurn e = false) (pre : List LogEntry) :
    ∀ idx, collectUserMessageIDsLoop (pre ++ e :: post) idx
      = collectUserMessageIDsLoop (pre ++ post) idx := by
  induction pre with
  | nil =>
    intro idx
    by_cases hu : e.Type_ = "user"
    · cases hc : (e.IsVisibleInTranscriptOnly && e.IsCompactSummary)
      · have ht : TrimSpace (extractMessageText e) = "" := by
          simpa [isNumberedTurn, hu, hc] using h
        simp [collectUserMessageIDsLoop, hu, hc, ht]
      · simp [collectUserMessageIDsLoop, hu, hc]
    · simp [collectUserMessageIDsLoop, hu]
  | cons x pre ih =>
    intro idx
    rw [List.cons_append, List.cons_append]
    simp only [collectUserMessageIDsLoop, ih]

theorem generateMessagesLoop_write_at (env : Env) (ids : List String) (e : LogEntry)
    (post : List LogEntry) (pre : List LogEntry) :
    ∀ idx, ∃ idx', (generateMessagesLoop env ids (pre ++ e :: post) idx)[pre.length]?
      = (generateMessagesLoop env ids (e :: post) idx')[0]? := by
  induction pre with
  | nil => intro idx; exact ⟨idx, rfl⟩
  | cons x pre ih =>
    intro idx
    obtain ⟨y, idx', hy⟩ := generateMessagesLoop_cons env ids x (pre ++ e :: post) idx
    obtain ⟨idx'', h⟩ := ih idx'
    refine ⟨idx'', ?_⟩
    rw [List.cons_append, hy, List.length_cons, List.getElem?_cons_succ, h]

theorem filterMap_divider_filter (l : List Fragment) :
    (l.filter Fragment.isUserMessage).filterMap Fragment.divider?
      = l.filterMap Fragment.divider? := by
  induction l with
  | nil => rfl
  | cons f rest ih =>
    cases f <;> simp [Fragment.isUserMessage, Fragment.divider?, ih]

theorem numberedTurns_eq_userFragments (env : Env) (conv : Conversation) :
    numberedTurns env conv = (userFragments env conv).filterMap Fragment.divider? := by
  unfold numberedTurns userFragments userWrites messageFragments
  rw [filterMap_divider_filter]

theorem userFragments_skip (env : Env) (conv : Conversation) (pre post : List LogEntry)
    (e : LogEntry) (hconv : conv.Entries = pre ++ e :: post) (h : isNumberedTurn e = false) :
    userFragments env conv = userFragments env { conv with Entries := pre ++ post } := by
  unfold userFragments messageWrites collectUserMessageIDs
  simp only [hconv]
  rw [collectUserMessageIDsLoop_skip e post h pre 0]
  exact generateMessagesLoop_skip env _ e post h pre 0

/-- C5: a human entry that is not a session continuation and whose display text is empty or
blank makes `generateUserMessageHTML` return the empty string and writes nothing; the TOC
items, the ids of `collectUserMessageIDs` and the numbered human turns (ids, numbers and
bytes) are those of the conversation without that entry. -/
theorem blank_human_turn_is_skipped (env : Env) (conv : Conversation)
    (pre post : List LogEntry) (e : LogEntry) (hconv : conv.Entries = pre ++ e :: post)
    (hu : e.Type_ = "user")
    (hc : (e.IsVisibleInTranscriptOnly && e.IsCompactSummary) = false)
    (ht : TrimSpace (extractMessageText e) = "") :
    (∀ messageID messageNumber hasPrev hasNext,
        generateUserMessageHTML env e messageID messageNumber hasPrev hasNext = [])
    ∧ (messageWrites env conv)[pre.length]? = some none
    ∧ tocItems env conv = tocItems env { conv with Entries := pre ++ post }
    ∧ collectUserMessageIDs conv.Entries = collectUserMessageIDs (pre ++ post)
    ∧ userFragments env conv = userFragments env { conv with Entries := pre ++ post }
    ∧ numberedTurns env conv = numberedTurns env { conv with Entries := pre ++ post } := by
  have hn : isNumberedTurn e = false := by simp [isNumberedTurn, hu, hc, ht]
  have huf := userFragments_skip env conv pre post e hconv hn
  refine ⟨?_, ?_, ?_, ?_, huf, ?_⟩
  · intro a n p q
    exact (generateUserMessageHTML_eq_nil_iff env e a n p q).mpr ht
  · unfold messageWrites
    rw [hconv]
    obtain ⟨idx', h⟩ := generateMessagesLoop_write_at env
      (collectUserMessageIDs (pre ++ e :: post)) e post pre 0
    rw [h]
    simp [generateMessagesLoop, hu, hc, ht, generateUserMessageHTML_eq_nil_iff]
  · unfold tocItems
    rw [hconv]
    exact generateTOCLoop_skip env e post hn pre 0
  · rw [hconv]
    exact collectUserMessageIDsLoop_skip e post hn pre 0
  · rw [numberedTurns_eq_userFragments, numberedTurns_eq_userFragments, huf]

/-- C5 (witness): the theorem applied to the blank turn between two plain turns. -/
theorem blank_human_turn_is_skipped_witness :
    blankConversation.Entries = [plainTurn "a"] ++ blankTurn :: [plainTurn "b"]
    ∧ blankTurn.Type_ = "user"
    ∧ (blankTurn.IsVisibleInTranscriptOnly && blankTurn.IsCompactSummary) = false
    ∧ TrimSpace (extractMessageText blankTurn) = ""
    ∧ numberedTurns exampleEnv blankConversation
        = numberedTurns exampleEnv
            { blankConversation with Entries := [plainTurn "a"] ++ [plainTurn "b"] } :=
  ⟨rfl, rfl, rfl, by decide,
    (blank_human_turn_is_skipped exampleEnv blankConversation [plainTurn "a"] [plainTurn "b"]
      blankTurn rfl rfl rfl (by decide)).2.2.2.2.2⟩

/-- C6: a human entry with both `IsVisibleInTranscriptOnly` and `IsCompactSummary` set is
written as the session-continuation notice, whatever its text; the TOC items, the ids of
`collectUserMessageIDs` and the numbered human turns are those of the conversation without
that entry. -/
theorem session_continuation_is_not_numbered (env : Env) (conv : Conversation)
    (pre post : List LogEntry) (e : LogEntry) (hconv : conv.Entries = pre ++ e :: post)
    (hu : e.Type_ = "user") (hv : e.IsVisibleInTranscriptOnly = true)
    (hs : e.IsCompactSummary = true) :
    (messageWrites env conv)[pre.length]?
        = some (some (.sessionContinuation (generateSessionContinuationHTML env e)))
    ∧ tocItems env conv = tocItems env { conv with Entries := pre ++ post }
    ∧ collectUserMessageIDs conv.Entries = collectUserMessageIDs (pre ++ post)
    ∧ userFragments env conv = userFragments env { conv with Entries := pre ++ post }
    ∧ numberedTurns env conv = numberedTurns env { conv with Entries := pre ++ post } := by
  have hn : isNumberedTurn e = false := by simp [isNumberedTurn, hu, hv, hs]
  have huf := userFragments_skip env conv pre post e hconv hn
  refine ⟨?_, ?_, ?_, huf, ?_⟩
  · unfold messageWrites
    rw [hconv]
    obtain ⟨idx', h⟩ := generateMessagesLoop_write_at env
      (collectUserMessageIDs (pre ++ e :: post)) e post pre 0
    rw [h]
    simp [generateMessagesLoop, hu, hv, hs]
  · unfold tocItems
    rw [hconv]
    exact generateTOCLoop_skip env e post hn pre 0
  · rw [hconv]
    exact collectUserMessageIDsLoop_skip e post hn pre 0
  · rw [numberedTurns_eq_userFragments, numberedTurns_eq_userFragments, huf]

/-- C6 (witness): the theorem applied to a continuation with the summary text `summary`. -/
theorem session_continuation_is_not_numbered_witness :
    continuationConversation.Entries
        = [plainTurn "a"] ++ continuationTurn "summary" :: [plainTurn "b"]
    ∧ (continuationTurn "summary").Type_ = "user"
    ∧ (continuationTurn "summary").IsVisibleInTranscriptOnly = true
    ∧ (continuationTurn "summary").IsCompactSummary = true
    ∧ (messageWrites exampleEnv continuationConversation)[1]?
        = some (some (.sessionContinuation
            (generateSessionContinuationHTML exampleEnv (continuationTurn "summary")))) :=
  ⟨rfl, rfl, rfl, rfl,
    (session_continuation_is_not_numbered exampleEnv continuationConversation [plainTurn "a"]
      [plainTurn "b"] (continuationTurn "summary") rfl rfl rfl rfl).1⟩

/-! ## Session times -/

theorem parseStep_eq (unmarshal : Bytes → Option LogEntry) (st : ParseState) (line : Bytes) :
    (parseStep unmarshal st line).startTime
        = (match decodedRecord? unmarshal line with
          | some entry =>
            if st.startTime.IsZero && !entry.Timestamp.IsZero then entry.Timestamp
            else st.startTime
          | none => st.startTime)
    ∧ (parseStep unmarshal st line).endTime
        = (match decodedRecord? unmarshal line with
          | some entry => if !entry.Timestamp.IsZero then entry.Timestamp else st.endTime
          | none => st.endTime) := by
  unfold parseStep decodedRecord?
  cases hl : (line.length == 0)
  · simp only [Bool.false_eq_true, if_false]
    cases hd : unmarshal line with
    | none => exact ⟨rfl, rfl⟩
    | some entry =>
      simp only []
      cases hs : (entry.Type_ == "file-history-snapshot")
      · exact ⟨rfl, rfl⟩
      · exact ⟨rfl, rfl⟩
  · exact ⟨rfl, rfl⟩

theorem foldl_parseStep_times (unmarshal : Bytes → Option LogEntry) (lines : List Bytes) :
    ∀ st : ParseState,
      (lines.foldl (parseStep unmarshal) st).startTime
          = (if st.startTime.IsZero then
              (nonZeroTimestamps (decodedRecords unmarshal lines)).head?.getD st.startTime
            else st.startTime)
      ∧ (lines.foldl (parseStep unmarshal) st).endTime
          = (nonZeroTimestamps (decodedRecords unmarshal lines)).getLast?.getD st.endTime := by
  induction lines with
  | nil =>
    intro st
    simp [decodedRecords, nonZeroTimestamps]
  | cons line rest ih =>
    intro st
    rw [List.foldl_cons]
    obtain ⟨hs, he⟩ := parseStep_eq unmarshal st line
    obtain ⟨ihs, ihe⟩ := ih (parseStep unmarshal st line)
    rw [ihs, ihe, hs, he]
    simp only [decodedRecords, List.filterMap_cons]
    cases hd : decodedRecord? unmarshal line with
    | none => exact ⟨rfl, rfl⟩
    | some entry =>
      simp only [nonZeroTimestamps, List.map_cons, List.filter_cons]
      generalize List.filter (fun t => !Time.IsZero t)
        (List.map (fun e => e.Timestamp) (List.filterMap (decodedRecord? unmarshal) rest)) = l
      cases hz : Time.IsZero entry.Timestamp
      · simp only [Bool.not_false, Bool.and_true, if_true, List.head?_cons, Option.getD_some]
        constructor
        · cases hsz : Time.IsZero st.startTime
          · simp only [Bool.false_eq_true, if_false, hsz]
          · simp only [if_true, hz, Bool.false_eq_true, if_false]
        · cases l with
          | nil => simp
          | cons a t =>
            cases hl : (a :: t).getLast? with
            | none => simp at hl
            | some b => simp [hl]
      · simp only [Bool.not_true, Bool.and_false, Bool.false_eq_true, if_false]
        exact ⟨trivial, trivial⟩

theorem head_le_getLast_of_pairwise (l : List Int) (h : l.Pairwise (· ≤ ·)) :
    l.head?.getD 0 ≤ l.getLast?.getD 0 := by
  cases l with
  | nil => simp
  | cons a t =>
    simp only [List.head?_cons, Option.getD_some]
    rw [List.pairwise_cons] at h
    cases ht : t.getLast? with
    | none =>
      have : t = [] := List.getLast?_eq_none_iff.mp ht
      subst this
      simp
    | some b =>
      have hb : b ∈ t := List.mem_of_getLast?_eq_some ht
      have hl : (a :: t).getLast? = some b := by
        cases t with
        | nil => simp at ht
        | cons c t' => rw [List.getLast?_cons_cons]; exact ht
      rw [hl]
      exact h.1 b hb

theorem ParseJSONL_ok (unmarshal : Bytes → Option LogEntry) (lines : List Bytes) :
    ParseJSONL unmarshal (.ok { lines := lines, err := none })
      = .ok { SessionID := (lines.foldl (parseStep unmarshal)
                { rawEntries := [], sessionID := "", startTime := 0, endTime := 0 }).sessionID,
              StartTime := (nonZeroTimestamps (decodedRecords unmarshal lines)).head?.getD 0,
              EndTime := (nonZeroTimestamps (decodedRecords unmarshal lines)).getLast?.getD 0,
              Entries := groupAssistantMessages (lines.foldl (parseStep unmarshal)
                { rawEntries := [], sessionID := "", startTime := 0, endTime := 0 }).rawEntries } := by
  obtain ⟨hs, he⟩ := foldl_parseStep_times unmarshal lines
    { rawEntries := [], sessionID := "", startTime := 0, endTime := 0 }
  simp only [ParseJSONL, hs, he]
  rfl

/-- C10: when the scan succeeds, `ParseJSONL` returns a conversation whose `StartTime` is the
first and whose `EndTime` is the last non-zero timestamp, in stream order, of the decoded
records that are not `file-history-snapshot` records; both are the zero time when there is
no such timestamp. -/
theorem ParseJSONL_start_first_end_last (unmarshal : Bytes → Option LogEntry)
    (lines : List Bytes) :
    ∃ conv, ParseJSONL unmarshal (.ok { lines := lines, err := none }) = .ok conv
      ∧ conv.StartTime = (nonZeroTimestamps (decodedRecords unmarshal lines)).head?.getD 0
      ∧ conv.EndTime = (nonZeroTimestamps (decodedRecords unmarshal lines)).getLast?.getD 0
      ∧ (nonZeroTimestamps (decodedRecords unmarshal lines) = [] →
          conv.StartTime = 0 ∧ conv.EndTime = 0) := by
  refine ⟨_, ParseJSONL_ok unmarshal lines, rfl, rfl, ?_⟩
  intro h
  simp [h]

/-- C9 (counterexample): two records with timestamps 10 and 5, in that stream order, give
`StartTime = 10` and `EndTime = 5`, so `StartTime ≤ EndTime` fails although a record carries
a non-zero timestamp. -/
theorem start_after_end_when_not_chronological :
    ∃ conv, ParseJSONL exampleUnmarshal (.ok { lines := [[10], [5]], err := none }) = .ok conv
      ∧ nonZeroTimestamps (decodedRecords exampleUnmarshal [[10], [5]]) ≠ []
      ∧ conv.StartTime = 10 ∧ conv.EndTime = 5
      ∧ ¬ (conv.StartTime ≤ conv.EndTime) := by
  refine ⟨_, ParseJSONL_ok exampleUnmarshal [[10], [5]], ?_, ?_, ?_, ?_⟩ <;> decide

/-- C9 (amended): when the scan succeeds and the non-zero timestamps of the decoded records
that are not `file-history-snapshot` records are in non-decreasing stream order, the
conversation returned by `ParseJSONL` has `StartTime ≤ EndTime`. -/
theorem start_le_end_of_chronological (unmarshal : Bytes → Option LogEntry)
    (lines : List Bytes)
    (h : (nonZeroTimestamps (decodedRecords unmarshal lines)).Pairwise (· ≤ ·)) :
    ∃ conv, ParseJSONL unmarshal (.ok { lines := lines, err := none }) = .ok conv
      ∧ conv.StartTime ≤ conv.EndTime :=
  ⟨_, ParseJSONL_ok unmarshal lines, head_le_getLast_of_pairwise _ h⟩

/-- C9 (witness): the amended theorem applied to timestamps 5 then 10. -/
theorem start_le_end_of_chronological_witness :
    (nonZeroTimestamps (decodedRecords exampleUnmarshal [[5], [10]])).Pairwise (· ≤ ·)
    ∧ ∃ conv, ParseJSONL exampleUnmarshal (.ok { lines := [[5], [10]], err := none }) = .ok conv
      ∧ conv.StartTime ≤ conv.EndTime :=
  ⟨by decide, start_le_end_of_chronological exampleUnmarshal [[5], [10]] (by decide)⟩

/-! ## Escaping -/

theorem escapeByte_cases (b : UInt8) :
    (b = 38 ∧ escapeByte b = [38, 97, 109, 112, 59])
    ∨ (b = 39 ∧ escapeByte b = [38, 35, 51, 57, 59])
    ∨ (b = 60 ∧ escapeByte b = [38, 108, 116, 59])
    ∨ (b = 62 ∧ escapeByte b = [38, 103, 116, 59])
    ∨ (b = 34 ∧ escapeByte b = [38, 35, 51, 52, 59])
    ∨ (b ≠ 38 ∧ b ≠ 39 ∧ b ≠ 60 ∧ b ≠ 62 ∧ b ≠ 34 ∧ escapeByte b = [b]) := by
  by_cases h1 : b = 38
  · subst h1; exact Or.inl ⟨rfl, by decide⟩
  by_cases h2 : b = 39
  · subst h2; exact Or.inr (Or.inl ⟨rfl, by decide⟩)
  by_cases h3 : b = 60
  · subst h3; exact Or.inr (Or.inr (Or.inl ⟨rfl, by decide⟩))
  by_cases h4 : b = 62
  · subst h4; exact Or.inr (Or.inr (Or.inr (Or.inl ⟨rfl, by decide⟩)))
  by_cases h5 : b = 34
  · subst h5; exact Or.inr (Or.inr (Or.inr (Or.inr (Or.inl ⟨rfl, by decide⟩))))
  · refine Or.inr (Or.inr (Or.inr (Or.inr (Or.inr ⟨h1, h2, h3, h4, h5, ?_⟩))))
    simp [escapeByte, h1, h2, h3, h4, h5]

theorem EscapeString_cons (b : UInt8) (s : Bytes) :
    EscapeString (b :: s) = escapeByte b ++ EscapeString s := by
  simp [EscapeString]

theorem EscapeString_no_markup (s : Bytes) : ∀ b ∈ EscapeString s, isMarkupByte b = false := by
  induction s with
  | nil => intro b h; simp [EscapeString] at h
  | cons x rest ih =>
    intro b h
    rw [EscapeString_cons, List.mem_append] at h
    rcases h with h | h
    · rcases escapeByte_cases x with ⟨_, hx⟩ | ⟨_, hx⟩ | ⟨_, hx⟩ | ⟨_, hx⟩ | ⟨_, hx⟩ |
        ⟨_, h2, h3, h4, h5, hx⟩
      all_goals rw [hx] at h
      · simp only [List.mem_cons, List.mem_singleton, List.not_mem_nil, or_false] at h
        rcases h with h | h | h | h | h <;> subst h <;> decide
      · simp only [List.mem_cons, List.mem_singleton, List.not_mem_nil, or_false] at h
        rcases h with h | h | h | h | h <;> subst h <;> decide
      · simp only [List.mem_cons, List.mem_singleton, List.not_mem_nil, or_false] at h
        rcases h with h | h | h | h <;> subst h <;> decide
      · simp only [List.mem_cons, List.mem_singleton, List.not_mem_nil, or_false] at h
        rcases h with h | h | h | h <;> subst h <;> decide
      · simp only [List.mem_cons, List.mem_singleton, List.not_mem_nil, or_false] at h
        rcases h with h | h | h | h | h <;> subst h <;> decide
      · rw [List.mem_singleton] at h
        subst h
        simp [isMarkupByte, h2, h3, h4, h5]
    · exact ih b h

theorem ampersands_cons_of_ne (b : UInt8) (out : Bytes) (hb : b ≠ 38)
    (h : AmpersandsStartEntities out) : AmpersandsStartEntities (b :: out) := by
  intro pre post heq
  cases pre with
  | nil =>
    simp only [List.nil_append, List.cons.injEq] at heq
    exact absurd heq.1 hb
  | cons x pre' =>
    simp only [List.cons_append, List.cons.injEq] at heq
    exact h pre' post heq.2

theorem ampersands_cons_amp (out : Bytes) (hent : ∃ ent ∈ entityTails, ent <+: out)
    (h : AmpersandsStartEntities out) : AmpersandsStartEntities (38 :: out) := by
  intro pre post heq
  cases pre with
  | nil =>
    simp only [List.nil_append, List.cons.injEq, true_and] at heq
    rw [← heq]
    exact hent
  | cons x pre' =>
    simp only [List.cons_append, List.cons.injEq] at heq
    exact h pre' post heq.2

theorem EscapeString_ampersands (s : Bytes) : AmpersandsStartEntities (EscapeString s) := by
  induction s with
  | nil =>
    intro pre post h
    simp [EscapeString] at h
  | cons x rest ih =>
    rw [EscapeString_cons]
    rcases escapeByte_cases x with ⟨_, hx⟩ | ⟨_, hx⟩ | ⟨_, hx⟩ | ⟨_, hx⟩ | ⟨_, hx⟩ |
      ⟨h1, _, _, _, _, hx⟩
    · rw [hx]
      refine ampersands_cons_amp _ ⟨utf8 "amp;", by simp [entityTails], ?_⟩ ?_
      · exact ⟨EscapeString rest, by rw [show utf8 "amp;" = [97, 109, 112, 59] from by decide]; rfl⟩
      · exact ampersands_cons_of_ne _ _ (by decide) (ampersands_cons_of_ne _ _ (by decide)
          (ampersands_cons_of_ne _ _ (by decide) (ampersands_cons_of_ne _ _ (by decide) ih)))
    · rw [hx]
      refine ampersands_cons_amp _ ⟨utf8 "#39;", by simp [entityTails], ?_⟩ ?_
      · exact ⟨EscapeString rest, by rw [show utf8 "#39;" = [35, 51, 57, 59] from by decide]; rfl⟩
      · exact ampersands_cons_of_ne _ _ (by decide) (ampersands_cons_of_ne _ _ (by decide)
          (ampersands_cons_of_ne _ _ (by decide) (ampersands_cons_of_ne _ _ (by decide) ih)))
    · rw [hx]
      refine ampersands_cons_amp _ ⟨utf8 "lt;", by simp [entityTails], ?_⟩ ?_
      · exact ⟨EscapeString rest, by rw [show utf8 "lt;" = [108, 116, 59] from by decide]; rfl⟩
      · exact ampersands_cons_of_ne _ _ (by decide) (ampersands_cons_of_ne _ _ (by decide)
          (ampersands_cons_of_ne _ _ (by decide) ih))
    · rw [hx]
      refine ampersands_cons_amp _ ⟨utf8 "gt;", by simp [entityTails], ?_⟩ ?_
      · exact ⟨EscapeString rest, by rw [show utf8 "gt;" = [103, 116, 59] from by decide]; rfl⟩
      · exact ampersands_cons_of_ne _ _ (by decide) (ampersands_cons_of_ne _ _ (by decide)
          (ampersands_cons_of_ne _ _ (by decide) ih))
    · rw [hx]
      refine ampersands_cons_amp _ ⟨utf8 "#34;", by simp [entityTails], ?_⟩ ?_
      · exact ⟨EscapeString rest, by rw [show utf8 "#34;" = [35, 51, 52, 59] from by decide]; rfl⟩
      · exact ampersands_cons_of_ne _ _ (by decide) (ampersands_cons_of_ne _ _ (by decide)
          (ampersands_cons_of_ne _ _ (by decide) (ampersands_cons_of_ne _ _ (by decide) ih)))
    · rw [hx]
      exact ampersands_cons_of_ne _ _ h1 ih

theorem generateUserMessageHTML_hole (env : Env) :
    ∃ (openPart : Time → String → Nat → Bytes) (closePart : Bool → Bool → Bytes),
      ∀ (e : LogEntry) (messageID : String) (messageNumber : Nat) (hasPrev hasNext : Bool),
        generateUserMessageHTML env e messageID messageNumber hasPrev hasNext
          = if TrimSpace (extractMessageText e) == "" then []
            else openPart e.Timestamp messageID messageNumber
              ++ EscapeString (utf8 (extractMessageText e)) ++ closePart hasPrev hasNext := by
  refine ⟨fun ts messageID messageNumber =>
      dividerHTML messageNumber
      ++ utf8 "<div class=\"message-group user\">"
      ++ utf8 "<div class=\"timestamp-label\">" ++ formatTimestamp env ts ++ utf8 "</div>"
      ++ utf8 "<div id=\"" ++ utf8 messageID ++ utf8 "\" class=\"message user-message\">"
      ++ utf8 "<div class=\"message-content\">",
    fun hasPrev hasNext =>
      utf8 "</div>"
      ++ utf8 "<div class=\"message-navigation\">"
      ++ (if hasPrev then
            utf8 "<button class=\"nav-btn\" onclick=\"jumpToMessage(this, 'prev')\">‚¨ÜÔ∏è</button>"
          else [])
      ++ (if hasNext then
            utf8 "<button class=\"nav-btn\" onclick=\"jumpToMessage(this, 'next')\">‚¨áÔ∏è</button>"
          else [])
      ++ utf8 "</div>" ++ utf8 "</div>" ++ utf8 "</div>", ?_⟩
  intro e messageID messageNumber hasPrev hasNext
  unfold generateUserMessageHTML
  cases h : (TrimSpace (extractMessageText e) == "")
  · simp only [h, Bool.false_eq_true, if_false, List.append_assoc]
  · simp only [h, if_true]

theorem generateToolUseHTML_hole (env : Env) :
    ∃ (a b c d f g : Bytes), ∀ tu : ToolUse,
      generateToolUseHTML env tu
        = a ++ EscapeString (utf8 tu.Tool.Name) ++ b
          ++ EscapeString (env.marshalIndent tu.Tool.Input) ++ c
          ++ (if tu.Result != "" then d ++ EscapeString (utf8 tu.Result) ++ f else []) ++ g := by
  refine ⟨utf8 "<span class=\"tool-item\" onclick=\"toggleToolDetails(event)\">",
    utf8 " ‚ñº<div class=\"tool-details\" style=\"display: none;\">"
      ++ utf8 "<div class=\"tool-section\"><div class=\"tool-section-title\">Input Parameters:</div>"
      ++ utf8 "<pre class=\"tool-input\">",
    utf8 "</pre></div>",
    utf8 "<div class=\"tool-section\"><div class=\"tool-section-title\">Result:</div>"
      ++ utf8 "<pre class=\"tool-result\">",
    utf8 "</pre></div>", utf8 "</div></span>", ?_⟩
  intro tu
  unfold generateToolUseHTML resultSectionHTML
  cases h : (tu.Result != "")
  · simp only [h, Bool.false_eq_true, if_false, List.append_assoc]
  · simp only [h, if_true, List.append_assoc]

theorem generateAssistantMessageHTML_hole (env : Env) :
    ∃ (thinkOpen textOpen toolsOpen : Time → Bytes) (thinkClose textClose toolsClose sep : Bytes),
      ∀ (e : LogEntry) (nextEntry : Option LogEntry),
        generateAssistantMessageHTML env e nextEntry
          = (if (parseAssistantContent e).thinkingParts.length > 0 then
              thinkOpen e.Timestamp
                ++ EscapeString (utf8 (String.intercalate "\n\n---\n\n"
                    (parseAssistantContent e).thinkingParts))
                ++ thinkClose
            else [])
          ++ (if String.intercalate "\n" (parseAssistantContent e).textParts != "" then
              textOpen e.Timestamp
                ++ EscapeString (utf8 (String.intercalate "\n"
                    (parseAssistantContent e).textParts))
                ++ textClose
            else [])
          ++ (if (correlatedToolUses e nextEntry).length > 0 then
              toolsOpen e.Timestamp
                ++ sep.intercalate ((correlatedToolUses e nextEntry).map (generateToolUseHTML env))
                ++ toolsClose
            else []) := by
  refine ⟨fun ts =>
      utf8 "<div class=\"message-group assistant\">"
      ++ utf8 "<div class=\"timestamp-label\">" ++ formatTimestamp env ts ++ utf8 "</div>"
      ++ utf8 "<div class=\"thinking-section\">"
      ++ utf8 "<button class=\"meta-btn\" onclick=\"toggleThinking(this)\">\uF8FFüß† ...</button>"
      ++ utf8 "<div class=\"thinking-content\" style=\"display: none;\">"
      ++ utf8 "<pre>",
    fun ts =>
      utf8 "<div class=\"message-group assistant\">"
      ++ utf8 "<div class=\"timestamp-label\">" ++ formatTimestamp env ts ++ utf8 "</div>"
      ++ utf8 "<div class=\"message assistant-message\">"
      ++ utf8 "<div class=\"message-content\">",
    fun ts =>
      utf8 "<div class=\"message-group assistant\">"
      ++ utf8 "<div class=\"timestamp-label\">" ++ formatTimestamp env ts ++ utf8 "</div>"
      ++ utf8 "<div class=\"tools-section\">‚öíÔ∏è ",
    utf8 "</pre>" ++ utf8 "</div></div></div>",
    utf8 "</div>" ++ utf8 "</div></div>",
    utf8 "</div></div>", utf8 ", ", ?_⟩
  intro e nextEntry
  unfold generateAssistantMessageHTML correlatedToolUses
  simp only [List.append_assoc]
  congr 1
  · by_cases h : (parseAssistantContent e).thinkingParts.length > 0 <;> simp [h]
  · by_cases h : (correlateToolResults (parseAssistantContent e).toolUses nextEntry).length > 0
      <;> simp [h]

theorem generateSessionContinuationHTML_hole (env : Env) :
    ∃ (a : Time → Bytes) (b : Bytes), ∀ e : LogEntry,
      generateSessionContinuationHTML env e
        = a e.Timestamp ++ EscapeString (utf8 (extractMessageText e)) ++ b := by
  refine ⟨fun ts =>
      utf8 "\n<div id=\"session-continuation\" class=\"message session-continuation-message\">\n  <div class=\"session-continuation-header\">\n    <span class=\"session-continuation-icon\">‚ö†Ô∏è</span>\n    <span class=\"session-continuation-title\">Session Continued</span>\n    <span class=\"timestamp\">"
      ++ formatTimestamp env ts
      ++ utf8 "</span>\n  </div>\n  <div class=\"session-continuation-notice\">\n    This session was continued from a previous conversation that ran out of context.\n  </div>\n  <div class=\"session-continuation-toggle\">\n    <button class=\"toggle-btn\" onclick=\"toggleSessionSummary(this)\">\uF8FFüìã View conversation summary</button>\n  </div>\n  <div class=\"session-continuation-content\" style=\"display: none;\">\n    <pre>",
    utf8 "</pre>\n  </div>\n</div>", ?_⟩
  intro e
  unfold generateSessionContinuationHTML
  simp only [List.append_assoc]

theorem GenerateHTML_hole (env : Env) :
    ∃ (a b c d f g : Bytes), ∀ conv : Conversation,
      GenerateHTML env conv
        = a ++ generateTOC env conv ++ b ++ EscapeString (utf8 conv.SessionID) ++ c
          ++ formatTimestamp env conv.StartTime ++ d ++ formatTimestamp env conv.EndTime ++ f
          ++ generateMessages env conv ++ g := by
  refine ⟨utf8 "<!DOCTYPE html>\n<html lang=\"ja\">\n<head>\n  <meta charset=\"UTF-8\">\n  <meta name=\"viewport\" content=\"width=device-width, initial-scale=1.0\">\n  <title>Claude Code Conversation</title>\n  <style>"
      ++ env.cssContent ++ utf8 "</style>\n</head>\n<body>\n  ",
    utf8 "\n  <div class=\"container\">\n    <div class=\"header\">\n      <h1>Claude Code Conversation</h1>\n      <div class=\"session-info\">\n        <div>Session ID: ",
    utf8 "</div>\n        <div>Start: ",
    utf8 "</div>\n        <div>End: ",
    utf8 "</div>\n      </div>\n    </div>\n    <div class=\"messages\">\n      ",
    utf8 "\n    </div>\n  </div>\n  <script>" ++ env.jsContent
      ++ utf8 "</script>\n</body>\n</html>", ?_⟩
  intro conv
  unfold GenerateHTML
  simp only [List.append_assoc]

theorem generateTOCLoop_preview (env : Env) (l : List LogEntry) :
    ∀ idx, ∀ t ∈ generateTOCLoop env l idx, ∃ e ∈ l,
      t.preview = EscapeString (tocPreview (extractMessageText e)) := by
  induction l with
  | nil => intro idx t h; simp [generateTOCLoop] at h
  | cons x rest ih =>
    intro idx t h
    have hrest : ∀ idx', t ∈ generateTOCLoop env rest idx' → ∃ e ∈ x :: rest,
        t.preview = EscapeString (tocPreview (extractMessageText e)) := by
      intro idx' h'
      obtain ⟨e, he, hp⟩ := ih idx' t h'
      exact ⟨e, List.mem_cons_of_mem _ he, hp⟩
    simp only [generateTOCLoop] at h
    split at h
    · exact hrest _ h
    · split at h
      · exact hrest _ h
      · split at h
        · exact hrest _ h
        · rcases List.mem_cons.mp h with h | h
          · exact ⟨x, List.mem_cons_self _ _, by rw [h]⟩
          · exact hrest _ h

theorem generateMessagesLoop_sources (env : Env) (ids : List String) (l : List LogEntry) :
    ∀ idx, ∀ f, some f ∈ generateMessagesLoop env ids l idx → ∃ e ∈ l,
      f.html = generateSessionContinuationHTML env e
      ∨ (∃ messageID messageNumber hasPrev hasNext,
          f.html = generateUserMessageHTML env e messageID messageNumber hasPrev hasNext)
      ∨ (∃ nextEntry, f.html = generateAssistantMessageHTML env e nextEntry) := by
  induction l with
  | nil => intro idx f h; simp [generateMessagesLoop] at h
  | cons x rest ih =>
    intro idx f h
    have hrest : ∀ idx', some f ∈ generateMessagesLoop env ids rest idx' → ∃ e ∈ x :: rest,
        f.html = generateSessionContinuationHTML env e
        ∨ (∃ messageID messageNumber hasPrev hasNext,
            f.html = generateUserMessageHTML env e messageID messageNumber hasPrev hasNext)
        ∨ (∃ nextEntry, f.html = generateAssistantMessageHTML env e nextEntry) := by
      intro idx' h'
      obtain ⟨e, he, hp⟩ := ih idx' f h'
      exact ⟨e, List.mem_cons_of_mem _ he, hp⟩
    simp only [generateMessagesLoop] at h
    split at h
    · split at h
      · rcases List.mem_cons.mp h with h | h
        · simp only [Option.some.injEq] at h
          exact ⟨x, List.mem_cons_self _ _, Or.inl (by rw [h]; rfl)⟩
        · exact hrest _ h
      · split at h
        · rcases List.mem_cons.mp h with h | h
          · simp only [Option.some.injEq] at h
            exact ⟨x, List.mem_cons_self _ _, Or.inr (Or.inl ⟨_, _, _, _, by rw [h]; rfl⟩)⟩
          · exact hrest _ h
        · rcases List.mem_cons.mp h with h | h
          · simp at h
          · exact hrest _ h
    · split at h
      · rcases List.mem_cons.mp h with h | h
        · simp only [Option.some.injEq] at h
          exact ⟨x, List.mem_cons_self _ _, Or.inr (Or.inr ⟨_, by rw [h]; rfl⟩)⟩
        · exact hrest _ h
      · rcases List.mem_cons.mp h with h | h
        · simp at h
        · exact hrest _ h

/-! ## Display text -/

theorem extractStep_eq (parts : List String) (item : JSON) :
    extractStep parts item = parts ++ itemParts item := by
  unfold extractStep itemParts
  cases item.asObject with
  | none => simp
  | some contentMap =>
    simp only []
    cases (getString contentMap "type" == "text")
    · simp only [Bool.false_eq_true, if_false]
      cases (getString contentMap "type" != "tool_result")
      · simp
      · simp only [if_true]
        cases getString? contentMap "content" with
        | none => simp
        | some content =>
          cases h : (content != "")
          · simp [Option.filter, h]
          · simp [Option.filter, h]
    · simp only [if_true]
      cases getString? contentMap "text" <;> simp

theorem foldl_extractStep (items : List JSON) :
    ∀ parts, items.foldl extractStep parts = parts ++ items.flatMap itemParts := by
  induction items with
  | nil => intro parts; simp
  | cons item rest ih =>
    intro parts
    rw [List.foldl_cons, ih, extractStep_eq]
    simp

theorem extractMessageText_mixedItemsTurn :
    extractMessageText mixedItemsTurn = "a" ∧ statedMessageText mixedItemsTurn = "a\nb\n" := by
  constructor <;> rfl

/-- C11 (counterexample): for a `text` item that also carries the `content` string `b`,
followed by an item of another type with empty `content`, `extractMessageText` returns `a`,
whereas the text field and every plain string content field joined by newlines is
`a\nb\n`. -/
theorem extractMessageText_differs_from_stated :
    extractMessageText mixedItemsTurn = "a"
    ∧ statedMessageText mixedItemsTurn = "a\nb\n"
    ∧ extractMessageText mixedItemsTurn ≠ statedMessageText mixedItemsTurn := by
  refine ⟨extractMessageText_mixedItemsTurn.1, extractMessageText_mixedItemsTurn.2, ?_⟩
  rw [extractMessageText_mixedItemsTurn.1, extractMessageText_mixedItemsTurn.2]
  decide

/-- C11 (amended): `extractMessageText` returns a plain string content verbatim; for an
array it returns the newline-joined strings, in order, made of the `text` field of each
`text` item and of the non-empty string `content` field of each item that is neither a
`text` nor a `tool_result` item; it returns the empty string for any other content and when
no item contributes. -/
theorem extractMessageText_eq (entry : LogEntry) :
    extractMessageText entry
        = (match entry.Message.Content with
          | JSON.str str => str
          | JSON.arr contentArray => String.intercalate "\n" (contentArray.flatMap itemParts)
          | _ => "")
    ∧ (∀ contentArray, entry.Message.Content = JSON.arr contentArray →
        contentArray.flatMap itemParts = [] → extractMessageText entry = "") := by
  have h : extractMessageText entry
      = (match entry.Message.Content with
        | JSON.str str => str
        | JSON.arr contentArray => String.intercalate "\n" (contentArray.flatMap itemParts)
        | _ => "") := by
    unfold extractMessageText
    cases entry.Message.Content with
    | str s => rfl
    | arr items =>
      simp only [JSON.asString, JSON.asArray]
      rw [foldl_extractStep]
      simp
    | null => rfl
    | bool b => rfl
    | number n => rfl
    | obj m => rfl
  refine ⟨h, ?_⟩
  intro contentArray hc hnil
  rw [h, hc]
  simp only [hnil]
  rfl

/-! ## TOC preview -/

theorem tocPreview_wideLine :
    (firstLine wideLine).length = 21
    ∧ (utf8 (firstLine wideLine)).length = 61
    ∧ (tocPreview wideLine).length = 63 := by
  refine ⟨?_, ?_, ?_⟩ <;> decide

/-- C12 (counterexample): a first line of 21 characters (61 bytes) is within the stated cap
of 60 characters, yet the preview is not that line: it is the first 60 bytes, which end
inside the last character, followed by the marker. -/
theorem tocPreview_truncates_short_wide_line :
    (firstLine wideLine).length ≤ 60
    ∧ tocPreview wideLine ≠ utf8 (firstLine wideLine)
    ∧ tocPreview wideLine = (utf8 (firstLine wideLine)).take 60 ++ utf8 "..." := by
  refine ⟨by decide, ?_, by decide⟩
  intro h
  have h1 := congrArg List.length h
  rw [tocPreview_wideLine.2.2, tocPreview_wideLine.2.1] at h1
  exact absurd h1 (by decide)

theorem firstLine_split (text : String) :
    ∃ rest, text.data = (firstLine text).data ++ rest
      ∧ '\n' ∉ (firstLine text).data ∧ (rest = [] ∨ rest.head? = some '\n') := by
  refine ⟨text.data.dropWhile (fun c => c != '\n'), ?_, ?_, ?_⟩
  · simp [firstLine]
  · intro hmem
    have := List.mem_takeWhile_imp hmem
    simp at this
  · cases h : text.data.dropWhile (fun c => c != '\n') with
    | nil => exact Or.inl rfl
    | cons c cs =>
      right
      have hc := List.head_dropWhile_not (fun c => c != '\n') text.data (by rw [h]; simp)
      simp only [h, List.head_cons] at hc
      simp only [List.head?_cons, Option.some.injEq]
      simpa using hc

theorem generateTOCLoop_previews (env : Env) (l : List LogEntry) :
    ∀ idx, (generateTOCLoop env l idx).map (fun t => t.preview)
      = (l.filter isNumberedTurn).map
          (fun e => EscapeString (tocPreview (extractMessageText e))) := by
  induction l with
  | nil => intro idx; simp [generateTOCLoop]
  | cons x rest ih =>
    intro idx
    by_cases hu : x.Type_ = "user"
    · cases hc : (x.IsVisibleInTranscriptOnly && x.IsCompactSummary)
      · by_cases ht : TrimSpace (extractMessageText x) = ""
        · simp [generateTOCLoop, isNumberedTurn, hu, hc, ht, ih]
        · simp [generateTOCLoop, isNumberedTurn, hu, hc, ht, ih]
      · simp [generateTOCLoop, isNumberedTurn, hu, hc, ih]
    · simp [generateTOCLoop, isNumberedTurn, hu, ih]

/-- C12 (amended): the cap counts bytes of the UTF-8 encoding.  The preview is the first line
when that line has at most 60 bytes, otherwise its first 60 bytes followed by `...`; the part
before the marker has at most 60 bytes and is a byte prefix of the first line; the first line
is the text before the first newline; and the TOC items carry, in order, the escaped previews
of the retained human turns. -/
theorem tocPreview_caps_at_60_bytes (env : Env) (text : String) :
    tocPreview text
        = (if (utf8 (firstLine text)).length ≤ 60 then utf8 (firstLine text)
          else (utf8 (firstLine text)).take 60 ++ utf8 "...")
    ∧ ((utf8 (firstLine text)).take 60).length ≤ 60
    ∧ (utf8 (firstLine text)).take 60 <+: utf8 (firstLine text)
    ∧ (∃ rest, text.data = (firstLine text).data ++ rest
        ∧ '\n' ∉ (firstLine text).data ∧ (rest = [] ∨ rest.head? = some '\n'))
    ∧ (∀ conv : Conversation,
        (tocItems env conv).map (fun t => t.preview)
          = (conv.Entries.filter isNumberedTurn).map
              (fun e => EscapeString (tocPreview (extractMessageText e)))) := by
  refine ⟨?_, ?_, List.take_prefix _ _, firstLine_split text, ?_⟩
  · unfold tocPreview
    by_cases h : (utf8 (firstLine text)).length ≤ 60
    · have h' : ¬ (utf8 (firstLine text)).length > 60 := by omega
      simp [h, h']
    · have h' : (utf8 (firstLine text)).length > 60 := by omega
      simp [h, h']
  · simp
  · intro conv
    exact generateTOCLoop_previews env conv.Entries 0

/-! ## Skipped lines, retained records and the session id -/

theorem parseStep_eq_recordStep (unmarshal : Bytes → Option LogEntry) (st : ParseState)
    (line : Bytes) :
    parseStep unmarshal st line
      = match decodedRecord? unmarshal line with
        | some entry => recordStep st entry
        | none => st := by
  unfold parseStep decodedRecord?
  cases hl : (line.length == 0)
  · simp only [Bool.false_eq_true, if_false]
    cases hd : unmarshal line with
    | none => rfl
    | some entry =>
      simp only []
      cases hs : (entry.Type_ == "file-history-snapshot")
      · rfl
      · rfl
  · rfl

theorem foldl_parseStep_eq (unmarshal : Bytes → Option LogEntry) (lines : List Bytes) :
    ∀ st, lines.foldl (parseStep unmarshal) st
      = (decodedRecords unmarshal lines).foldl recordStep st := by
  induction lines with
  | nil => intro st; rfl
  | cons line rest ih =>
    intro st
    rw [List.foldl_cons, ih, parseStep_eq_recordStep]
    simp only [decodedRecords, List.filterMap_cons]
    cases decodedRecord? unmarshal line with
    | none => rfl
    | some entry => rfl

theorem foldl_recordStep_rawEntries (records : List LogEntry) :
    ∀ st, (records.foldl recordStep st).rawEntries
      = st.rawEntries
        ++ records.filter (fun e => e.Type_ == "user" || e.Type_ == "assistant") := by
  induction records with
  | nil => intro st; simp
  | cons e rest ih =>
    intro st
    rw [List.foldl_cons, ih, List.filter_cons]
    cases h : (e.Type_ == "user" || e.Type_ == "assistant")
    · simp [recordStep, h]
    · simp [recordStep, h]

theorem foldl_recordStep_sessionID (records : List LogEntry) :
    ∀ st, (records.foldl recordStep st).sessionID
      = if st.sessionID == "" then firstSessionID records else st.sessionID := by
  induction records with
  | nil => intro st; cases h : (st.sessionID == "") <;> simp_all [firstSessionID]
  | cons e rest ih =>
    intro st
    rw [List.foldl_cons, ih]
    by_cases hs : st.sessionID = ""
    · by_cases he : e.SessionID = ""
      · simp [recordStep, hs, he, firstSessionID]
      · simp [recordStep, hs, he, firstSessionID]
    · simp [recordStep, hs]

theorem decodedRecords_skip (unmarshal : Bytes → Option LogEntry) (pre post : List Bytes)
    (line : Bytes) (h : decodedRecord? unmarshal line = none) :
    decodedRecords unmarshal (pre ++ line :: post) = decodedRecords unmarshal (pre ++ post) := by
  simp [decodedRecords, List.filterMap_append, List.filterMap_cons, h]

theorem decodedRecord?_of_skipped (unmarshal : Bytes → Option LogEntry) (line : Bytes)
    (hskip : line = [] ∨ unmarshal line = none
      ∨ ∃ e, unmarshal line = some e ∧ e.Type_ = "file-history-snapshot") :
    decodedRecord? unmarshal line = none := by
  unfold decodedRecord?
  rcases hskip with h | h | ⟨e, h, hty⟩
  · simp [h]
  · simp [h]
  · simp [h, hty]

theorem ParseJSONL_eq (unmarshal : Bytes → Option LogEntry) (lines : List Bytes)
    (err : Option String) :
    ParseJSONL unmarshal (.ok { lines := lines, err := err })
      = match err with
        | some msg => .error ("failed to scan file: " ++ msg)
        | none =>
          .ok { SessionID := firstSessionID (decodedRecords unmarshal lines),
                StartTime := (nonZeroTimestamps (decodedRecords unmarshal lines)).head?.getD 0,
                EndTime := (nonZeroTimestamps (decodedRecords unmarshal lines)).getLast?.getD 0,
                Entries := groupAssistantMessages (retainedRecords unmarshal lines) } := by
  cases err with
  | some msg => rfl
  | none =>
    rw [ParseJSONL_ok]
    simp only [foldl_parseStep_eq, foldl_recordStep_rawEntries, foldl_recordStep_sessionID,
      retainedRecords]
    simp

theorem groupAssistantMessages_types (raw : List LogEntry)
    (h : ∀ e ∈ raw, e.Type_ = "user" ∨ e.Type_ = "assistant") :
    ∀ e ∈ groupAssistantMessages raw, e.Type_ = "user" ∨ e.Type_ = "assistant" := by
  intro e he
  rw [groupAssistantMessages_eq_keepFirst] at he
  exact h e ((keepFirst_sublist raw []).subset he)

theorem retainedRecords_types (unmarshal : Bytes → Option LogEntry) (lines : List Bytes) :
    ∀ e ∈ retainedRecords unmarshal lines, e.Type_ = "user" ∨ e.Type_ = "assistant" := by
  intro e he
  unfold retainedRecords at he
  have := (List.mem_filter.mp he).2
  simpa using this

/-- C14 (counterexample): a `system` record with session id `s1` precedes a human record
with session id `s2`; the conversation gets `s1`, although the first session id among the
retained human and assistant records is `s2`. -/
theorem sessionID_taken_from_unretained_record :
    ∃ conv, ParseJSONL sessionUnmarshal (.ok { lines := [[1], [2]], err := none }) = .ok conv
      ∧ conv.SessionID = "s1"
      ∧ firstSessionID (retainedRecords sessionUnmarshal [[1], [2]]) = "s2"
      ∧ conv.SessionID ≠ firstSessionID (retainedRecords sessionUnmarshal [[1], [2]]) := by
  refine ⟨_, ParseJSONL_eq sessionUnmarshal [[1], [2]] none, ?_, ?_, ?_⟩ <;> decide

/-- C14 (amended): when the scan succeeds, the `SessionID` of the conversation is the first
non-empty session id, in stream order, among the decoded records that are not
`file-history-snapshot` records, retained or not; it is empty when none of them has one. -/
theorem ParseJSONL_sessionID_first_decoded (unmarshal : Bytes → Option LogEntry)
    (lines : List Bytes) :
    ∃ conv, ParseJSONL unmarshal (.ok { lines := lines, err := none }) = .ok conv
      ∧ conv.SessionID = firstSessionID (decodedRecords unmarshal lines)
      ∧ ((∀ e ∈ decodedRecords unmarshal lines, e.SessionID = "") → conv.SessionID = "") := by
  refine ⟨_, ParseJSONL_eq unmarshal lines none, rfl, ?_⟩
  intro h
  show firstSessionID (decodedRecords unmarshal lines) = ""
  unfold firstSessionID
  cases hf : ((decodedRecords unmarshal lines).map fun e => e.SessionID).find? fun s => s != ""
    with
  | none => rfl
  | some s =>
    have hmem := List.mem_of_find?_eq_some hf
    have hp := List.find?_some hf
    obtain ⟨e, he, hes⟩ := List.mem_map.mp hmem
    rw [← hes, h e he] at hp
    simp at hp

/-! ## Navigation buttons -/

theorem collectUserMessageIDsLoop_length (l : List LogEntry) :
    ∀ idx, (collectUserMessageIDsLoop l idx).length = (l.filter isNumberedTurn).length := by
  induction l with
  | nil => intro idx; simp [collectUserMessageIDsLoop]
  | cons x rest ih =>
    intro idx
    by_cases hu : x.Type_ = "user"
    · cases hc : (x.IsVisibleInTranscriptOnly && x.IsCompactSummary)
      · by_cases ht : TrimSpace (extractMessageText x) = ""
        · simp [collectUserMessageIDsLoop, isNumberedTurn, hu, hc, ht, ih]
        · simp [collectUserMessageIDsLoop, isNumberedTurn, hu, hc, ht, ih]
      · simp [collectUserMessageIDsLoop, isNumberedTurn, hu, hc, ih]
    · simp [collectUserMessageIDsLoop, isNumberedTurn, hu, ih]

theorem hasNext_eq (k n : Nat) :
    decide ((k : Int) < (n : Int) - 1) = decide (k < n - 1) := by
  apply decide_eq_decide.mpr
  omega

theorem generateMessagesLoop_userWrites (env : Env) (ids : List String) (l : List LogEntry) :
    ∀ idx, userWrites (generateMessagesLoop env ids l idx)
      = ((l.filter isNumberedTurn).enumFrom idx).map
          (fun p => numberedFragment env ids.length p.1 p.2) := by
  induction l with
  | nil => intro idx; simp [generateMessagesLoop, userWrites]
  | cons x rest ih =>
    intro idx
    by_cases hn : isNumberedTurn x = true
    · have hu : x.Type_ = "user" := by
        simp only [isNumberedTurn, Bool.and_eq_true] at hn
        simpa using hn.1.1
      have hc : (x.IsVisibleInTranscriptOnly && x.IsCompactSummary) = false := by
        simp only [isNumberedTurn, Bool.and_eq_true, Bool.not_eq_true'] at hn
        exact hn.1.2
      have ht : ¬ TrimSpace (extractMessageText x) = "" := by
        simp only [isNumberedTurn, Bool.and_eq_true] at hn
        simpa using hn.2
      have hne : ∀ p q, (generateUserMessageHTML env x ("user-msg-" ++ fmtInt idx) (idx + 1)
          p q != []) = true := by
        intro p q
        simp [generateUserMessageHTML_eq_nil_iff, ht]
      have hub : (x.Type_ == "user") = true := by simp [hu]
      simp only [generateMessagesLoop, hub, hc, hne, if_true, Bool.false_eq_true, if_false,
        userWrites_cons_user, ih, List.filter_cons, hn, List.enumFrom_cons, List.map_cons,
        numberedFragment, hasNext_eq]
    · have hn' : isNumberedTurn x = false := by simpa using hn
      rw [generateMessagesLoop_unnumbered env ids x rest idx hn', ih, List.filter_cons]
      simp [hn']

/-! ## Blocks of an assistant entry -/

theorem parseAssistantStep_eq (acc : AssistantParts) (item : JSON) :
    parseAssistantStep acc item
      = { thinkingParts := acc.thinkingParts ++ (thinkingText? item).toList,
          textParts := acc.textParts ++ (textItemText? item).toList,
          toolUses := acc.toolUses
            ++ ((toolUseItem? item).map fun t => ({ Tool := t, Result := "" } : ToolUse)).toList } := by
  unfold parseAssistantStep thinkingText? textItemText? toolUseItem?
  cases item.asObject with
  | none => simp
  | some contentMap =>
    simp only []
    by_cases h1 : getString contentMap "type" = "thinking"
    · have h2 : ¬ ("thinking" = "text") := by decide
      have h3 : ¬ ("thinking" = "tool_use") := by decide
      cases ht : getString? contentMap "thinking" <;> simp [h1, h2, h3, ht]
    · by_cases h2 : getString contentMap "type" = "text"
      · have h3 : ¬ ("text" = "tool_use") := by decide
        have h4 : ¬ ("text" = "thinking") := by decide
        cases ht : getString? contentMap "text" <;> simp [h2, h3, h4, ht]
      · by_cases h3 : getString contentMap "type" = "tool_use"
        · have h4 : ¬ ("tool_use" = "thinking") := by decide
          have h5 : ¬ ("tool_use" = "text") := by decide
          simp [h3, h4, h5]
        · simp [h1, h2, h3]

theorem foldl_parseAssistantStep_eq (items : List JSON) :
    ∀ acc, items.foldl parseAssistantStep acc
      = { thinkingParts := acc.thinkingParts ++ items.filterMap thinkingText?,
          textParts := acc.textParts ++ items.filterMap textItemText?,
          toolUses := acc.toolUses
            ++ (items.filterMap toolUseItem?).map
                (fun t => ({ Tool := t, Result := "" } : ToolUse)) } := by
  induction items with
  | nil => intro acc; simp
  | cons item rest ih =>
    intro acc
    rw [List.foldl_cons, ih, parseAssistantStep_eq]
    simp only [List.filterMap_cons, List.append_assoc]
    cases thinkingText? item <;> cases textItemText? item <;> cases toolUseItem? item <;> simp

theorem parseAssistantContent_eq (e : LogEntry) :
    parseAssistantContent e
      = { thinkingParts := (contentItems e).filterMap thinkingText?,
          textParts := (contentItems e).filterMap textItemText?,
          toolUses := ((contentItems e).filterMap toolUseItem?).map
            (fun t => ({ Tool := t, Result := "" } : ToolUse)) } := by
  unfold parseAssistantContent contentItems
  cases e.Message.Content.asArray with
  | none => simp
  | some items =>
    simp only [Option.getD_some]
    rw [foldl_parseAssistantStep_eq]
    simp

theorem generateAssistantMessageHTML_blocks (env : Env) (e : LogEntry)
    (nextEntry : Option LogEntry) :
    generateAssistantMessageHTML env e nextEntry
      = (if (parseAssistantContent e).thinkingParts.length > 0 then
          thinkingBlockHTML env e.Timestamp
            (String.intercalate "\n\n---\n\n" (parseAssistantContent e).thinkingParts)
        else [])
      ++ (if String.intercalate "\n" (parseAssistantContent e).textParts != "" then
          textBlockHTML env e.Timestamp
            (String.intercalate "\n" (parseAssistantContent e).textParts)
        else [])
      ++ (if (correlatedToolUses e nextEntry).length > 0 then
          toolsBlockHTML env e.Timestamp (correlatedToolUses e nextEntry)
        else []) := by
  unfold generateAssistantMessageHTML correlatedToolUses thinkingBlockHTML textBlockHTML
    toolsBlockHTML
  simp only [List.append_assoc]
  congr 1
  · by_cases h : (parseAssistantContent e).thinkingParts.length > 0 <;> simp [h]
  · by_cases h : (correlateToolResults (parseAssistantContent e).toolUses nextEntry).length > 0
      <;> simp [h]

theorem textBlockHTML_ne_nil (env : Env) (ts : Time) (s : String) :
    textBlockHTML env ts s ≠ [] := by
  unfold textBlockHTML
  have h : utf8 "<div class=\"message-group assistant\">" ≠ [] := by decide
  intro hnil
  simp only [List.append_assoc, List.append_eq_nil] at hnil
  exact h hnil.1

theorem blankTextAssistant_parts :
    parseAssistantContent blankTextAssistant
        = { thinkingParts := [], textParts := [" "], toolUses := [] }
    ∧ parseAssistantContent plainAssistant
        = { thinkingParts := [], textParts := [], toolUses := [] } := by
  constructor <;> rfl

/-- C16 (counterexample): an entry whose only text item is one space has blank display text,
yet its text block is written; an entry whose content is the plain string `hello` has
non-blank display text, yet nothing is written for it. -/
theorem text_block_not_tied_to_display_text :
    TrimSpace (extractMessageText blankTextAssistant) = ""
    ∧ generateAssistantMessageHTML exampleEnv blankTextAssistant none
        = textBlockHTML exampleEnv 0 " "
    ∧ TrimSpace (extractMessageText plainAssistant) ≠ ""
    ∧ generateAssistantMessageHTML exampleEnv plainAssistant none = [] := by
  refine ⟨by decide, ?_, by decide, ?_⟩
  · have hj : String.intercalate "\n" [" "] = " " := by decide
    have hts : blankTextAssistant.Timestamp = 0 := rfl
    rw [generateAssistantMessageHTML_blocks]
    unfold correlatedToolUses
    rw [blankTextAssistant_parts.1, hj, hts]
    simp [correlateToolResults]
  · have hj : String.intercalate "\n" ([] : List String) = "" := by decide
    rw [generateAssistantMessageHTML_blocks]
    unfold correlatedToolUses
    rw [blankTextAssistant_parts.2, hj]
    simp [correlateToolResults]

/-- C16 (amended): `generateAssistantMessageHTML` writes the text block exactly when the
newline-joined `text` fields of the entry's `text` items are not the empty string; the test
does not trim, so whitespace-only text is written, and neither a plain string content nor the
`content` field of other items enters the block. -/
theorem text_block_iff_joined_text_items_nonempty (env : Env) (e : LogEntry)
    (nextEntry : Option LogEntry) :
    generateAssistantMessageHTML env e nextEntry
        = (if (parseAssistantContent e).thinkingParts.length > 0 then
            thinkingBlockHTML env e.Timestamp
              (String.intercalate "\n\n---\n\n" (parseAssistantContent e).thinkingParts)
          else [])
        ++ (if String.intercalate "\n" ((contentItems e).filterMap textItemText?) != "" then
            textBlockHTML env e.Timestamp
              (String.intercalate "\n" ((contentItems e).filterMap textItemText?))
          else [])
        ++ (if (correlatedToolUses e nextEntry).length > 0 then
            toolsBlockHTML env e.Timestamp (correlatedToolUses e nextEntry)
          else [])
    ∧ (∀ ts s, textBlockHTML env ts s ≠ []) := by
  refine ⟨?_, textBlockHTML_ne_nil env⟩
  rw [generateAssistantMessageHTML_blocks]
  have h : (parseAssistantContent e).textParts = (contentItems e).filterMap textItemText? := by
    rw [parseAssistantContent_eq]
  rw [h]

/-! ## Tool invocations and the display text -/

theorem extractMessageText_withItems (e : LogEntry) (items : List JSON) :
    extractMessageText (withItems e items)
      = String.intercalate "\n" (items.flatMap itemParts) := by
  unfold extractMessageText withItems
  simp only [JSON.asString, JSON.asArray]
  rw [foldl_extractStep]
  simp

theorem itemParts_of_isBareToolUse (item : JSON) (h : isBareToolUse item = true) :
    itemParts item = [] := by
  unfold isBareToolUse at h
  unfold itemParts
  cases hobj : item.asObject with
  | none => rfl
  | some contentMap =>
    rw [hobj] at h
    simp only [Bool.and_eq_true, beq_iff_eq] at h
    obtain ⟨hty, hnone⟩ := h
    have h1 : (getString contentMap "type" == "text") = false := by rw [hty]; decide
    have h2 : (getString contentMap "type" != "tool_result") = true := by rw [hty]; decide
    simp only [h1, h2, Bool.false_eq_true, if_false, if_true]
    cases hf : (getString? contentMap "content").filter fun content => content != "" with
    | none => rfl
    | some c => rw [hf] at hnone; simp at hnone

theorem flatMap_itemParts_filter (items : List JSON) :
    (items.filter fun it => !isBareToolUse it).flatMap itemParts = items.flatMap itemParts := by
  induction items with
  | nil => rfl
  | cons item rest ih =>
    rw [List.filter_cons]
    cases h : isBareToolUse item
    · simp only [Bool.not_false, if_true, List.flatMap_cons, ih]
    · simp only [Bool.not_true, Bool.false_eq_true, if_false, List.flatMap_cons, ih,
        itemParts_of_isBareToolUse item h, List.nil_append]

/-- C17 (counterexample): a `tool_use` item that carries the `content` string `x` contributes
`x` to the display text; removing the `tool_use` items changes the result from `x` to the
empty string. -/
theorem tool_use_content_is_displayed :
    extractMessageText (withItems blankTurn toolUseWithContentItems) = "x"
    ∧ extractMessageText
        (withItems blankTurn (toolUseWithContentItems.filter fun it => !isToolUse it)) = ""
    ∧ extractMessageText
        (withItems blankTurn (toolUseWithContentItems.filter fun it => !isToolUse it))
      ≠ extractMessageText (withItems blankTurn toolUseWithContentItems) := by
  have h1 : extractMessageText (withItems blankTurn toolUseWithContentItems) = "x" := by rfl
  have h2 : extractMessageText
      (withItems blankTurn (toolUseWithContentItems.filter fun it => !isToolUse it)) = "" := by
    rfl
  refine ⟨h1, h2, ?_⟩
  rw [h1, h2]
  decide

/-- C17 (amended): a `tool_use` item contributes to the display text only through a `content`
field that is a string other than `""`; removing from the sequence every `tool_use` item
without such a field leaves the result of `extractMessageText` unchanged. -/
theorem bare_tool_use_items_are_not_displayed (e : LogEntry) (items : List JSON) :
    extractMessageText (withItems e (items.filter fun it => !isBareToolUse it))
        = extractMessageText (withItems e items)
    ∧ (∀ item, isBareToolUse item = true → itemParts item = []) := by
  refine ⟨?_, itemParts_of_isBareToolUse⟩
  rw [extractMessageText_withItems, extractMessageText_withItems, flatMap_itemParts_filter]

/-! ## Order and content of the assistant blocks -/

theorem attachResult_map_Tool (toolUseID resultContent : String) (tus : List ToolUse) :
    (attachResult toolUseID resultContent tus).map (fun tu => tu.Tool)
      = tus.map (fun tu => tu.Tool) := by
  induction tus with
  | nil => rfl
  | cons tu rest ih =>
    unfold attachResult
    split
    · rfl
    · simp only [List.map_cons, ih]

theorem foldl_attachResult_map_Tool (results : List (String × String)) :
    ∀ tus : List ToolUse,
      (results.foldl (fun acc r => attachResult r.1 r.2 acc) tus).map (fun tu => tu.Tool)
        = tus.map (fun tu => tu.Tool) := by
  induction results with
  | nil => intro tus; rfl
  | cons r rest ih =>
    intro tus
    rw [List.foldl_cons, ih, attachResult_map_Tool]

theorem correlatedToolUses_map_Tool (e : LogEntry) (nextEntry : Option LogEntry) :
    (correlatedToolUses e nextEntry).map (fun tu => tu.Tool)
      = (contentItems e).filterMap toolUseItem? := by
  unfold correlatedToolUses
  rw [correlateToolResults_eq_foldl, foldl_attachResult_map_Tool, parseAssistantContent_eq]
  simp only [List.map_map]
  exact List.map_id'' (fun _ => rfl) _

theorem thinkingBlockHTML_ne_nil (env : Env) (ts : Time) (s : String) :
    thinkingBlockHTML env ts s ≠ [] := by
  unfold thinkingBlockHTML
  have h : utf8 "<div class=\"message-group assistant\">" ≠ [] := by decide
  intro hnil
  simp only [List.append_assoc, List.append_eq_nil] at hnil
  exact h hnil.1

theorem toolsBlockHTML_ne_nil (env : Env) (ts : Time) (tus : List ToolUse) :
    toolsBlockHTML env ts tus ≠ [] := by
  unfold toolsBlockHTML
  have h : utf8 "<div class=\"message-group assistant\">" ≠ [] := by decide
  intro hnil
  simp only [List.append_assoc, List.append_eq_nil] at hnil
  exact h hnil.1

/-- C18: the output of `generateAssistantMessageHTML` is the reasoning block, then the text
block, then the tools block, each possibly absent.  The reasoning block is written exactly
when some item is a `thinking` item with a string text, and shows those texts in order joined
by the separator; the tools block is written exactly when some item is a `tool_use` item, and
holds the items of the invocations joined by `, `, one invocation per `tool_use` item in
content order. -/
theorem assistant_blocks_in_fixed_order (env : Env) (e : LogEntry)
    (nextEntry : Option LogEntry) :
    generateAssistantMessageHTML env e nextEntry
        = (if ((contentItems e).filterMap thinkingText?).length > 0 then
            thinkingBlockHTML env e.Timestamp
              (String.intercalate "\n\n---\n\n" ((contentItems e).filterMap thinkingText?))
          else [])
        ++ (if String.intercalate "\n" ((contentItems e).filterMap textItemText?) != "" then
            textBlockHTML env e.Timestamp
              (String.intercalate "\n" ((contentItems e).filterMap textItemText?))
          else [])
        ++ (if ((contentItems e).filterMap toolUseItem?).length > 0 then
            toolsBlockHTML env e.Timestamp (correlatedToolUses e nextEntry)
          else [])
    ∧ (correlatedToolUses e nextEntry).map (fun tu => tu.Tool)
        = (contentItems e).filterMap toolUseItem?
    ∧ (∀ ts s, thinkingBlockHTML env ts s ≠ [])
    ∧ (∀ ts tus, toolsBlockHTML env ts tus ≠ [])
    ∧ (∃ (a : Time → Bytes) (b : Bytes), ∀ ts s,
        thinkingBlockHTML env ts s = a ts ++ EscapeString (utf8 s) ++ b)
    ∧ (∃ (a : Time → Bytes) (b : Bytes), ∀ ts tus,
        toolsBlockHTML env ts tus
          = a ts ++ (utf8 ", ").intercalate (tus.map (generateToolUseHTML env)) ++ b) := by
  have hlen : (correlatedToolUses e nextEntry).length
      = ((contentItems e).filterMap toolUseItem?).length := by
    rw [← correlatedToolUses_map_Tool e nextEntry, List.length_map]
  refine ⟨?_, correlatedToolUses_map_Tool e nextEntry, thinkingBlockHTML_ne_nil env,
    toolsBlockHTML_ne_nil env, ?_, ?_⟩
  · rw [generateAssistantMessageHTML_blocks, hlen]
    have h : parseAssistantContent e
        = { thinkingParts := (contentItems e).filterMap thinkingText?,
            textParts := (contentItems e).filterMap textItemText?,
            toolUses := ((contentItems e).filterMap toolUseItem?).map
              (fun t => ({ Tool := t, Result := "" } : ToolUse)) } :=
      parseAssistantContent_eq e
    rw [h]
  · refine ⟨fun ts => utf8 "<div class=\"message-group assistant\">"
        ++ utf8 "<div class=\"timestamp-label\">" ++ formatTimestamp env ts ++ utf8 "</div>"
        ++ utf8 "<div class=\"thinking-section\">"
        ++ utf8 "<button class=\"meta-btn\" onclick=\"toggleThinking(this)\">üß† ...</button>"
        ++ utf8 "<div class=\"thinking-content\" style=\"display: none;\">"
        ++ utf8 "<pre>",
      utf8 "</pre>" ++ utf8 "</div></div></div>", ?_⟩
    intro ts s
    unfold thinkingBlockHTML
    simp only [List.append_assoc]
  · refine ⟨fun ts => utf8 "<div class=\"message-group assistant\">"
        ++ utf8 "<div class=\"timestamp-label\">" ++ formatTimestamp env ts ++ utf8 "</div>"
        ++ utf8 "<div class=\"tools-section\">‚öíÔ∏è ",
      utf8 "</div></div>", ?_⟩
    intro ts tus
    unfold toolsBlockHTML
    simp only [List.append_assoc]

/-! ## Repeat occurrences and records without a message id -/

theorem keepFirst_filter_id (k : String) (l : List LogEntry) :
    ∀ seen, (keepFirst seen l).filter (fun e => e.Type_ == "assistant" && e.Message.ID == k)
      = if k ∈ seen then []
        else (l.find? fun e => e.Type_ == "assistant" && e.Message.ID == k).toList := by
  induction l with
  | nil => intro seen; simp [keepFirst]
  | cons e rest ih =>
    intro seen
    by_cases hu : e.Type_ = "user"
    · have ha : ¬ ("user" = "assistant") := by decide
      simp only [keepFirst, hu, beq_self_eq_true, if_true, List.filter_cons, List.find?_cons]
      simp [ha, ih]
    · by_cases ha : e.Type_ = "assistant"
      · by_cases hin : e.Message.ID ∈ seen
        · by_cases hk : e.Message.ID = k
          · have hks : k ∈ seen := hk ▸ hin
            simp [keepFirst, hu, ha, hin, ih, hks]
          · simp [keepFirst, hu, ha, hin, ih, hk, List.find?_cons]
        · by_cases hk : e.Message.ID = k
          · have hks : k ∉ seen := hk ▸ hin
            simp [keepFirst, hu, ha, hin, ih, hk, hks, List.find?_cons]
          · have hk' : ¬ k = e.Message.ID := fun h => hk h.symm
            simp [keepFirst, hu, ha, hin, ih, hk, hk', List.find?_cons]
      · simp [keepFirst, hu, ha, ih, List.find?_cons]

theorem keepFirst_repeat (r : LogEntry) (post : List LogEntry) (hr : r.Type_ = "assistant")
    (pre : List LogEntry) :
    ∀ seen, (r.Message.ID ∈ seen
        ∨ ∃ f ∈ pre, f.Type_ = "assistant" ∧ f.Message.ID = r.Message.ID) →
      keepFirst seen (pre ++ r :: post) = keepFirst seen (pre ++ post) := by
  induction pre with
  | nil =>
    intro seen h
    have hin : r.Message.ID ∈ seen := by
      rcases h with h | ⟨f, hf, _⟩
      · exact h
      · simp at hf
    have hu : ¬ ("assistant" = "user") := by decide
    simp [keepFirst, hr, hu, hin]
  | cons x pre ih =>
    intro seen h
    rw [List.cons_append, List.cons_append]
    by_cases hu : x.Type_ = "user"
    · have hne : ¬ ("user" = "assistant") := by decide
      simp only [keepFirst, hu, beq_self_eq_true, if_true, List.cons.injEq, true_and]
      apply ih
      rcases h with h | ⟨f, hf, hfa, hfid⟩
      · exact Or.inl h
      · rcases List.mem_cons.mp hf with rfl | hf
        · rw [hu] at hfa; exact absurd hfa hne
        · exact Or.inr ⟨f, hf, hfa, hfid⟩
    · by_cases ha : x.Type_ = "assistant"
      · by_cases hin : x.Message.ID ∈ seen
        · have hub : (x.Type_ == "user") = false := by simpa using hu
          have hab : (x.Type_ == "assistant") = true := by simpa using ha
          simp only [keepFirst, hub, hab, hin, Bool.false_eq_true, if_false, if_true]
          apply ih
          rcases h with h | ⟨f, hf, hfa, hfid⟩
          · exact Or.inl h
          · rcases List.mem_cons.mp hf with rfl | hf
            · exact Or.inl (hfid ▸ hin)
            · exact Or.inr ⟨f, hf, hfa, hfid⟩
        · have hub : (x.Type_ == "user") = false := by simpa using hu
          have hab : (x.Type_ == "assistant") = true := by simpa using ha
          simp only [keepFirst, hub, hab, hin, Bool.false_eq_true, if_false, if_true,
            List.cons.injEq, true_and]
          apply ih
          rcases h with h | ⟨f, hf, hfa, hfid⟩
          · exact Or.inl (List.mem_cons_of_mem _ h)
          · rcases List.mem_cons.mp hf with rfl | hf
            · exact Or.inl (by rw [← hfid]; exact List.mem_cons_self _ _)
            · exact Or.inr ⟨f, hf, hfa, hfid⟩
      · have hub : (x.Type_ == "user") = false := by simpa using hu
        have hab : (x.Type_ == "assistant") = false := by simpa using ha
        simp only [keepFirst, hub, hab, Bool.false_eq_true, if_false]
        apply ih
        rcases h with h | ⟨f, hf, hfa, hfid⟩
        · exact Or.inl h
        · rcases List.mem_cons.mp hf with rfl | hf
          · exact absurd hfa ha
          · exact Or.inr ⟨f, hf, hfa, hfid⟩

/-- C19: when an assistant record repeats the message id of an earlier assistant record and
the content of the first-seen record or of the incoming record is a plain string, the output
of `groupAssistantMessages` is what it would be without the incoming record, and its only
assistant entry with that id is the first-seen record, content included. -/
theorem repeat_with_plain_text_keeps_first_seen (pre post : List LogEntry)
    (r first : LogEntry) (hr : r.Type_ = "assistant")
    (hfirst : pre.find? (fun e => e.Type_ == "assistant" && e.Message.ID == r.Message.ID)
      = some first)
    (_hplain : (∃ s, first.Message.Content = JSON.str s)
      ∨ (∃ s, r.Message.Content = JSON.str s)) :
    groupAssistantMessages (pre ++ r :: post) = groupAssistantMessages (pre ++ post)
    ∧ (groupAssistantMessages (pre ++ r :: post)).filter
        (fun e => e.Type_ == "assistant" && e.Message.ID == r.Message.ID) = [first] := by
  have hmem := List.mem_of_find?_eq_some hfirst
  have hp := List.find?_some hfirst
  simp only [Bool.and_eq_true, beq_iff_eq] at hp
  constructor
  · rw [groupAssistantMessages_eq_keepFirst, groupAssistantMessages_eq_keepFirst]
    exact keepFirst_repeat r post hr pre [] (Or.inr ⟨first, hmem, hp.1, hp.2⟩)
  · rw [groupAssistantMessages_eq_keepFirst, keepFirst_filter_id]
    simp only [List.not_mem_nil, if_false]
    rw [List.find?_append, hfirst]
    rfl

/-- C19 (witness): a record with array content repeating the id of a record whose content
is a plain string. -/
theorem repeat_with_plain_text_keeps_first_seen_witness :
    repeatOfPlain.Type_ = "assistant"
    ∧ [plainAssistant].find?
        (fun e => e.Type_ == "assistant" && e.Message.ID == repeatOfPlain.Message.ID)
        = some plainAssistant
    ∧ ((∃ s, plainAssistant.Message.Content = JSON.str s)
        ∨ (∃ s, repeatOfPlain.Message.Content = JSON.str s))
    ∧ groupAssistantMessages ([plainAssistant] ++ repeatOfPlain :: [])
        = groupAssistantMessages ([plainAssistant] ++ []) :=
  ⟨rfl, rfl, Or.inl ⟨"hello", rfl⟩,
    (repeat_with_plain_text_keeps_first_seen [plainAssistant] [] repeatOfPlain plainAssistant
      rfl rfl (Or.inl ⟨"hello", rfl⟩)).1⟩

/-- C20: assistant records without a message id share the key `""`: the assistant entries of
the output with an empty message id are the first such record of the input and no other, so
there is at most one; the output keeps the order of the input. -/
theorem at_most_one_assistant_entry_without_id (raw : List LogEntry) :
    (groupAssistantMessages raw).filter (fun e => e.Type_ == "assistant" && e.Message.ID == "")
        = (raw.find? fun e => e.Type_ == "assistant" && e.Message.ID == "").toList
    ∧ ((groupAssistantMessages raw).filter
        (fun e => e.Type_ == "assistant" && e.Message.ID == "")).length ≤ 1
    ∧ List.Sublist (groupAssistantMessages raw) raw := by
  have h : (groupAssistantMessages raw).filter
      (fun e => e.Type_ == "assistant" && e.Message.ID == "")
      = (raw.find? fun e => e.Type_ == "assistant" && e.Message.ID == "").toList := by
    rw [groupAssistantMessages_eq_keepFirst, keepFirst_filter_id]
    simp
  refine ⟨h, ?_, ?_⟩
  · rw [h]
    cases raw.find? fun e => e.Type_ == "assistant" && e.Message.ID == "" <;> simp
  · rw [groupAssistantMessages_eq_keepFirst]
    exact keepFirst_sublist raw []

/-! ## Results that are not plain text -/

theorem getString_of_not_text (m : List (String × JSON)) (key : String)
    (h : getString? m key = none ∨ getString? m key = some "") : getString m key = "" := by
  unfold getString? at h
  unfold getString
  rcases h with h | h <;> rw [h] <;> rfl

theorem correlatedToolUses_singleToolEntry :
    correlatedToolUses singleToolEntry (some blockResultNext) = [singleToolUse] := by
  rfl

/-- C21: when the only `tool_result` item of the next human entry that matches an
invocation's id has a `content` field that is not a string, or is the empty string, the
invocation's result is empty and `generateToolUseHTML` writes it without a Result section,
although a matching `tool_result` item exists. -/
theorem non_text_result_gives_no_result_section (env : Env) (e next : LogEntry)
    (arr : List JSON) (item : JSON) (m : List (String × JSON)) (tu : ToolUse)
    (htu : tu ∈ correlatedToolUses e (some next))
    (hu : next.Type_ = "user") (hc : next.Message.Content = JSON.arr arr)
    (hitem : item ∈ arr) (hobj : item = JSON.obj m)
    (hty : getString? m "type" = some "tool_result")
    (hid : getString m "tool_use_id" = tu.Tool.ID)
    (hcontent : getString? m "content" = none ∨ getString? m "content" = some "")
    (honly : ∀ item' ∈ arr, ∀ m', item' = JSON.obj m' →
      getString? m' "type" = some "tool_result" →
      getString m' "tool_use_id" = tu.Tool.ID → item' = item) :
    tu.Result = ""
    ∧ generateToolUseHTML env tu = toolItemOpenHTML env tu ++ utf8 "</div></span>"
    ∧ (tu.Tool.ID, "") ∈ nextToolResults (some next) := by
  have hmatch : toolResult? item = some (tu.Tool.ID, "") := by
    rw [hobj]
    simp [toolResult?, JSON.asObject, hty, hid, getString_of_not_text m "content" hcontent]
  have hin : (tu.Tool.ID, "") ∈ nextToolResults (some next) := by
    unfold nextToolResults
    simp only [hu, beq_self_eq_true, if_true, hc, JSON.asArray, List.mem_filterMap]
    exact ⟨item, hitem, hmatch⟩
  have hres : tu.Result = "" := by
    unfold correlatedToolUses at htu
    rw [correlateToolResults_eq_foldl, foldl_attachResult_eq_assignFirst] at htu
    obtain ⟨tu0, hmem0, htool, hr⟩ := mem_assignFirst _ _ _ _ htu
    have h0 : tu0.Result = "" := parseAssistantContent_results_empty e tu0 hmem0
    rcases hr with hr | hr
    · exact hr.trans h0
    · rw [← htool] at hr
      obtain ⟨next', hn, _, arr', hc', item', hitem', m', hobj', hty', hid', hcontent'⟩ :=
        mem_nextToolResults _ _ _ (lastResultFor_mem _ _ _ hr)
      have hnext : next' = next := (Option.some.inj hn).symm
      subst hnext
      have harr : arr' = arr := by
        rw [hc] at hc'
        exact (JSON.arr.inj hc').symm
      subst harr
      have hsame : item' = item := honly item' hitem' m' hobj' hty' hid'
      have hm : m' = m := by
        rw [hsame, hobj] at hobj'
        exact (JSON.obj.inj hobj').symm
      rw [← hcontent', hm]
      exact getString_of_not_text m "content" hcontent
  refine ⟨hres, ?_, hin⟩
  rw [generateToolUseHTML_eq, hres]
  simp

/-- C21 (witness): the invocation `t` of `singleToolEntry`, whose only matching `tool_result`
item carries a list of content blocks. -/
theorem non_text_result_gives_no_result_section_witness :
    singleToolUse ∈ correlatedToolUses singleToolEntry (some blockResultNext)
    ∧ blockResultNext.Message.Content = JSON.arr [JSON.obj blockResultFields]
    ∧ getString? blockResultFields "type" = some "tool_result"
    ∧ getString blockResultFields "tool_use_id" = singleToolUse.Tool.ID
    ∧ getString? blockResultFields "content" = none
    ∧ singleToolUse.Result = ""
    ∧ generateToolUseHTML exampleEnv singleToolUse
        = toolItemOpenHTML exampleEnv singleToolUse ++ utf8 "</div></span>" :=
  have h := non_text_result_gives_no_result_section exampleEnv singleToolEntry blockResultNext
    [JSON.obj blockResultFields] (JSON.obj blockResultFields) blockResultFields singleToolUse
    (by rw [correlatedToolUses_singleToolEntry]; exact List.mem_singleton.mpr rfl)
    rfl rfl (List.mem_singleton.mpr rfl) rfl rfl rfl (Or.inl rfl)
    (fun item' hmem _ _ _ _ => List.mem_singleton.mp hmem)
  ⟨by rw [correlatedToolUses_singleToolEntry]; exact List.mem_singleton.mpr rfl,
    rfl, rfl, rfl, rfl, h.1, h.2.1⟩

/-! ## Lines beyond the token limit -/

theorem splitLines_replicate (b : UInt8) (hb : b ≠ 10) (n : Nat) (hn : 0 < n) :
    splitLines (List.replicate n b) = [List.replicate n b] := by
  induction n with
  | zero => exact absurd hn (Nat.lt_irrefl 0)
  | succ k ih =>
    rw [List.replicate_succ]
    simp only [splitLines, hb, if_false]
    cases k with
    | zero => rfl
    | succ j => rw [ih (Nat.succ_pos j)]

theorem scanTokens_of_short (maxTok : Nat) (lines : List Bytes)
    (h : ∀ line ∈ lines, line.length < maxTok) :
    scanTokens maxTok lines = { lines := lines.map dropCR, err := none } := by
  induction lines with
  | nil => rfl
  | cons line rest ih =>
    have hl : ¬ maxTok ≤ line.length := Nat.not_le.mpr (h line (List.mem_cons_self _ _))
    simp only [scanTokens, hl, if_false, List.map_cons,
      ih (fun l hm => h l (List.mem_cons_of_mem _ hm))]

theorem scanTokens_of_long (maxTok : Nat) (lines : List Bytes)
    (h : ∃ line ∈ lines, maxTok ≤ line.length) :
    (scanTokens maxTok lines).err = some "bufio.Scanner: token too long" := by
  induction lines with
  | nil =>
    obtain ⟨line, hmem, _⟩ := h
    simp at hmem
  | cons line rest ih =>
    by_cases hl : maxTok ≤ line.length
    · simp only [scanTokens, hl, if_true]
    · simp only [scanTokens, hl, if_false]
      apply ih
      obtain ⟨l, hmem, hlen⟩ := h
      rcases List.mem_cons.mp hmem with rfl | hmem
      · exact absurd hlen hl
      · exact ⟨l, hmem, hlen⟩

theorem ParseJSONL_scan_error (unmarshal : Bytes → Option LogEntry) (s : Scanner) (msg : String)
    (h : s.err = some msg) :
    ParseJSONL unmarshal (.ok s) = .error ("failed to scan file: " ++ msg) := by
  obtain ⟨lines, err⟩ := s
  simp only at h
  subst h
  rfl

theorem replicate_maxTokenSize_scan :
    splitLines (List.replicate maxTokenSize 120) = [List.replicate maxTokenSize 120]
    ∧ (scanFile (List.replicate maxTokenSize 120)).err
        = some "bufio.Scanner: token too long" := by
  have hs : splitLines (List.replicate maxTokenSize 120) = [List.replicate maxTokenSize 120] :=
    splitLines_replicate 120 (by decide) maxTokenSize (by decide)
  refine ⟨hs, ?_⟩
  unfold scanFile
  rw [hs]
  apply scanTokens_of_long
  exact ⟨_, List.mem_singleton.mpr rfl, by rw [List.length_replicate]⟩

/-- C13 (counterexample): a file that holds one line of `10 * 1024 * 1024` bytes `x` makes
`ParseJSONL` fail with the scanner's error, so a line's content (its length) can make it
fail. -/
theorem ParseJSONL_fails_on_long_line :
    splitLines (List.replicate maxTokenSize 120) = [List.replicate maxTokenSize 120]
    ∧ (List.replicate maxTokenSize 120).length = 10485760
    ∧ ParseJSONL exampleUnmarshal (.ok (scanFile (List.replicate maxTokenSize 120)))
        = .error "failed to scan file: bufio.Scanner: token too long" := by
  refine ⟨replicate_maxTokenSize_scan.1, ?_, ?_⟩
  · rw [List.length_replicate]
    decide
  · exact ParseJSONL_scan_error exampleUnmarshal _ _ replicate_maxTokenSize_scan.2

/-- C13 (amended): an empty line, a line that does not decode and a `file-history-snapshot`
record leave the result of `ParseJSONL` exactly as if the line were absent; when the scan
reports no error `ParseJSONL` returns a conversation whatever the lines contain, and every
entry of it has type `user` or `assistant`; for a file whose lines are all shorter than the
token limit of `10 * 1024 * 1024` bytes the scan reports no error, so `ParseJSONL` succeeds;
a file with a line of that length or more makes it fail with the scanner's error. -/
theorem ParseJSONL_skips_unusable_lines (unmarshal : Bytes → Option LogEntry)
    (pre post : List Bytes) (line : Bytes) (err : Option String)
    (hskip : line = [] ∨ unmarshal line = none
      ∨ ∃ e, unmarshal line = some e ∧ e.Type_ = "file-history-snapshot") :
    ParseJSONL unmarshal (.ok { lines := pre ++ line :: post, err := err })
        = ParseJSONL unmarshal (.ok { lines := pre ++ post, err := err })
    ∧ (∀ lines : List Bytes, ∃ conv,
        ParseJSONL unmarshal (.ok { lines := lines, err := none }) = .ok conv
        ∧ ∀ e ∈ conv.Entries, e.Type_ = "user" ∨ e.Type_ = "assistant")
    ∧ (∀ content : Bytes, (∀ l ∈ splitLines content, l.length < maxTokenSize) →
        scanFile content = { lines := (splitLines content).map dropCR, err := none }
        ∧ ∃ conv, ParseJSONL unmarshal (.ok (scanFile content)) = .ok conv
          ∧ ∀ e ∈ conv.Entries, e.Type_ = "user" ∨ e.Type_ = "assistant")
    ∧ (∀ content : Bytes, (∃ l ∈ splitLines content, maxTokenSize ≤ l.length) →
        ParseJSONL unmarshal (.ok (scanFile content))
          = .error "failed to scan file: bufio.Scanner: token too long") := by
  have hok : ∀ lines : List Bytes, ∃ conv,
      ParseJSONL unmarshal (.ok { lines := lines, err := none }) = .ok conv
      ∧ ∀ e ∈ conv.Entries, e.Type_ = "user" ∨ e.Type_ = "assistant" := by
    intro lines
    refine ⟨_, ParseJSONL_eq unmarshal lines none, ?_⟩
    exact groupAssistantMessages_types _ (retainedRecords_types unmarshal lines)
  refine ⟨?_, hok, ?_, ?_⟩
  · rw [ParseJSONL_eq, ParseJSONL_eq]
    simp only [retainedRecords,
      decodedRecords_skip unmarshal pre post line (decodedRecord?_of_skipped unmarshal line hskip)]
  · intro content hshort
    have hscan : scanFile content = { lines := (splitLines content).map dropCR, err := none } :=
      scanTokens_of_short maxTokenSize (splitLines content) hshort
    refine ⟨hscan, ?_⟩
    rw [hscan]
    exact hok _
  · intro content hlong
    exact ParseJSONL_scan_error unmarshal _ _
      (scanTokens_of_long maxTokenSize (splitLines content) hlong)

/-- C13 (witness): an empty line between two decodable lines, and the file of the three
lines `[5]`, `[]`, `[7]`, all within the token limit. -/
theorem ParseJSONL_skips_unusable_lines_witness :
    (([] : Bytes) = [] ∨ exampleUnmarshal [] = none
      ∨ ∃ e, exampleUnmarshal [] = some e ∧ e.Type_ = "file-history-snapshot")
    ∧ ParseJSONL exampleUnmarshal (.ok { lines := [[5]] ++ [] :: [[10]], err := none })
        = ParseJSONL exampleUnmarshal (.ok { lines := [[5]] ++ [[10]], err := none })
    ∧ (∀ l ∈ splitLines [5, 10, 10, 7], l.length < maxTokenSize)
    ∧ scanFile [5, 10, 10, 7] = { lines := (splitLines [5, 10, 10, 7]).map dropCR, err := none } :=
  have h := ParseJSONL_skips_unusable_lines exampleUnmarshal [[5]] [[10]] [] none (Or.inl rfl)
  ⟨Or.inl rfl, h.1, by decide, (h.2.2.1 [5, 10, 10, 7] (by decide)).1⟩

/-! ## Rendered bytes of the numbered turns and of the TOC -/

theorem generateUserMessageHTML_bytes (env : Env) (e : LogEntry) (messageID : String)
    (messageNumber : Nat) (hasPrev hasNext : Bool) :
    generateUserMessageHTML env e messageID messageNumber hasPrev hasNext
      = if TrimSpace (extractMessageText e) == "" then []
        else utf8 "<div class=\"message-divider\">#" ++ utf8 (fmtInt messageNumber) ++ utf8 "</div>"
          ++ utf8 "<div class=\"message-group user\">"
          ++ utf8 "<div class=\"timestamp-label\">" ++ formatTimestamp env e.Timestamp ++ utf8 "</div>"
          ++ utf8 "<div id=\"" ++ utf8 messageID ++ utf8 "\" class=\"message user-message\">"
          ++ utf8 "<div class=\"message-content\">" ++ EscapeString (utf8 (extractMessageText e))
          ++ utf8 "</div>"
          ++ utf8 "<div class=\"message-navigation\">"
          ++ (if hasPrev then
                utf8 "<button class=\"nav-btn\" onclick=\"jumpToMessage(this, 'prev')\">‚¨ÜÔ∏è</button>"
              else [])
          ++ (if hasNext then
                utf8 "<button class=\"nav-btn\" onclick=\"jumpToMessage(this, 'next')\">‚¨áÔ∏è</button>"
              else [])
          ++ utf8 "</div>" ++ utf8 "</div>" ++ utf8 "</div>" := by
  unfold generateUserMessageHTML dividerHTML
  cases h : (TrimSpace (extractMessageText e) == "")
  · simp only [h, Bool.false_eq_true, if_false, List.append_assoc]
  · simp only [h, if_true]

theorem map_enumFrom_congr {α β : Type} (f g : Nat × α → β) (l : List α)
    (h : ∀ k, ∀ a ∈ l, f (k, a) = g (k, a)) :
    ∀ idx, (l.enumFrom idx).map f = (l.enumFrom idx).map g := by
  induction l with
  | nil => intro idx; rfl
  | cons a rest ih =>
    intro idx
    rw [List.enumFrom_cons, List.map_cons, List.map_cons, h idx a (List.mem_cons_self _ _),
      ih (fun k b hb => h k b (List.mem_cons_of_mem _ hb))]

theorem not_blank_of_isNumberedTurn (e : LogEntry) (h : isNumberedTurn e = true) :
    (TrimSpace (extractMessageText e) == "") = false := by
  simp only [isNumberedTurn, Bool.and_eq_true] at h
  have := h.2
  simpa using this

theorem generateTOCLoop_eq_enum (env : Env) (l : List LogEntry) :
    ∀ idx, generateTOCLoop env l idx
      = ((l.filter isNumberedTurn).enumFrom idx).map
          (fun p => ({ messageID := "user-msg-" ++ fmtInt p.1, number := p.1 + 1,
                       preview := EscapeString (tocPreview (extractMessageText p.2)),
                       timestamp := formatTimestamp env p.2.Timestamp } : TocItem)) := by
  induction l with
  | nil => intro idx; simp [generateTOCLoop]
  | cons x rest ih =>
    intro idx
    by_cases hu : x.Type_ = "user"
    · cases hc : (x.IsVisibleInTranscriptOnly && x.IsCompactSummary)
      · by_cases ht : TrimSpace (extractMessageText x) = ""
        · simp [generateTOCLoop, isNumberedTurn, hu, hc, ht, ih]
        · simp [generateTOCLoop, isNumberedTurn, hu, hc, ht, ih, List.enumFrom_cons]
      · simp [generateTOCLoop, isNumberedTurn, hu, hc, ih]
    · simp [generateTOCLoop, isNumberedTurn, hu, ih]

theorem tocItems_eq_enum (env : Env) (conv : Conversation) :
    tocItems env conv
      = (conv.Entries.filter isNumberedTurn).enum.map
          (fun p => ({ messageID := "user-msg-" ++ fmtInt p.1, number := p.1 + 1,
                       preview := EscapeString (tocPreview (extractMessageText p.2)),
                       timestamp := formatTimestamp env p.2.Timestamp } : TocItem)) :=
  generateTOCLoop_eq_enum env conv.Entries 0

theorem generateTOC_bytes (env : Env) (conv : Conversation) :
    generateTOC env conv
      = utf8 "\n<div class=\"sidebar\" id=\"sidebar\">\n  <div class=\"toc\">\n    "
        ++ (conv.Entries.filter isNumberedTurn).enum.flatMap
            (fun p =>
              utf8 "\n<div class=\"toc-item\" onclick=\"scrollToMessage('"
              ++ utf8 ("user-msg-" ++ fmtInt p.1)
              ++ utf8 "')\">\n  <div class=\"toc-number\">#" ++ utf8 (fmtInt (p.1 + 1))
              ++ utf8 "</div>\n  <div class=\"toc-content\">\n    <div class=\"toc-preview\">"
              ++ EscapeString (tocPreview (extractMessageText p.2))
              ++ utf8 "</div>\n    <div class=\"toc-timestamp\">" ++ formatTimestamp env p.2.Timestamp
              ++ utf8 "</div>\n  </div>\n</div>")
        ++ utf8 "\n  </div>\n</div>\n<button class=\"scroll-top-btn\" id=\"scrollTopBtn\" onclick=\"scrollToTop()\">‚Üë Top</button>\n" := by
  unfold generateTOC
  rw [tocItems_eq_enum, List.flatMap_map]
  simp only [TocItem.html, List.append_assoc]

theorem userFragments_bytes (env : Env) (conv : Conversation) :
    userFragments env conv
      = (conv.Entries.filter isNumberedTurn).enum.map
          (fun p =>
            Fragment.userMessage ("user-msg-" ++ fmtInt p.1) (p.1 + 1) (decide (p.1 > 0))
              (decide (p.1 < (collectUserMessageIDs conv.Entries).length - 1))
              (utf8 "<div class=\"message-divider\">#" ++ utf8 (fmtInt (p.1 + 1)) ++ utf8 "</div>"
                ++ utf8 "<div class=\"message-group user\">"
                ++ utf8 "<div class=\"timestamp-label\">" ++ formatTimestamp env p.2.Timestamp ++ utf8 "</div>"
                ++ utf8 "<div id=\"" ++ utf8 ("user-msg-" ++ fmtInt p.1) ++ utf8 "\" class=\"message user-message\">"
                ++ utf8 "<div class=\"message-content\">" ++ EscapeString (utf8 (extractMessageText p.2))
                ++ utf8 "</div>"
                ++ utf8 "<div class=\"message-navigation\">"
                ++ (if decide (p.1 > 0) then
                      utf8 "<button class=\"nav-btn\" onclick=\"jumpToMessage(this, 'prev')\">‚¨ÜÔ∏è</button>"
                    else [])
                ++ (if decide (p.1 < (collectUserMessageIDs conv.Entries).length - 1) then
                      utf8 "<button class=\"nav-btn\" onclick=\"jumpToMessage(this, 'next')\">‚¨áÔ∏è</button>"
                    else [])
                ++ utf8 "</div>" ++ utf8 "</div>" ++ utf8 "</div>")) := by
  unfold userFragments messageWrites
  rw [generateMessagesLoop_userWrites]
  apply map_enumFrom_congr
  intro k e he
  have hn : isNumberedTurn e = true := (List.mem_filter.mp he).2
  simp only [numberedFragment, generateUserMessageHTML_bytes, not_blank_of_isNumberedTurn e hn,
    Bool.false_eq_true, if_false]

theorem generateMessagesLoop_kinds (env : Env) (ids : List String) (l : List LogEntry) :
    ∀ idx, ∀ fr, some fr ∈ generateMessagesLoop env ids l idx → ∃ e ∈ l,
      fr = .sessionContinuation (generateSessionContinuationHTML env e)
      ∨ (∃ k hasPrev hasNext,
          fr = .userMessage ("user-msg-" ++ fmtInt k) (k + 1) hasPrev hasNext
            (generateUserMessageHTML env e ("user-msg-" ++ fmtInt k) (k + 1) hasPrev hasNext))
      ∨ (∃ nextEntry, fr = .assistantMessage (generateAssistantMessageHTML env e nextEntry)) := by
  induction l with
  | nil => intro idx fr h; simp [generateMessagesLoop] at h
  | cons x rest ih =>
    intro idx fr h
    have hrest : ∀ idx', some fr ∈ generateMessagesLoop env ids rest idx' → ∃ e ∈ x :: rest,
        fr = .sessionContinuation (generateSessionContinuationHTML env e)
        ∨ (∃ k hasPrev hasNext,
            fr = .userMessage ("user-msg-" ++ fmtInt k) (k + 1) hasPrev hasNext
              (generateUserMessageHTML env e ("user-msg-" ++ fmtInt k) (k + 1) hasPrev hasNext))
        ∨ (∃ nextEntry, fr = .assistantMessage (generateAssistantMessageHTML env e nextEntry)) := by
      intro idx' h'
      obtain ⟨e, he, hp⟩ := ih idx' fr h'
      exact ⟨e, List.mem_cons_of_mem _ he, hp⟩
    simp only [generateMessagesLoop] at h
    split at h
    · split at h
      · rcases List.mem_cons.mp h with h | h
        · simp only [Option.some.injEq] at h
          exact ⟨x, List.mem_cons_self _ _, Or.inl h⟩
        · exact hrest _ h
      · split at h
        · rcases List.mem_cons.mp h with h | h
          · simp only [Option.some.injEq] at h
            exact ⟨x, List.mem_cons_self _ _, Or.inr (Or.inl ⟨idx, _, _, h⟩)⟩
          · exact hrest _ h
        · rcases List.mem_cons.mp h with h | h
          · simp at h
          · exact hrest _ h
    · split at h
      · rcases List.mem_cons.mp h with h | h
        · simp only [Option.some.injEq] at h
          exact ⟨x, List.mem_cons_self _ _, Or.inr (Or.inr ⟨_, h⟩)⟩
        · exact hrest _ h
      · rcases List.mem_cons.mp h with h | h
        · simp at h
        · exact hrest _ h

theorem messageFragments_kinds (env : Env) (conv : Conversation) :
    ∀ fr ∈ messageFragments env conv, ∃ e ∈ conv.Entries,
      fr = .sessionContinuation (generateSessionContinuationHTML env e)
      ∨ (∃ k hasPrev hasNext,
          fr = .userMessage ("user-msg-" ++ fmtInt k) (k + 1) hasPrev hasNext
            (generateUserMessageHTML env e ("user-msg-" ++ fmtInt k) (k + 1) hasPrev hasNext))
      ∨ (∃ nextEntry, fr = .assistantMessage (generateAssistantMessageHTML env e nextEntry)) := by
  intro fr hfr
  unfold messageFragments at hfr
  rw [List.mem_filterMap] at hfr
  obtain ⟨w, hw, hwf⟩ := hfr
  simp only [id] at hwf
  subst hwf
  exact generateMessagesLoop_kinds env _ conv.Entries 0 fr hw

/-! ## Rendered numbering, escaping and navigation -/

theorem isUserMessage_eq_match :
    Fragment.isUserMessage
      = (fun fr =>
            match fr with
            | .userMessage _ _ _ _ _ => true
            | _ => false) := by
  funext fr
  cases fr <;> rfl

theorem Fragment_html_eq_match :
    Fragment.html
      = (fun fr =>
            match fr with
            | .sessionContinuation html => html
            | .userMessage _ _ _ _ html => html
            | .assistantMessage html => html) := by
  funext fr
  cases fr <;> rfl

/-- C2: `generateTOC` emits as many items as `generateMessages` emits numbered human turns,
with the same anchors and numbers, the k-th being `user-msg-k` and `k+1`; and this holds of
the rendered bytes: the output of `generateTOC` is its header, one item per numbered human
turn carrying `scrollToMessage('user-msg-k')` and `#k+1`, and its footer, while the k-th
human-turn fragment written by `generateMessages` starts with the divider `#k+1` and carries
`id="user-msg-k"`; every other fragment is a session-continuation notice or an assistant
fragment. -/
theorem toc_matches_numbered_turns (env : Env) (conv : Conversation) :
    (tocItems env conv).length = (numberedTurns env conv).length
    ∧ (tocItems env conv).map TocItem.anchor = numberedTurns env conv
    ∧ numberedTurns env conv
        = (List.range (tocItems env conv).length).map
            (fun k => ("user-msg-" ++ fmtInt k, k + 1))
    ∧ generateTOC env conv
        = utf8 "\n<div class=\"sidebar\" id=\"sidebar\">\n  <div class=\"toc\">\n    "
          ++ (conv.Entries.filter isNumberedTurn).enum.flatMap
              (fun p =>
                utf8 "\n<div class=\"toc-item\" onclick=\"scrollToMessage('"
                ++ utf8 ("user-msg-" ++ fmtInt p.1)
                ++ utf8 "')\">\n  <div class=\"toc-number\">#" ++ utf8 (fmtInt (p.1 + 1))
                ++ utf8 "</div>\n  <div class=\"toc-content\">\n    <div class=\"toc-preview\">"
                ++ EscapeString (tocPreview (extractMessageText p.2))
                ++ utf8 "</div>\n    <div class=\"toc-timestamp\">" ++ formatTimestamp env p.2.Timestamp
                ++ utf8 "</div>\n  </div>\n</div>")
          ++ utf8 "\n  </div>\n</div>\n<button class=\"scroll-top-btn\" id=\"scrollTopBtn\" onclick=\"scrollToTop()\">‚Üë Top</button>\n"
    ∧ (messageFragments env conv).filter
          (fun fr =>
            match fr with
            | .userMessage _ _ _ _ _ => true
            | _ => false)
        = (conv.Entries.filter isNumberedTurn).enum.map
            (fun p =>
              Fragment.userMessage ("user-msg-" ++ fmtInt p.1) (p.1 + 1) (decide (p.1 > 0))
                (decide (p.1 < (collectUserMessageIDs conv.Entries).length - 1))
                (utf8 "<div class=\"message-divider\">#" ++ utf8 (fmtInt (p.1 + 1)) ++ utf8 "</div>"
                  ++ utf8 "<div class=\"message-group user\">"
                  ++ utf8 "<div class=\"timestamp-label\">" ++ formatTimestamp env p.2.Timestamp ++ utf8 "</div>"
                  ++ utf8 "<div id=\"" ++ utf8 ("user-msg-" ++ fmtInt p.1) ++ utf8 "\" class=\"message user-message\">"
                  ++ utf8 "<div class=\"message-content\">" ++ EscapeString (utf8 (extractMessageText p.2))
                  ++ utf8 "</div>"
                  ++ utf8 "<div class=\"message-navigation\">"
                  ++ (if decide (p.1 > 0) then
                        utf8 "<button class=\"nav-btn\" onclick=\"jumpToMessage(this, 'prev')\">‚¨ÜÔ∏è</button>"
                      else [])
                  ++ (if decide (p.1 < (collectUserMessageIDs conv.Entries).length - 1) then
                        utf8 "<button class=\"nav-btn\" onclick=\"jumpToMessage(this, 'next')\">‚¨áÔ∏è</button>"
                      else [])
                  ++ utf8 "</div>" ++ utf8 "</div>" ++ utf8 "</div>"))
    ∧ generateMessages env conv
        = (messageFragments env conv).flatMap
          (fun fr =>
            match fr with
            | .sessionContinuation html => html
            | .userMessage _ _ _ _ html => html
            | .assistantMessage html => html)
    ∧ (∀ fr ∈ messageFragments env conv, ∃ e ∈ conv.Entries,
          fr = .sessionContinuation (generateSessionContinuationHTML env e)
          ∨ (∃ k hasPrev hasNext,
              fr = .userMessage ("user-msg-" ++ fmtInt k) (k + 1) hasPrev hasNext
                (generateUserMessageHTML env e ("user-msg-" ++ fmtInt k) (k + 1) hasPrev
                  hasNext))
          ∨ (∃ nextEntry,
              fr = .assistantMessage (generateAssistantMessageHTML env e nextEntry))) := by
  have h1 : numberedTurns env conv = (tocItems env conv).map TocItem.anchor := by
    unfold numberedTurns messageFragments messageWrites tocItems
    exact loop_dividers_eq_toc env _ conv.Entries 0
  refine ⟨by rw [h1, List.length_map], h1.symm, ?_, generateTOC_bytes env conv, ?_, ?_,
    messageFragments_kinds env conv⟩
  · rw [h1]
    unfold tocItems
    have := tocLoop_anchor_eq_range env conv.Entries 0
    simpa using this
  · rw [← isUserMessage_eq_match, ← userFragments_bytes]
    rfl
  · rw [← Fragment_html_eq_match]
    rfl

/-- C7: the output of `html.EscapeString` has none of the bytes `<` (60), `>` (62), `"` (34)
and `'` (39), and each of its `&` starts one of the five entities; and every displayed text
(human body, reasoning, assistant text, tool name, tool input, tool result, continuation
summary, TOC preview, session id) sits in the output as an `EscapeString` value between
parts that do not depend on the text.  The other fields of a TOC item are fixed: its anchor
is `user-msg-k`, its number `k+1` and its timestamp the formatted time of the turn; and each
fragment of `generateMessages` is the output of one of the three generators, a human turn
being rendered with the anchor `user-msg-k` and the number `k+1`. -/
theorem displayed_text_is_escaped (env : Env) :
    (∀ s : Bytes,
      (∀ b ∈ EscapeString s, b ≠ 60 ∧ b ≠ 62 ∧ b ≠ 34 ∧ b ≠ 39)
      ∧ AmpersandsStartEntities (EscapeString s))
    ∧ (∃ (openPart : Time → String → Nat → Bytes) (closePart : Bool → Bool → Bytes),
        ∀ (e : LogEntry) (messageID : String) (messageNumber : Nat) (hasPrev hasNext : Bool),
          generateUserMessageHTML env e messageID messageNumber hasPrev hasNext
            = if TrimSpace (extractMessageText e) == "" then []
              else openPart e.Timestamp messageID messageNumber
                ++ EscapeString (utf8 (extractMessageText e)) ++ closePart hasPrev hasNext)
    ∧ (∃ (thinkOpen textOpen toolsOpen : Time → Bytes)
          (thinkClose textClose toolsClose sep : Bytes),
        ∀ (e : LogEntry) (nextEntry : Option LogEntry),
          generateAssistantMessageHTML env e nextEntry
            = (if (parseAssistantContent e).thinkingParts.length > 0 then
                thinkOpen e.Timestamp
                  ++ EscapeString (utf8 (String.intercalate "\n\n---\n\n"
                      (parseAssistantContent e).thinkingParts))
                  ++ thinkClose
              else [])
            ++ (if String.intercalate "\n" (parseAssistantContent e).textParts != "" then
                textOpen e.Timestamp
                  ++ EscapeString (utf8 (String.intercalate "\n"
                      (parseAssistantContent e).textParts))
                  ++ textClose
              else [])
            ++ (if (correlatedToolUses e nextEntry).length > 0 then
                toolsOpen e.Timestamp
                  ++ sep.intercalate
                      ((correlatedToolUses e nextEntry).map (generateToolUseHTML env))
                  ++ toolsClose
              else []))
    ∧ (∃ (a b c d f g : Bytes), ∀ tu : ToolUse,
        generateToolUseHTML env tu
          = a ++ EscapeString (utf8 tu.Tool.Name) ++ b
            ++ EscapeString (env.marshalIndent tu.Tool.Input) ++ c
            ++ (if tu.Result != "" then d ++ EscapeString (utf8 tu.Result) ++ f else []) ++ g)
    ∧ (∃ (a : Time → Bytes) (b : Bytes), ∀ e : LogEntry,
        generateSessionContinuationHTML env e
          = a e.Timestamp ++ EscapeString (utf8 (extractMessageText e)) ++ b)
    ∧ (∃ (a b c d f g h : Bytes), ∀ conv : Conversation,
        generateTOC env conv
          = a ++ (tocItems env conv).flatMap
              (fun t => b ++ utf8 t.messageID ++ c ++ utf8 (fmtInt t.number) ++ d ++ t.preview
                ++ f ++ t.timestamp ++ g) ++ h)
    ∧ (∀ conv : Conversation,
        tocItems env conv
          = (conv.Entries.filter isNumberedTurn).enum.map
              (fun p => ({ messageID := "user-msg-" ++ fmtInt p.1, number := p.1 + 1,
                           preview := EscapeString (tocPreview (extractMessageText p.2)),
                           timestamp := formatTimestamp env p.2.Timestamp } : TocItem)))
    ∧ (∀ conv : Conversation, ∀ t ∈ tocItems env conv, ∃ e ∈ conv.Entries,
        t.preview = EscapeString (tocPreview (extractMessageText e)))
    ∧ (∃ (a b c d f g : Bytes), ∀ conv : Conversation,
        GenerateHTML env conv
          = a ++ generateTOC env conv ++ b ++ EscapeString (utf8 conv.SessionID) ++ c
            ++ formatTimestamp env conv.StartTime ++ d ++ formatTimestamp env conv.EndTime ++ f
            ++ generateMessages env conv ++ g)
    ∧ (∀ conv : Conversation,
        generateMessages env conv
          = (messageFragments env conv).flatMap
              (fun fr =>
                match fr with
                | .sessionContinuation html => html
                | .userMessage _ _ _ _ html => html
                | .assistantMessage html => html)
        ∧ ∀ fr ∈ messageFragments env conv, ∃ e ∈ conv.Entries,
            fr = .sessionContinuation (generateSessionContinuationHTML env e)
            ∨ (∃ k hasPrev hasNext,
                fr = .userMessage ("user-msg-" ++ fmtInt k) (k + 1) hasPrev hasNext
                  (generateUserMessageHTML env e ("user-msg-" ++ fmtInt k) (k + 1) hasPrev
                    hasNext))
            ∨ (∃ nextEntry,
                fr = .assistantMessage (generateAssistantMessageHTML env e nextEntry))) := by
  refine ⟨?_, generateUserMessageHTML_hole env, generateAssistantMessageHTML_hole env,
    generateToolUseHTML_hole env, generateSessionContinuationHTML_hole env, ?_,
    tocItems_eq_enum env, ?_, GenerateHTML_hole env, ?_⟩
  · intro s
    refine ⟨?_, EscapeString_ampersands s⟩
    intro b hb
    have h := EscapeString_no_markup s b hb
    simp only [isMarkupByte, Bool.or_eq_false_iff, beq_eq_false_iff_ne, ne_eq] at h
    exact ⟨h.1.1.1, h.1.1.2, h.1.2, h.2⟩
  · refine ⟨utf8 "\n<div class=\"sidebar\" id=\"sidebar\">\n  <div class=\"toc\">\n    ",
      utf8 "\n<div class=\"toc-item\" onclick=\"scrollToMessage('",
      utf8 "')\">\n  <div class=\"toc-number\">#",
      utf8 "</div>\n  <div class=\"toc-content\">\n    <div class=\"toc-preview\">",
      utf8 "</div>\n    <div class=\"toc-timestamp\">",
      utf8 "</div>\n  </div>\n</div>",
      utf8 "\n  </div>\n</div>\n<button class=\"scroll-top-btn\" id=\"scrollTopBtn\" onclick=\"scrollToTop()\">‚Üë Top</button>\n",
      ?_⟩
    intro conv
    rfl
  · intro conv t ht
    exact generateTOCLoop_preview env conv.Entries 0 t ht
  · intro conv
    refine ⟨?_, messageFragments_kinds env conv⟩
    rw [← Fragment_html_eq_match]
    rfl

/-- C15: with `n` the number of ids returned by `collectUserMessageIDs`, which is the number
of numbered human turns, `generateMessages` writes the `k`-th numbered turn (from zero) with
`hasPrev` true exactly when `k > 0` and `hasNext` true exactly when `k < n - 1`; the bytes
written by `generateUserMessageHTML` hold the `prev` button exactly when `hasPrev` is set and
the `next` button exactly when `hasNext` is set, and nothing else depends on the two flags;
so the bytes of the `k`-th numbered turn hold the `prev` button exactly when `k > 0` and the
`next` button exactly when `k < n - 1`. -/
theorem navigation_buttons_follow_position (env : Env) (conv : Conversation) :
    (collectUserMessageIDs conv.Entries).length = (conv.Entries.filter isNumberedTurn).length
    ∧ userFragments env conv
        = (conv.Entries.filter isNumberedTurn).enum.map
            (fun p =>
              Fragment.userMessage ("user-msg-" ++ fmtInt p.1) (p.1 + 1) (decide (p.1 > 0))
                (decide (p.1 < (collectUserMessageIDs conv.Entries).length - 1))
                (generateUserMessageHTML env p.2 ("user-msg-" ++ fmtInt p.1) (p.1 + 1)
                  (decide (p.1 > 0))
                  (decide (p.1 < (collectUserMessageIDs conv.Entries).length - 1))))
    ∧ (∀ (e : LogEntry) (messageID : String) (messageNumber : Nat) (hasPrev hasNext : Bool),
        generateUserMessageHTML env e messageID messageNumber hasPrev hasNext
          = if TrimSpace (extractMessageText e) == "" then []
            else utf8 "<div class=\"message-divider\">#" ++ utf8 (fmtInt messageNumber) ++ utf8 "</div>"
              ++ utf8 "<div class=\"message-group user\">"
              ++ utf8 "<div class=\"timestamp-label\">" ++ formatTimestamp env e.Timestamp ++ utf8 "</div>"
              ++ utf8 "<div id=\"" ++ utf8 messageID ++ utf8 "\" class=\"message user-message\">"
              ++ utf8 "<div class=\"message-content\">" ++ EscapeString (utf8 (extractMessageText e))
              ++ utf8 "</div>"
              ++ utf8 "<div class=\"message-navigation\">"
              ++ (if hasPrev then
                    utf8 "<button class=\"nav-btn\" onclick=\"jumpToMessage(this, 'prev')\">‚¨ÜÔ∏è</button>"
                  else [])
              ++ (if hasNext then
                    utf8 "<button class=\"nav-btn\" onclick=\"jumpToMessage(this, 'next')\">‚¨áÔ∏è</button>"
                  else [])
              ++ utf8 "</div>" ++ utf8 "</div>" ++ utf8 "</div>")
    ∧ userFragments env conv
        = (conv.Entries.filter isNumberedTurn).enum.map
            (fun p =>
              Fragment.userMessage ("user-msg-" ++ fmtInt p.1) (p.1 + 1) (decide (p.1 > 0))
                (decide (p.1 < (collectUserMessageIDs conv.Entries).length - 1))
                (utf8 "<div class=\"message-divider\">#" ++ utf8 (fmtInt (p.1 + 1)) ++ utf8 "</div>"
                  ++ utf8 "<div class=\"message-group user\">"
                  ++ utf8 "<div class=\"timestamp-label\">" ++ formatTimestamp env p.2.Timestamp ++ utf8 "</div>"
                  ++ utf8 "<div id=\"" ++ utf8 ("user-msg-" ++ fmtInt p.1) ++ utf8 "\" class=\"message user-message\">"
                  ++ utf8 "<div class=\"message-content\">" ++ EscapeString (utf8 (extractMessageText p.2))
                  ++ utf8 "</div>"
                  ++ utf8 "<div class=\"message-navigation\">"
                  ++ (if decide (p.1 > 0) then
                        utf8 "<button class=\"nav-btn\" onclick=\"jumpToMessage(this, 'prev')\">‚¨ÜÔ∏è</button>"
                      else [])
                  ++ (if decide (p.1 < (collectUserMessageIDs conv.Entries).length - 1) then
                        utf8 "<button class=\"nav-btn\" onclick=\"jumpToMessage(this, 'next')\">‚¨áÔ∏è</button>"
                      else [])
                  ++ utf8 "</div>" ++ utf8 "</div>" ++ utf8 "</div>"))
    ∧ userFragments env conv
        = (messageFragments env conv).filter
            (fun fr =>
              match fr with
              | .userMessage _ _ _ _ _ => true
              | _ => false) := by
  refine ⟨collectUserMessageIDsLoop_length conv.Entries 0, ?_,
    generateUserMessageHTML_bytes env, userFragments_bytes env conv, ?_⟩
  · unfold userFragments messageWrites
    rw [generateMessagesLoop_userWrites]
    rfl
  · rw [← isUserMessage_eq_match]
    rfl

end Parser
